import Mathlib

/-!
# CRT track reconstruction (`icaruscode/CRT/CRTUtils/CRTTrackRecoAlg.cc`)

A shallow embedding of `icarus::crt::CRTTrackRecoAlg` and the properties of its
time clustering, hit averaging and track building.

Conventions of the embedding.

* C++ `double`/`float` values are elements of an arbitrary linearly ordered field `R`
  (exact arithmetic); every definition is generic in `R`, so it can be run over `ℚ`
  and the theorems also hold over `ℝ`.
  The rounding of `float` arithmetic is made explicit where a property depends on it
  (`avgStepFloat`, `toFloat32`).
* The library primitives the code calls (`std::sort`, `sqrt`, `atan2`, the C integer
  conversions) are the fields of a record `Env R`; the theorems hold for every such
  record, i.e. for every conforming implementation of those primitives.
* An out-of-bounds access of a fixed-size C array is undefined behaviour and is modelled
  by the result `none`.
* A `for` loop over indices is a recursion over the list of the indices it visits.
-/

namespace icarus.crt

/-! ## Library primitives -/

/-- Comparator requirements of `std::sort`: a strict weak ordering, given as
asymmetry plus negative transitivity. -/
def StrictWeak {α : Type} (lt : α → α → Bool) : Prop :=
  (∀ a b, lt a b = true → lt b a = false) ∧
  (∀ a b c, lt a b = false → lt b c = false → lt a c = false)

/-- The library primitives used by `CRTTrackRecoAlg.cc`.

* `sqrt` is `sqrt` of `<cmath>` (also behind `TVector3::Mag`); only the two laws listed
  are assumed of it;
* `atan2` is `atan2` of `<cmath>`;
* `toInt` is the conversion `(int)x` / `(int32_t)x` to a 32-bit signed integer: its result
  is a 32-bit value and it is the identity on values that are 32-bit integers;
* `toUInt32`, `toUInt16` are the conversions `(uint32_t)x`, `(uint16_t)x`;
* `sort` is `std::sort(first, last, comp)`: the result is a permutation of the input and,
  when `comp` is a strict weak ordering, no element is `comp`-smaller than one before it.
  The relative order of equivalent elements is left open, as in the standard. -/
structure Env (R : Type) [LinearOrderedField R] where
  sqrt : R → R
  sqrt_nonneg : ∀ x, 0 ≤ sqrt x
  sqrt_mul_self : ∀ x, sqrt (x * x) = |x|
  atan2 : R → R → R
  toInt : R → Int
  toInt_ge : ∀ x, -2147483648 ≤ toInt x
  toInt_lt : ∀ x, toInt x < 2147483648
  toInt_cast : ∀ n : Int, -2147483648 ≤ n → n < 2147483648 → toInt (n : R) = n
  toUInt32 : R → Nat
  toUInt16 : R → Nat
  sort : {α : Type} → (α → α → Bool) → List α → List α
  sort_perm : ∀ {α : Type} (lt : α → α → Bool) (l : List α), (sort lt l).Perm l
  sort_sorted : ∀ {α : Type} (lt : α → α → Bool) (l : List α), StrictWeak lt →
    (sort lt l).Pairwise (fun a b => lt b a = false)

/-! ## Data model -/

/-- A `TVector3` (ROOT): three coordinates. -/
structure TVector3 (R : Type) where
  X : R
  Y : R
  Z : R
deriving DecidableEq, Repr

/-- The record `sbn::crt::CRTHit`, as far as the algorithm reads or writes it. -/
structure CRTHit (R : Type) where
  feb_id : List Nat
  pesmap : List (Nat × List (Int × R))
  peshit : R
  ts0_s : Nat
  ts0_s_corr : R
  ts0_ns : R
  ts0_ns_corr : R
  ts1_ns : R
  plane : Int
  x_pos : R
  x_err : R
  y_pos : R
  y_err : R
  z_pos : R
  z_err : R
  tagger : String
deriving DecidableEq, Repr

/-- An `art::Ptr<sbn::crt::CRTHit>`: the identity of the referenced product entry
(`key`) and the hit it points to. -/
structure HitPtr (R : Type) where
  key : Nat
  hit : CRTHit R
deriving DecidableEq, Repr

/-- The record `sbn::crt::CRTTrack`, as filled by `FillCrtTrack`. -/
structure CRTTrack (R : Type) where
  ts0_s : R
  ts0_s_err : Nat
  ts0_ns_h1 : R
  ts0_ns_err_h1 : R
  ts0_ns_h2 : R
  ts0_ns_err_h2 : R
  ts0_ns : Nat
  ts0_ns_err : Nat
  ts1_ns : Int
  ts1_ns_err : Nat
  peshit : R
  x1_pos : R
  x1_err : R
  y1_pos : R
  y1_err : R
  z1_pos : R
  z1_err : R
  x2_pos : R
  x2_err : R
  y2_pos : R
  y2_err : R
  z2_pos : R
  z2_err : R
  length : R
  thetaxy : R
  phizy : R
  plane1 : Int
  plane2 : Int
  complete : Bool
deriving DecidableEq, Repr

/-- The data members of `CRTTrackRecoAlg` set by `reconfigure`. -/
structure CRTTrackRecoAlg (R : Type) where
  fTimeLimit : R
  fAverageHitDistance : R
  fDistanceLimit : R
deriving DecidableEq, Repr

variable {R : Type} [LinearOrderedField R]

/-! ## Construction and configuration -/

/-- The parameter set `CRTTrackRecoAlg::Config` as read by `reconfigure`: the values of
the three `fhicl` atoms `TimeLimit`, `AverageHitDistance`, `DistanceLimit`. -/
structure Config (R : Type) where
  TimeLimit : R
  AverageHitDistance : R
  DistanceLimit : R
deriving DecidableEq, Repr

/-- `CRTTrackRecoAlg::reconfigure`: the data members after the call. The function has no
failure path. -/
def reconfigure (_self : CRTTrackRecoAlg R) (config : Config R) : CRTTrackRecoAlg R :=
  { fTimeLimit := config.TimeLimit
    fAverageHitDistance := config.AverageHitDistance
    fDistanceLimit := config.DistanceLimit }

/-- The constructor `CRTTrackRecoAlg(const Config&)`: it calls `reconfigure` on the
object under construction, whose data members `uninit` are not yet initialised. -/
def newFromConfig (uninit : CRTTrackRecoAlg R) (config : Config R) : CRTTrackRecoAlg R :=
  reconfigure uninit config

/-- The constructor `CRTTrackRecoAlg(double aveHitDist, double distLim)`: it sets two
data members and leaves `fTimeLimit` as it is in the uninitialised object `uninit`. -/
def newFromLimits (uninit : CRTTrackRecoAlg R) (aveHitDist distLim : R) : CRTTrackRecoAlg R :=
  { uninit with fAverageHitDistance := aveHitDist, fDistanceLimit := distLim }

/-! ## `CreateCRTTzeros` -/

/-- Capacity of the used-flag array `int iflag[2000]`. -/
def iflagSize : Nat := 2000

/-- The array `int iflag[2000]`: its contents as a map from index to value. Only the
indices below `iflagSize` exist; see `iflagRead`. -/
abbrev IFlag : Type := Nat → Int

/-- The zero-initialised array `int iflag[2000] = {}`. -/
def iflagInit : IFlag := fun _ => 0

/-- The read `iflag[j]`; `none` when `j` is outside the array. -/
def iflagRead (iflag : IFlag) (j : Nat) : Option Int :=
  if j < iflagSize then some (iflag j) else none

/-- The write `iflag[j] = v` (only ever performed after a read of `iflag[j]`). -/
def iflagWrite (iflag : IFlag) (j : Nat) (v : Int) : IFlag :=
  fun k => if k = j then v else iflag k

/-- Inner loop of `CreateCRTTzeros` (`for j = i+1; j < hits.size(); j++`), run over
the list of the values of `j`. State: the flag array and the cluster being built. -/
def tzeroInner (fTimeLimit : R) (hits : List (HitPtr R)) (time_ns_A : R) :
    List Nat → IFlag × List (HitPtr R) → Option (IFlag × List (HitPtr R))
  | [], st => some st
  | j :: js, (iflag, crtTzero) =>
    match iflagRead iflag j, hits[j]? with
    | some f, some hj =>
      if f = 0 then
        let time_ns_B := hj.hit.ts0_ns
        let diff := |time_ns_B - time_ns_A| * (1 / 1000)
        if diff < fTimeLimit then
          tzeroInner fTimeLimit hits time_ns_A js (iflagWrite iflag j 1, crtTzero ++ [hj])
        else tzeroInner fTimeLimit hits time_ns_A js (iflag, crtTzero)
      else tzeroInner fTimeLimit hits time_ns_A js (iflag, crtTzero)
    | _, _ => none

/-- Outer loop of `CreateCRTTzeros` (`for i = 0; i < hits.size(); i++`), run over the
list of the values of `i`. State: the flag array and `crtTzeroVect`. -/
def tzeroOuter (fTimeLimit : R) (hits : List (HitPtr R)) :
    List Nat → IFlag × List (List (HitPtr R)) → Option (IFlag × List (List (HitPtr R)))
  | [], st => some st
  | i :: is, (iflag, crtTzeroVect) =>
    match iflagRead iflag i, hits[i]? with
    | some f, some hi =>
      if f = 0 then
        match tzeroInner fTimeLimit hits hi.hit.ts0_ns
            (List.range' (i + 1) (hits.length - (i + 1))) (iflagWrite iflag i 1, [hi]) with
        | some (iflag1, crtTzero) =>
          tzeroOuter fTimeLimit hits is (iflag1, crtTzeroVect ++ [crtTzero])
        | none => none
      else tzeroOuter fTimeLimit hits is (iflag, crtTzeroVect)
    | _, _ => none

/-- `CRTTrackRecoAlg::CreateCRTTzeros`: sort the hits by `ts0_ns`, then cluster greedily
around the earliest unused hit. `none` is an access outside `iflag`. -/
def CreateCRTTzeros (E : Env R) (alg : CRTTrackRecoAlg R) (hits : List (HitPtr R)) :
    Option (List (List (HitPtr R))) :=
  let sorted := E.sort (fun left right => decide (left.hit.ts0_ns < right.hit.ts0_ns)) hits
  (tzeroOuter alg.fTimeLimit sorted (List.range sorted.length) (iflagInit, [])).map Prod.snd

/-! ## `TVector3` operations -/

/-- The difference `a - b` of two `TVector3`. -/
def TVector3.sub (a b : TVector3 R) : TVector3 R :=
  ⟨a.X - b.X, a.Y - b.Y, a.Z - b.Z⟩

/-- The magnitude `TVector3::Mag()`: the square root of the sum of the squares. -/
def TVector3.Mag (E : Env R) (v : TVector3 R) : R :=
  E.sqrt (v.X * v.X + v.Y * v.Y + v.Z * v.Z)

/-! ## `FillCrtTrack` -/

/-- `CRTTrackRecoAlg::FillCrtTrack`. The sum and difference of the `uint64_t` fields
`ts0_s` are taken modulo `2^64`. -/
def FillCrtTrack (E : Env R) (hit1 hit2 : CRTHit R) (complete : Bool) : CRTTrack R :=
  let deltax := hit1.x_pos - hit2.x_pos
  let deltay := hit1.y_pos - hit2.y_pos
  let deltaz := hit1.z_pos - hit2.z_pos
  { ts0_s := (((hit1.ts0_s + hit2.ts0_s) % 18446744073709551616 : Nat) : R) / 2
    ts0_s_err :=
      E.toUInt32
        ((((hit1.ts0_s + 18446744073709551616 - hit2.ts0_s) % 18446744073709551616 : Nat) : R) / 2)
    ts0_ns_h1 := hit1.ts0_ns
    ts0_ns_err_h1 := hit1.ts0_ns_corr
    ts0_ns_h2 := hit2.ts0_ns
    ts0_ns_err_h2 := hit2.ts0_ns_corr
    ts0_ns := E.toUInt32 ((hit1.ts0_ns + hit2.ts0_ns) / 2)
    ts0_ns_err :=
      E.toUInt16
        (E.sqrt (hit1.ts0_ns_corr * hit1.ts0_ns_corr + hit2.ts0_ns_corr * hit2.ts0_ns_corr) / 2)
    ts1_ns := E.toInt ((((E.toInt hit1.ts1_ns : Int) : R) + ((E.toInt hit2.ts1_ns : Int) : R)) / 2)
    ts1_ns_err :=
      E.toUInt16
        (E.sqrt (hit1.ts0_ns_corr * hit1.ts0_ns_corr + hit2.ts0_ns_corr * hit2.ts0_ns_corr) / 2)
    peshit := hit1.peshit + hit2.peshit
    x1_pos := hit1.x_pos
    x1_err := hit1.x_err
    y1_pos := hit1.y_pos
    y1_err := hit1.y_err
    z1_pos := hit1.z_pos
    z1_err := hit1.z_err
    x2_pos := hit2.x_pos
    x2_err := hit2.x_err
    y2_pos := hit2.y_pos
    y2_err := hit2.y_err
    z2_pos := hit2.z_pos
    z2_err := hit2.z_err
    length := E.sqrt (deltax * deltax + deltay * deltay + deltaz * deltaz)
    thetaxy := E.atan2 deltax deltay
    phizy := E.atan2 deltaz deltay
    plane1 := hit1.plane
    plane2 := hit2.plane
    complete := complete }

/-! ## `DoAverage` -/

/-- Modelled from the spec: `CRTHitRecoAlg::FillCRTHit` (the member `hitAlg`) is not part
of the sources. It builds a hit from its arguments: board, charge map, charge, the two
times, plane, position and uncertainty per axis, and tagger are stored in the fields of
the same meaning; the fields without an argument are zero. -/
def FillCRTHit (feb_id : List Nat) (pesmap : List (Nat × List (Int × R))) (peshit : R)
    (time0 time1 : R) (plane : Int) (x ex y ey z ez : R) (tagger : String) : CRTHit R :=
  { feb_id := feb_id, pesmap := pesmap, peshit := peshit, ts0_s := 0, ts0_s_corr := 0,
    ts0_ns := time0, ts0_ns_corr := 0, ts1_ns := time1, plane := plane,
    x_pos := x, x_err := ex, y_pos := y, y_err := ey, z_pos := z, z_err := ez,
    tagger := tagger }

/-- The local variables of `DoAverage` updated by its loop. -/
structure AvgState (R : Type) where
  xpos : R
  ypos : R
  zpos : R
  xmax : R
  xmin : R
  ymax : R
  ymin : R
  zmax : R
  zmin : R
  ts0_ns : R
  ts1_ns : R
  nhits : Nat

/-- The initial values of the local variables of `DoAverage`. -/
def avgInit : AvgState R :=
  { xpos := 0, ypos := 0, zpos := 0,
    xmax := -99999, xmin := 99999, ymax := -99999, ymin := 99999,
    zmax := -99999, zmin := 99999, ts0_ns := 0, ts1_ns := 0, nhits := 0 }

/-- One iteration of the loop `for (auto& hit : hits)` of `DoAverage`. The sums `pos + err`
and `pos - err`, which the code forms in `float`, are taken exactly here: this is the
reading of `DoAverage` in exact arithmetic, in which the formulas for its result are
stated. `avgStepFloat` makes the rounding of these sums explicit. -/
def avgStep (E : Env R) (a : AvgState R) (hit : HitPtr R) : AvgState R :=
  { xpos := a.xpos + hit.hit.x_pos
    ypos := a.ypos + hit.hit.y_pos
    zpos := a.zpos + hit.hit.z_pos
    ts0_ns := a.ts0_ns + ((E.toInt hit.hit.ts0_ns : Int) : R)
    ts1_ns := a.ts1_ns + ((E.toInt hit.hit.ts1_ns : Int) : R)
    xmax := if hit.hit.x_pos + hit.hit.x_err > a.xmax then hit.hit.x_pos + hit.hit.x_err else a.xmax
    xmin := if hit.hit.x_pos - hit.hit.x_err < a.xmin then hit.hit.x_pos - hit.hit.x_err else a.xmin
    ymax := if hit.hit.y_pos + hit.hit.y_err > a.ymax then hit.hit.y_pos + hit.hit.y_err else a.ymax
    ymin := if hit.hit.y_pos - hit.hit.y_err < a.ymin then hit.hit.y_pos - hit.hit.y_err else a.ymin
    zmax := if hit.hit.z_pos + hit.hit.z_err > a.zmax then hit.hit.z_pos + hit.hit.z_err else a.zmax
    zmin := if hit.hit.z_pos - hit.hit.z_err < a.zmin then hit.hit.z_pos - hit.hit.z_err else a.zmin
    nhits := a.nhits + 1 }

/-- `CRTTrackRecoAlg::DoAverage`. `none` is the access `hits[0]` of an empty vector. -/
def DoAverage (E : Env R) (hits : List (HitPtr R)) : Option (CRTHit R) :=
  match hits with
  | [] => none
  | hits0 :: _ =>
    let a := hits.foldl (avgStep E) avgInit
    some (FillCRTHit hits0.hit.feb_id hits0.hit.pesmap hits0.hit.peshit
      ((a.ts0_ns / (a.nhits : R)) * (1 / 1000)) ((a.ts1_ns / (a.nhits : R)) * (1 / 1000))
      hits0.hit.plane (a.xpos / (a.nhits : R)) ((a.xmax - a.xmin) / 2)
      (a.ypos / (a.nhits : R)) ((a.ymax - a.ymin) / 2)
      (a.zpos / (a.nhits : R)) ((a.zmax - a.zmin) / 2) hits0.hit.tagger)

/-- One iteration of the loop of `DoAverage` with the rounding of the `float` sums made
explicit. The position and uncertainty fields of `sbn::crt::CRTHit` are `float`, so each
of the six sums `pos + err`, `pos - err` of lines 240-245 is formed in binary32 before it
is compared with, and stored in, the `double` bound; `fl` is that rounding to `float`.
The other operations are on `double` and are taken exactly, as in `avgStep`. -/
def avgStepFloat (fl : R → R) (E : Env R) (a : AvgState R) (hit : HitPtr R) : AvgState R :=
  { xpos := a.xpos + hit.hit.x_pos
    ypos := a.ypos + hit.hit.y_pos
    zpos := a.zpos + hit.hit.z_pos
    ts0_ns := a.ts0_ns + ((E.toInt hit.hit.ts0_ns : Int) : R)
    ts1_ns := a.ts1_ns + ((E.toInt hit.hit.ts1_ns : Int) : R)
    xmax := if fl (hit.hit.x_pos + hit.hit.x_err) > a.xmax then fl (hit.hit.x_pos + hit.hit.x_err)
      else a.xmax
    xmin := if fl (hit.hit.x_pos - hit.hit.x_err) < a.xmin then fl (hit.hit.x_pos - hit.hit.x_err)
      else a.xmin
    ymax := if fl (hit.hit.y_pos + hit.hit.y_err) > a.ymax then fl (hit.hit.y_pos + hit.hit.y_err)
      else a.ymax
    ymin := if fl (hit.hit.y_pos - hit.hit.y_err) < a.ymin then fl (hit.hit.y_pos - hit.hit.y_err)
      else a.ymin
    zmax := if fl (hit.hit.z_pos + hit.hit.z_err) > a.zmax then fl (hit.hit.z_pos + hit.hit.z_err)
      else a.zmax
    zmin := if fl (hit.hit.z_pos - hit.hit.z_err) < a.zmin then fl (hit.hit.z_pos - hit.hit.z_err)
      else a.zmin
    nhits := a.nhits + 1 }

/-- `CRTTrackRecoAlg::DoAverage` with the rounding `fl` of the `float` sums made explicit
(`avgStepFloat`). `DoAverage` is the case in which these sums are exact
(`DoAverageFloat_id`). -/
def DoAverageFloat (fl : R → R) (E : Env R) (hits : List (HitPtr R)) : Option (CRTHit R) :=
  match hits with
  | [] => none
  | hits0 :: _ =>
    let a := hits.foldl (avgStepFloat fl E) avgInit
    some (FillCRTHit hits0.hit.feb_id hits0.hit.pesmap hits0.hit.peshit
      ((a.ts0_ns / (a.nhits : R)) * (1 / 1000)) ((a.ts1_ns / (a.nhits : R)) * (1 / 1000))
      hits0.hit.plane (a.xpos / (a.nhits : R)) ((a.xmax - a.xmin) / 2)
      (a.ypos / (a.nhits : R)) ((a.ymax - a.ymin) / 2)
      (a.zpos / (a.nhits : R)) ((a.zmax - a.zmin) / 2) hits0.hit.tagger)

/-! ## `AverageHits` (with the hit-to-id map) -/

/-- The lookup `hitIds[p]` in the `std::map` from hit pointers to ids, given as its list
of (key, id) entries: the id stored for the pointer, `0` for a pointer without entry. -/
def hitIdOf (hitIds : List (Nat × Int)) (p : HitPtr R) : Int :=
  (hitIds.lookup p.key).getD 0

/-- The local variables of the loop of `AverageHits`. -/
structure AveState (R : Type) where
  first : Bool
  middle : TVector3 R
  aveHits : List (HitPtr R)
  spareHits : List (HitPtr R)

/-- One iteration of the loop over the hits in `AverageHits`. -/
def aveStep (E : Env R) (fAverageHitDistance : R) (st : AveState R) (hit : HitPtr R) :
    AveState R :=
  let pos : TVector3 R := ⟨hit.hit.x_pos, hit.hit.y_pos, hit.hit.z_pos⟩
  let middle := if st.first then pos else st.middle
  if (pos.sub middle).Mag E < fAverageHitDistance then
    { first := false, middle := middle, aveHits := st.aveHits ++ [hit], spareHits := st.spareHits }
  else
    { first := false, middle := middle, aveHits := st.aveHits, spareHits := st.spareHits ++ [hit] }

/-- The recursion of `AverageHits` (overload with `hitIds`), with a bound `fuel` on the
number of nested calls; `none` when the bound is reached or `DoAverage` fails. -/
def AverageHitsFuel (E : Env R) (alg : CRTTrackRecoAlg R) (hitIds : List (Nat × Int)) :
    Nat → List (HitPtr R) → Option (List (CRTHit R × List Int))
  | 0, _ => none
  | fuel + 1, hits =>
    if hits.length > 0 then
      let st := hits.foldl (aveStep E alg.fAverageHitDistance)
        { first := true, middle := ⟨0, 0, 0⟩, aveHits := [], spareHits := [] }
      if st.aveHits.length > 0 then
        match DoAverage E st.aveHits, AverageHitsFuel E alg hitIds fuel st.spareHits with
        | some aveHit, some moreHits =>
          some ((aveHit, st.aveHits.map (hitIdOf hitIds)) :: moreHits)
        | _, _ => none
      else some []
    else some []

/-- `CRTTrackRecoAlg::AverageHits(hits, hitIds)`; the recursion is given one more call
than there are hits, which always suffices (`AverageHitsFuel_isSome`). -/
def AverageHits (E : Env R) (alg : CRTTrackRecoAlg R) (hits : List (HitPtr R))
    (hitIds : List (Nat × Int)) : Option (List (CRTHit R × List Int)) :=
  AverageHitsFuel E alg hitIds (hits.length + 1) hits

/-! ## `CrossPoint` -/

/-- `CRTTrackRecoAlg::CrossPoint`. The result is `none` when the division by the
component of `diff` along the matched axis is a division by zero: the coordinates
computed from it are then infinite or NaN. When no axis matches, the default-constructed
`TVector3 cross` is returned, which ROOT initialises to the zero vector. -/
def CrossPoint (hit : CRTHit R) (start diff : TVector3 R) : Option (TVector3 R) :=
  if hit.x_err > 39 / 100 ∧ hit.x_err < 41 / 100 then
    let xc := hit.x_pos
    if diff.X = 0 then none
    else some ⟨xc, ((xc - start.X) / diff.X * diff.Y) + start.Y,
      ((xc - start.X) / diff.X * diff.Z) + start.Z⟩
  else if hit.y_err > 39 / 100 ∧ hit.y_err < 41 / 100 then
    let yc := hit.y_pos
    if diff.Y = 0 then none
    else some ⟨((yc - start.Y) / diff.Y * diff.X) + start.X, yc,
      ((yc - start.Y) / diff.Y * diff.Z) + start.Z⟩
  else if hit.z_err > 39 / 100 ∧ hit.z_err < 41 / 100 then
    let zc := hit.z_pos
    if diff.Z = 0 then none
    else some ⟨((zc - start.Z) / diff.Z * diff.X) + start.X,
      ((zc - start.Z) / diff.Z * diff.Y) + start.Y, zc⟩
  else some ⟨0, 0, 0⟩

/-! ## `CreateTracks` (overload on (hit, id-list) pairs) -/

/-- The hit `hits[k].first`. Every index `CreateTracks` uses is below `hits.size()`;
outside that range the value is a placeholder hit with all fields zero or empty. -/
def hitAt (hits : List (CRTHit R × List Int)) (k : Nat) : CRTHit R :=
  match hits[k]? with
  | some p => p.1
  | none =>
    { feb_id := [], pesmap := [], peshit := 0, ts0_s := 0, ts0_s_corr := 0, ts0_ns := 0,
      ts0_ns_corr := 0, ts1_ns := 0, plane := 0, x_pos := 0, x_err := 0, y_pos := 0,
      y_err := 0, z_pos := 0, z_err := 0, tagger := "" }

/-- The id list `hits[k].second` (empty outside the range of `hits`). -/
def idsAt (hits : List (CRTHit R × List Int)) (k : Nat) : List Int :=
  match hits[k]? with
  | some p => p.2
  | none => []

/-- The position of a hit as a `TVector3`. -/
def hitPos (hit : CRTHit R) : TVector3 R := ⟨hit.x_pos, hit.y_pos, hit.z_pos⟩

/-- Body of the double loop of Phase 1 for the indices `i`, `j`. State: `usedPairs` and
`hitPairDist`. -/
def pairStep (E : Env R) (hits : List (CRTHit R × List Int)) (i j : Nat)
    (st : List (Nat × Nat) × List ((Nat × Nat) × R)) :
    List (Nat × Nat) × List ((Nat × Nat) × R) :=
  let hit1 := hitAt hits i
  let hit2 := hitAt hits j
  let hitPair := (i, j)
  let rhitPair := (j, i)
  if hit1.tagger ≠ hit2.tagger ∧ rhitPair ∉ st.1 then
    let dist := ((hitPos hit1).sub (hitPos hit2)).Mag E
    (st.1 ++ [hitPair], st.2 ++ [(hitPair, dist)])
  else st

/-- Phase 1 of `CreateTracks`: the double loop over `i` and `j`; returns `usedPairs` and
`hitPairDist` (before sorting). -/
def hitPairLoop (E : Env R) (hits : List (CRTHit R × List Int)) :
    List (Nat × Nat) × List ((Nat × Nat) × R) :=
  (List.range hits.length).foldl
    (fun st i => (List.range hits.length).foldl (fun st j => pairStep E hits i j st) st)
    ([], [])

/-- The list `hitPairDist` after `std::sort` by decreasing distance. -/
def sortedHitPairDist (E : Env R) (hits : List (CRTHit R × List Int)) :
    List ((Nat × Nat) × R) :=
  E.sort (fun left right => decide (left.2 > right.2)) (hitPairLoop E hits).2

/-- The distance `(cross - mid).Mag()` between hit `khit` and the point where the line
crosses its plane; `none` when the crossing point has a non-finite coordinate, in which
case the distance is not below any limit. -/
def crossDist (E : Env R) (khit : CRTHit R) (start diff : TVector3 R) : Option R :=
  (CrossPoint khit start diff).map (fun cross => (cross.sub (hitPos khit)).Mag E)

/-- Body of the loop over `k` in the 1D-hit scan. State: `nhits` and `totalDist`. -/
def scanSupportStep (E : Env R) (alg : CRTTrackRecoAlg R) (hits : List (CRTHit R × List Int))
    (hit_i hit_j : Nat) (ihit jhit : CRTHit R) (start diff : TVector3 R)
    (st : List Nat × R) (k : Nat) : List Nat × R :=
  if k = hit_i ∨ k = hit_j ∨ (hitAt hits k).tagger = ihit.tagger ∨
      (hitAt hits k).tagger = jhit.tagger then st
  else
    match crossDist E (hitAt hits k) start diff with
    | some dist => if dist < alg.fDistanceLimit then (st.1 ++ [k], st.2 + dist) else st
    | none => st

/-- The local variables `facMax`, `nhitsMax`, `minDist` of the 1D-hit scan. -/
structure ScanState (R : Type) where
  facMax : R
  nhitsMax : List Nat
  minDist : R

/-- Body of the loop `for (int i = 0; i < 21; i++)` of the 1D-hit scan. The quotient
`totalDist/nhits.size()` is `0./0 = NaN` when `nhits` is empty, and the comparison with
`minDist` is then false. -/
def scanStep (E : Env R) (alg : CRTTrackRecoAlg R) (hits : List (CRTHit R × List Int))
    (hit_i hit_j : Nat) (ihit jhit : CRTHit R) (st : ScanState R) (i : Nat) : ScanState R :=
  let fac : R := (i : R) / 10
  let start : TVector3 R :=
    ⟨ihit.x_pos - (1 - fac) * ihit.x_err, ihit.y_pos, ihit.z_pos - (1 - fac) * ihit.z_err⟩
  let end_ : TVector3 R := ⟨jhit.x_pos, jhit.y_pos, jhit.z_pos⟩
  let diff := start.sub end_
  let r := (List.range hits.length).foldl
    (scanSupportStep E alg hits hit_i hit_j ihit jhit start diff) ([], 0)
  let nhits := r.1
  let totalDist := r.2
  if nhits.length ≥ st.nhitsMax.length ∧ nhits.length ≠ 0 ∧
      totalDist / (nhits.length : R) < st.minDist then
    { nhitsMax := nhits, facMax := fac, minDist := totalDist / (nhits.length : R) }
  else st

/-- Body of the loop over `k` when the first anchor is not a 1D hit. State: `trackCand`. -/
def plainSupportStep (E : Env R) (alg : CRTTrackRecoAlg R) (hits : List (CRTHit R × List Int))
    (hit_i hit_j : Nat) (ihit jhit : CRTHit R) (start diff : TVector3 R)
    (trackCand : List Nat) (k : Nat) : List Nat :=
  if k = hit_i ∨ k = hit_j ∨ (hitAt hits k).tagger = ihit.tagger ∨
      (hitAt hits k).tagger = jhit.tagger then trackCand
  else
    match crossDist E (hitAt hits k) start diff with
    | some dist => if dist < alg.fDistanceLimit then trackCand ++ [k] else trackCand
    | none => trackCand

/-- Phase 2 of `CreateTracks` for one entry of the sorted `hitPairDist`: the track
candidate (hit indices, depth factor) pushed onto `tracks`. -/
def trackCandidate (E : Env R) (alg : CRTTrackRecoAlg R) (hits : List (CRTHit R × List Int))
    (p : (Nat × Nat) × R) : List Nat × R :=
  let swap : Bool := decide ((hitAt hits p.1.2).tagger = "volTaggerBot_0")
  let hit_i := if swap then p.1.2 else p.1.1
  let hit_j := if swap then p.1.1 else p.1.2
  let ihit := hitAt hits hit_i
  let jhit := hitAt hits hit_j
  if ihit.x_err > 100 ∨ ihit.z_err > 100 then
    let st := (List.range 21).foldl (scanStep E alg hits hit_i hit_j ihit jhit)
      { facMax := 1, nhitsMax := [], minDist := 99999 }
    ([hit_i, hit_j] ++ st.nhitsMax, st.facMax)
  else
    let start : TVector3 R := ⟨ihit.x_pos, ihit.y_pos, ihit.z_pos⟩
    let end_ : TVector3 R := ⟨jhit.x_pos, jhit.y_pos, jhit.z_pos⟩
    let diff := start.sub end_
    let trackCand := (List.range hits.length).foldl
      (plainSupportStep E alg hits hit_i hit_j ihit jhit start diff) [hit_i, hit_j]
    (trackCand, 1)

/-- The list `tracks` of candidates after `std::sort` by decreasing number of hits. -/
def sortedTracks (E : Env R) (alg : CRTTrackRecoAlg R) (hits : List (CRTHit R × List Int)) :
    List (List Nat × R) :=
  E.sort (fun left right => decide (left.1.length > right.1.length))
    ((sortedHitPairDist E hits).map (trackCandidate E alg hits))

/-- The track and id list pushed onto `returnTracks` for an accepted candidate `track`
(the part of the body of the selection loop after the `used` test). -/
def emitTrack (E : Env R) (hits : List (CRTHit R × List Int)) (track : List Nat × R) :
    CRTTrack R × List Int :=
  let swap : Bool := decide ((hitAt hits (track.1.getD 1 0)).tagger = "volTaggerTopHigh_0")
  let hit_i := if swap then track.1.getD 1 0 else track.1.getD 0 0
  let hit_j := if swap then track.1.getD 0 0 else track.1.getD 1 0
  let ihit0 := hitAt hits hit_i
  let jhit := hitAt hits hit_j
  let ihit1 := { ihit0 with x_pos := ihit0.x_pos - (1 - track.2) * ihit0.x_err }
  let ihit := { ihit1 with z_pos := ihit1.z_pos - (1 - track.2) * ihit1.z_err }
  let crtTrack := FillCrtTrack E ihit jhit true
  let crtTrack :=
    if track.1.length = 2 ∧ ihit.tagger = "volTaggerTopHigh_0" ∧
        jhit.tagger = "volTaggerTopLow_0" then
      { crtTrack with complete := false }
    else crtTrack
  let ids := (List.range track.1.length).foldl (fun ids i => ids ++ idsAt hits i) []
  (crtTrack, ids)

/-- The selection loop `for (auto& track : tracks)` of Phase 3, with the list `usedHits`
as state; returns the entries pushed onto `returnTracks`, in order. -/
def selectLoop (E : Env R) (hits : List (CRTHit R × List Int)) :
    List (List Nat × R) → List Nat → List (CRTTrack R × List Int)
  | [], _ => []
  | track :: rest, usedHits =>
    if track.1.any (fun h => decide (h ∈ usedHits)) then selectLoop E hits rest usedHits
    else
      emitTrack E hits track ::
        selectLoop E hits rest (if track.1.length > 2 then usedHits ++ track.1 else usedHits)

/-- `CRTTrackRecoAlg::CreateTracks(vector<pair<CRTHit, vector<int>>>)`. -/
def CreateTracks (E : Env R) (alg : CRTTrackRecoAlg R) (hits : List (CRTHit R × List Int)) :
    List (CRTTrack R × List Int) :=
  selectLoop E hits (sortedTracks E alg hits) []

/-- The candidates the selection loop accepts, in order: the same loop as `selectLoop`,
recording the accepted candidate instead of the track built from it
(`selectLoop_eq_map`). -/
def acceptedLoop : List (List Nat × R) → List Nat → List (List Nat × R)
  | [], _ => []
  | track :: rest, usedHits =>
    if track.1.any (fun h => decide (h ∈ usedHits)) then acceptedLoop rest usedHits
    else
      track :: acceptedLoop rest (if track.1.length > 2 then usedHits ++ track.1 else usedHits)

/-- The candidates accepted by `CreateTracks`, in output order. -/
def acceptedCandidates (E : Env R) (alg : CRTTrackRecoAlg R)
    (hits : List (CRTHit R × List Int)) : List (List Nat × R) :=
  acceptedLoop (sortedTracks E alg hits) []

/-! ## `CreateTracks` (overload on hits without id lists) -/

/-- The hit `hits[k]` in the overload on hits. Every index used is below `hits.size()`;
outside that range the value is a placeholder hit with all fields zero or empty. -/
def hitOf (hits : List (CRTHit R)) (k : Nat) : CRTHit R :=
  match hits[k]? with
  | some h => h
  | none =>
    { feb_id := [], pesmap := [], peshit := 0, ts0_s := 0, ts0_s_corr := 0, ts0_ns := 0,
      ts0_ns_corr := 0, ts1_ns := 0, plane := 0, x_pos := 0, x_err := 0, y_pos := 0,
      y_err := 0, z_pos := 0, z_err := 0, tagger := "" }

/-- Body of the double loop of Phase 1 (overload on hits) for the indices `i`, `j`. -/
def pairStepHits (E : Env R) (hits : List (CRTHit R)) (i j : Nat)
    (st : List (Nat × Nat) × List ((Nat × Nat) × R)) :
    List (Nat × Nat) × List ((Nat × Nat) × R) :=
  let hit1 := hitOf hits i
  let hit2 := hitOf hits j
  let hitPair := (i, j)
  let rhitPair := (j, i)
  if hit1.tagger ≠ hit2.tagger ∧ rhitPair ∉ st.1 then
    let dist := ((hitPos hit1).sub (hitPos hit2)).Mag E
    (st.1 ++ [hitPair], st.2 ++ [(hitPair, dist)])
  else st

/-- Phase 1 of the overload on hits: returns `usedPairs` and `hitPairDist`. -/
def hitPairLoopHits (E : Env R) (hits : List (CRTHit R)) :
    List (Nat × Nat) × List ((Nat × Nat) × R) :=
  (List.range hits.length).foldl
    (fun st i => (List.range hits.length).foldl (fun st j => pairStepHits E hits i j st) st)
    ([], [])

/-- The list `hitPairDist` of the overload on hits after `std::sort`. -/
def sortedHitPairDistHits (E : Env R) (hits : List (CRTHit R)) : List ((Nat × Nat) × R) :=
  E.sort (fun left right => decide (left.2 > right.2)) (hitPairLoopHits E hits).2

/-- Body of the loop over `k` in the 1D-hit scan (overload on hits). -/
def scanSupportStepHits (E : Env R) (alg : CRTTrackRecoAlg R) (hits : List (CRTHit R))
    (hit_i hit_j : Nat) (ihit jhit : CRTHit R) (start diff : TVector3 R)
    (st : List Nat × R) (k : Nat) : List Nat × R :=
  if k = hit_i ∨ k = hit_j ∨ (hitOf hits k).tagger = ihit.tagger ∨
      (hitOf hits k).tagger = jhit.tagger then st
  else
    match crossDist E (hitOf hits k) start diff with
    | some dist => if dist < alg.fDistanceLimit then (st.1 ++ [k], st.2 + dist) else st
    | none => st

/-- Body of the loop `for (int i = 0; i < 21; i++)` of the 1D-hit scan (overload on
hits); see `scanStep` for the treatment of `totalDist/nhits.size()`. -/
def scanStepHits (E : Env R) (alg : CRTTrackRecoAlg R) (hits : List (CRTHit R))
    (hit_i hit_j : Nat) (ihit jhit : CRTHit R) (st : ScanState R) (i : Nat) : ScanState R :=
  let fac : R := (i : R) / 10
  let start : TVector3 R :=
    ⟨ihit.x_pos - (1 - fac) * ihit.x_err, ihit.y_pos, ihit.z_pos - (1 - fac) * ihit.z_err⟩
  let end_ : TVector3 R := ⟨jhit.x_pos, jhit.y_pos, jhit.z_pos⟩
  let diff := start.sub end_
  let r := (List.range hits.length).foldl
    (scanSupportStepHits E alg hits hit_i hit_j ihit jhit start diff) ([], 0)
  let nhits := r.1
  let totalDist := r.2
  if nhits.length ≥ st.nhitsMax.length ∧ nhits.length ≠ 0 ∧
      totalDist / (nhits.length : R) < st.minDist then
    { nhitsMax := nhits, facMax := fac, minDist := totalDist / (nhits.length : R) }
  else st

/-- Body of the loop over `k` when the first anchor is not a 1D hit (overload on hits). -/
def plainSupportStepHits (E : Env R) (alg : CRTTrackRecoAlg R) (hits : List (CRTHit R))
    (hit_i hit_j : Nat) (ihit jhit : CRTHit R) (start diff : TVector3 R)
    (trackCand : List Nat) (k : Nat) : List Nat :=
  if k = hit_i ∨ k = hit_j ∨ (hitOf hits k).tagger = ihit.tagger ∨
      (hitOf hits k).tagger = jhit.tagger then trackCand
  else
    match crossDist E (hitOf hits k) start diff with
    | some dist => if dist < alg.fDistanceLimit then trackCand ++ [k] else trackCand
    | none => trackCand

/-- Phase 2 of the overload on hits for one entry of the sorted `hitPairDist`. -/
def trackCandidateHits (E : Env R) (alg : CRTTrackRecoAlg R) (hits : List (CRTHit R))
    (p : (Nat × Nat) × R) : List Nat × R :=
  let swap : Bool := decide ((hitOf hits p.1.2).tagger = "volTaggerBot_0")
  let hit_i := if swap then p.1.2 else p.1.1
  let hit_j := if swap then p.1.1 else p.1.2
  let ihit := hitOf hits hit_i
  let jhit := hitOf hits hit_j
  if ihit.x_err > 100 ∨ ihit.z_err > 100 then
    let st := (List.range 21).foldl (scanStepHits E alg hits hit_i hit_j ihit jhit)
      { facMax := 1, nhitsMax := [], minDist := 99999 }
    ([hit_i, hit_j] ++ st.nhitsMax, st.facMax)
  else
    let start : TVector3 R := ⟨ihit.x_pos, ihit.y_pos, ihit.z_pos⟩
    let end_ : TVector3 R := ⟨jhit.x_pos, jhit.y_pos, jhit.z_pos⟩
    let diff := start.sub end_
    let trackCand := (List.range hits.length).foldl
      (plainSupportStepHits E alg hits hit_i hit_j ihit jhit start diff) [hit_i, hit_j]
    (trackCand, 1)

/-- The list `tracks` of the overload on hits after `std::sort`. -/
def sortedTracksHits (E : Env R) (alg : CRTTrackRecoAlg R) (hits : List (CRTHit R)) :
    List (List Nat × R) :=
  E.sort (fun left right => decide (left.1.length > right.1.length))
    ((sortedHitPairDistHits E hits).map (trackCandidateHits E alg hits))

/-- The track pushed onto `returnTracks` for an accepted candidate (overload on hits). -/
def emitTrackHits (E : Env R) (hits : List (CRTHit R)) (track : List Nat × R) : CRTTrack R :=
  let swap : Bool := decide ((hitOf hits (track.1.getD 1 0)).tagger = "volTaggerTopHigh_0")
  let hit_i := if swap then track.1.getD 1 0 else track.1.getD 0 0
  let hit_j := if swap then track.1.getD 0 0 else track.1.getD 1 0
  let ihit0 := hitOf hits hit_i
  let jhit := hitOf hits hit_j
  let ihit1 := { ihit0 with x_pos := ihit0.x_pos - (1 - track.2) * ihit0.x_err }
  let ihit := { ihit1 with z_pos := ihit1.z_pos - (1 - track.2) * ihit1.z_err }
  let crtTrack := FillCrtTrack E ihit jhit true
  if track.1.length = 2 ∧ ihit.tagger = "volTaggerTopHigh_0" ∧
      jhit.tagger = "volTaggerTopLow_0" then
    { crtTrack with complete := false }
  else crtTrack

/-- The selection loop of Phase 3 (overload on hits), with `usedHits` as state. -/
def selectLoopHits (E : Env R) (hits : List (CRTHit R)) :
    List (List Nat × R) → List Nat → List (CRTTrack R)
  | [], _ => []
  | track :: rest, usedHits =>
    if track.1.any (fun h => decide (h ∈ usedHits)) then selectLoopHits E hits rest usedHits
    else
      emitTrackHits E hits track ::
        selectLoopHits E hits rest (if track.1.length > 2 then usedHits ++ track.1 else usedHits)

/-- `CRTTrackRecoAlg::CreateTracks(vector<CRTHit>)`. -/
def CreateTracksHits (E : Env R) (alg : CRTTrackRecoAlg R) (hits : List (CRTHit R)) :
    List (CRTTrack R) :=
  selectLoopHits E hits (sortedTracksHits E alg hits) []

/-! ## Notions used in the statements and proofs -/

/-- Hits among `hs` (standing at indices `s`, `s+1`, ...) whose used-flag is set. -/
def flaggedFrom {α : Type} (f : IFlag) : Nat → List α → List α
  | _, [] => []
  | s, h :: t => if f s ≠ 0 then h :: flaggedFrom f (s + 1) t else flaggedFrom f (s + 1) t

/-- A cluster as built by one pass of the outer loop over the sorted hits `hs`: the seed
`hs[i]` followed by hits at later indices, each within the limit of the seed time. -/
def IsTzeroCluster (L : R) (hs : List (HitPtr R)) (c : List (HitPtr R)) : Prop :=
  ∃ (i : Nat) (seed : HitPtr R) (ext : List (HitPtr R)), c = seed :: ext ∧ hs[i]? = some seed ∧
    ∀ x ∈ ext, ∃ j : Nat, i < j ∧ hs[j]? = some x ∧ |x.hit.ts0_ns - seed.hit.ts0_ns| * (1 / 1000) < L

/-- The test `std::abs(time_ns_B - time_ns_A) * 1e-3 < fTimeLimit` of `CreateCRTTzeros`
for a hit `x` against the seed time `A`. -/
def nearSeed (L : R) (A : R) (x : HitPtr R) : Bool :=
  decide (|x.hit.ts0_ns - A| * (1 / 1000) < L)

/-- Greedy split of a time-sorted hit list into runs: the first hit together with the
following hits that pass the test against it, then the same for what is left. The first
argument bounds the number of runs; the length of the list always suffices. -/
def tzeroRuns (L : R) : Nat → List (HitPtr R) → List (List (HitPtr R))
  | 0, _ => []
  | _ + 1, [] => []
  | fuel + 1, s :: t =>
    (s :: t.takeWhile (nearSeed L s.hit.ts0_ns)) ::
      tzeroRuns L fuel (t.dropWhile (nearSeed L s.hit.ts0_ns))

/-- The time window opened by a seed `v`: hits not earlier than `v` and less than the
limit later. -/
def inWindow (L : R) (v x : HitPtr R) : Bool :=
  decide (v.hit.ts0_ns ≤ x.hit.ts0_ns ∧ (x.hit.ts0_ns - v.hit.ts0_ns) * (1 / 1000) < L)

/-- The test `(pos - middle).Mag() < fAverageHitDistance` of `AverageHits` for a hit. -/
def nearHit (E : Env R) (fAverageHitDistance : R) (middle : TVector3 R) (hit : HitPtr R) :
    Bool :=
  decide (((hitPos hit.hit).sub middle).Mag E < fAverageHitDistance)

/-- `M` is the largest element of the list `vs`. -/
def IsMaxOf (M : R) (vs : List R) : Prop := M ∈ vs ∧ ∀ v ∈ vs, v ≤ M

/-- `m` is the smallest element of the list `vs`. -/
def IsMinOf (m : R) (vs : List R) : Prop := m ∈ vs ∧ ∀ v ∈ vs, m ≤ v

/-- State of Phase 1 of `CreateTracks` when the rows before `i` and the columns before
`j` of row `i` have been visited: `hitPairDist` carries the pairs of `usedPairs`, without
repetition, and these are the pairs `(a, b)` with `a < b`, on different taggers, among the
visited positions. -/
def PairInv (hits : List (CRTHit R × List Int)) (i j : Nat)
    (st : List (Nat × Nat) × List ((Nat × Nat) × R)) : Prop :=
  st.2.map Prod.fst = st.1 ∧ st.1.Nodup ∧
    ∀ a b, (a, b) ∈ st.1 ↔
      a < b ∧ b < hits.length ∧ (hitAt hits a).tagger ≠ (hitAt hits b).tagger ∧
        (a < i ∨ (a = i ∧ b < j))

/-- The three coordinate axes. -/
inductive Axis where
  | x
  | y
  | z
deriving DecidableEq, Repr

/-- The uncertainty of a hit along an axis. -/
def errOf (hit : CRTHit R) : Axis → R
  | .x => hit.x_err
  | .y => hit.y_err
  | .z => hit.z_err

/-- The coordinate of a hit along an axis. -/
def posOf (hit : CRTHit R) : Axis → R
  | .x => hit.x_pos
  | .y => hit.y_pos
  | .z => hit.z_pos

/-- The component of a vector along an axis. -/
def TVector3.comp (v : TVector3 R) : Axis → R
  | .x => v.X
  | .y => v.Y
  | .z => v.Z

/-- An uncertainty lies strictly between 0.39 and 0.41. -/
def inBand (e : R) : Prop := 39 / 100 < e ∧ e < 41 / 100

/-- The point `start + t * diff` of the line through `start` with direction `diff`. -/
def linePoint (start diff : TVector3 R) (t : R) : TVector3 R :=
  ⟨start.X + t * diff.X, start.Y + t * diff.Y, start.Z + t * diff.Z⟩

/-- The index pairs `(i, j)` with `i < j < n` whose hits are on different taggers, in
lexicographic order. -/
def differentPanelPairs (hits : List (CRTHit R × List Int)) : List (Nat × Nat) :=
  ((List.range hits.length).product (List.range hits.length)).filter
    (fun p => decide (p.1 < p.2 ∧ (hitAt hits p.1).tagger ≠ (hitAt hits p.2).tagger))

/-- The first anchor `hit_i` of a pair in Phase 2 of `CreateTracks`, after the swap that
puts a bottom-panel hit first. -/
def firstAnchor (hits : List (CRTHit R × List Int)) (p : (Nat × Nat) × R) : Nat :=
  if (hitAt hits p.1.2).tagger = "volTaggerBot_0" then p.1.2 else p.1.1

/-- The second anchor `hit_j` of a pair in Phase 2 of `CreateTracks`, after the swap. -/
def secondAnchor (hits : List (CRTHit R × List Int)) (p : (Nat × Nat) × R) : Nat :=
  if (hitAt hits p.1.2).tagger = "volTaggerBot_0" then p.1.1 else p.1.2

/-- The point `start` of scan step `i`: the first anchor moved along its x and z
uncertainty by `fac = i/10`. -/
def scanStart (ihit : CRTHit R) (i : Nat) : TVector3 R :=
  ⟨ihit.x_pos - (1 - (i : R) / 10) * ihit.x_err, ihit.y_pos,
    ihit.z_pos - (1 - (i : R) / 10) * ihit.z_err⟩

/-- The supporting hits `nhits` and their summed distance `totalDist` found by step `i`
of the 21-step scan for the pair `p`. -/
def scanSupport (E : Env R) (alg : CRTTrackRecoAlg R) (hits : List (CRTHit R × List Int))
    (p : (Nat × Nat) × R) (i : Nat) : List Nat × R :=
  (List.range hits.length).foldl
    (scanSupportStep E alg hits (firstAnchor hits p) (secondAnchor hits p)
      (hitAt hits (firstAnchor hits p)) (hitAt hits (secondAnchor hits p))
      (scanStart (hitAt hits (firstAnchor hits p)) i)
      ((scanStart (hitAt hits (firstAnchor hits p)) i).sub
        (hitPos (hitAt hits (secondAnchor hits p))))) ([], 0)

/-- The average supporting distance `totalDist/nhits.size()` of step `i` of the scan. -/
def scanAverage (E : Env R) (alg : CRTTrackRecoAlg R) (hits : List (CRTHit R × List Int))
    (p : (Nat × Nat) × R) (i : Nat) : R :=
  (scanSupport E alg hits p i).2 / ((scanSupport E alg hits p i).1.length : R)

/-- The number of supporting hits of the step kept so far by the scan
(`nhitsMax.size()`): zero as long as no step is kept. -/
def keptCount (S : Nat → List Nat × R) : Option Nat → Nat
  | none => 0
  | some k => (S k).1.length

/-- The average supporting distance of the step kept so far by the scan (`minDist`):
99999 as long as no step is kept. -/
def keptDist (S : Nat → List Nat × R) : Option Nat → R
  | none => 99999
  | some k => (S k).2 / ((S k).1.length : R)

/-- The running test of the scan, on the indices of the steps, where `S j` is the pair of
the supporting hits of step `j` and their summed distance: step `j` becomes the kept
step when it has at least one supporting hit, at least as many supporting hits as the
step kept so far, and a strictly smaller average supporting distance than it. -/
def runningStep (S : Nat → List Nat × R) (kept : Option Nat) (j : Nat) : Option Nat :=
  if (S j).1.length ≥ keptCount S kept ∧ (S j).1.length ≠ 0 ∧
      (S j).2 / ((S j).1.length : R) < keptDist S kept then some j
  else kept

/-- The step kept when the running test has gone through the steps `steps` in order,
starting with no kept step; `none` when no step is kept. -/
def runningKept (S : Nat → List Nat × R) (steps : List Nat) : Option Nat :=
  steps.foldl (runningStep S) none

/-- The state `st` of the 21-step scan after the steps `done`, when the running test has
kept `kept`: with no kept step the state is the initial one and every visited step has no
supporting hit or an average of at least 99999; with the kept step `i` the state holds
the supporting hits, factor and average of step `i`, step `i` has supporting hits, and no
visited step with at least as many supporting hits has a smaller average distance. -/
def ScanKept (S : Nat → List Nat × R) (done : List Nat) (kept : Option Nat)
    (st : ScanState R) : Prop :=
  (kept = none ∧ st.nhitsMax = [] ∧ st.facMax = 1 ∧ st.minDist = 99999 ∧
    ∀ j ∈ done, (S j).1 = [] ∨ 99999 ≤ (S j).2 / ((S j).1.length : R)) ∨
  (∃ i, kept = some i ∧ i ∈ done ∧ st.nhitsMax = (S i).1 ∧ st.facMax = (i : R) / 10 ∧
    st.minDist = (S i).2 / ((S i).1.length : R) ∧ (S i).1 ≠ [] ∧ st.minDist < 99999 ∧
    ∀ j ∈ done, (S j).1 ≠ [] → (S i).1.length ≤ (S j).1.length →
      st.minDist ≤ (S j).2 / ((S j).1.length : R))

/-- The axis `CrossPoint` takes as the precisely measured one: the first of x, y, z whose
uncertainty lies strictly between 0.39 and 0.41. -/
def matchAxis (hit : CRTHit R) : Option Axis :=
  if hit.x_err > 39 / 100 ∧ hit.x_err < 41 / 100 then some Axis.x
  else if hit.y_err > 39 / 100 ∧ hit.y_err < 41 / 100 then some Axis.y
  else if hit.z_err > 39 / 100 ∧ hit.z_err < 41 / 100 then some Axis.z
  else none

/-- The vector `s * v`. -/
def TVector3.smul (s : R) (v : TVector3 R) : TVector3 R := ⟨s * v.X, s * v.Y, s * v.Z⟩

/-! ## A concrete environment over `ℚ` -/

/-- A stable insertion sort, one admissible `std::sort`. -/
def insertionSortBy {α : Type} (lt : α → α → Bool) (l : List α) : List α :=
  l.insertionSort (fun a b => lt b a = false)

/-- Conversion of a rational to a 32-bit signed integer: truncation towards zero, then
reduction modulo `2^32` into `[-2^31, 2^31)`. -/
def ratToInt (x : ℚ) : Int :=
  (((if 0 ≤ x then ⌊x⌋ else ⌈x⌉) + 2147483648) % 4294967296) - 2147483648

/-- Number of binary digits of `n`, for `n ≤ fuel`. -/
def bitLen : Nat → Nat → Nat
  | 0, _ => 0
  | fuel + 1, n => if n = 0 then 0 else bitLen fuel (n / 2) + 1

/-- Loop of the bitwise integer square root: `r` is raised by the powers of two
`2^(b-1), ..., 2, 1` in turn, as long as its square stays at most `n`. -/
def natSqrtLoop (n : Nat) : Nat → Nat → Nat
  | 0, r => r
  | b + 1, r => natSqrtLoop n b (if (r + 2 ^ b) * (r + 2 ^ b) ≤ n then r + 2 ^ b else r)

/-- The integer square root computed by `natSqrtLoop`, with the proof that it is
`Nat.sqrt`. -/
def natSqrtCert (n : Nat) : { r : Nat // r = Nat.sqrt n } :=
  ⟨natSqrtLoop n (bitLen n n) 0, by
    have hloop : ∀ b r, r * r ≤ n → n < (r + 2 ^ b) * (r + 2 ^ b) →
        natSqrtLoop n b r = Nat.sqrt n := by
      intro b
      induction b with
      | zero =>
        intro r h1 h2
        simp only [natSqrtLoop]
        rw [Nat.eq_sqrt]
        exact ⟨h1, by simpa using h2⟩
      | succ b ih =>
        intro r h1 h2
        rw [natSqrtLoop]
        split
        · rename_i h
          refine ih _ h ?_
          have e : r + 2 ^ b + 2 ^ b = r + 2 ^ (b + 1) := by rw [pow_succ]; omega
          rw [e]
          exact h2
        · rename_i h
          exact ih r h1 (not_le.1 h)
    have hlen : ∀ fuel m, m ≤ fuel → m < 2 ^ bitLen fuel m := by
      intro fuel
      induction fuel with
      | zero => intro m hm; simp [bitLen]; omega
      | succ fuel ih =>
        intro m hm
        rw [bitLen]
        split
        · rename_i h; simp [h]
        · rename_i h
          have := ih (m / 2) (by omega)
          rw [pow_succ]
          omega
    apply hloop
    · simp
    · have h1 : n < 2 ^ bitLen n n := hlen n n le_rfl
      have h2 : 2 ^ bitLen n n ≤ 2 ^ bitLen n n * 2 ^ bitLen n n :=
        Nat.le_mul_of_pos_left _ (by positivity)
      simpa using lt_of_lt_of_le h1 h2⟩

/-- The square root of a rational as the quotient of the integer square roots of its
numerator and denominator: this is `Rat.sqrt`, computed by `natSqrtLoop`. Exact on squares
of rationals. -/
def ratSqrt (q : ℚ) : ℚ := mkRat ((natSqrtCert q.num.toNat).1 : Int) (natSqrtCert q.den).1

/-- The environment used to run the embedding on rational inputs: `ratSqrt` (exact on
squares), insertion sort, truncating integer conversions; `atan2` is not evaluated by any
property below and is set to zero. -/
def ratEnv : Env ℚ where
  sqrt := ratSqrt
  sqrt_nonneg := fun x => by
    have e : ratSqrt x = Rat.sqrt x := by
      unfold ratSqrt Rat.sqrt Int.sqrt
      rw [(natSqrtCert x.num.toNat).2, (natSqrtCert x.den).2]
    rw [e]
    exact Rat.sqrt_nonneg x
  sqrt_mul_self := fun x => by
    have e : ratSqrt (x * x) = Rat.sqrt (x * x) := by
      unfold ratSqrt Rat.sqrt Int.sqrt
      rw [(natSqrtCert (x * x).num.toNat).2, (natSqrtCert (x * x).den).2]
    rw [e]
    exact Rat.sqrt_eq x
  atan2 := fun _ _ => 0
  toInt := ratToInt
  toInt_ge := fun x => by unfold ratToInt; omega
  toInt_lt := fun x => by unfold ratToInt; omega
  toInt_cast := fun n h1 h2 => by
    unfold ratToInt
    simp only [Int.floor_intCast, Int.ceil_intCast, ite_self]
    omega
  toUInt32 := fun x => (⌊x⌋ % 4294967296).toNat
  toUInt16 := fun x => (⌊x⌋ % 65536).toNat
  sort := fun lt l => insertionSortBy lt l
  sort_perm := fun lt l => List.perm_insertionSort _ l
  sort_sorted := fun {α} lt l h => by
    haveI : IsTotal α (fun a b => lt b a = false) := ⟨fun a b => by
      cases hba : lt b a
      · exact Or.inl rfl
      · exact Or.inr (h.1 b a hba)⟩
    haveI : IsTrans α (fun a b => lt b a = false) :=
      ⟨fun a b c hab hbc => h.2 c b a hbc hab⟩
    exact List.sorted_insertionSort (fun a b => lt b a = false) l

/-! ## Example inputs -/

/-- A hit with the given identity, panel, position, uncertainties and `ts0_ns`; the other
fields are zero or empty. -/
def exHit (key : Nat) (tagger : String) (x y z ex ey ez t0 : ℚ) : HitPtr ℚ :=
  { key := key
    hit :=
      { feb_id := [], pesmap := [], peshit := 0, ts0_s := 0, ts0_s_corr := 0,
        ts0_ns := t0, ts0_ns_corr := 0, ts1_ns := 0, plane := 0,
        x_pos := x, x_err := ex, y_pos := y, y_err := ey, z_pos := z, z_err := ez,
        tagger := tagger } }

/-- A hit with `ts0_ns = 0`. -/
def exT0 : HitPtr ℚ := exHit 0 "volTaggerBot_0" 0 0 0 0 0 0 0

/-- A hit with `ts0_ns = 3000`. -/
def exT3000 : HitPtr ℚ := exHit 1 "volTaggerBot_0" 0 0 0 0 0 0 3000

/-- A hit with `ts0_ns = 2000`. -/
def exT2000 : HitPtr ℚ := exHit 2 "volTaggerBot_0" 0 0 0 0 0 0 2000

/-- Three hits with `ts0_ns` 0, 3000 and 2000 (in input order). -/
def exTzeroHits : List (HitPtr ℚ) := [exT0, exT3000, exT2000]

/-- Three hits of one panel: at the origin, at distance 5 from it, and at distance 10. -/
def exAveHits : List (HitPtr ℚ) :=
  [exHit 0 "volTaggerTopHigh_0" 0 0 0 1 1 1 0, exHit 1 "volTaggerTopHigh_0" 3 0 4 1 1 1 0,
   exHit 2 "volTaggerTopHigh_0" 0 0 10 1 1 1 0]

/-- The ids 100, 101, 102 for the hits with keys 0, 1, 2. -/
def exHitIds : List (Nat × Int) := [(0, 100), (1, 101), (2, 102)]

/-- A hit far outside the detector: `x_pos = 200000` with zero uncertainty. -/
def exFarHit : HitPtr ℚ := exHit 0 "volTaggerBot_0" 200000 0 0 0 0 0 0

/-- A hit at the origin with `ts0_ns = 1000` and uncertainty 1 on every axis. -/
def exTimedHit : HitPtr ℚ := exHit 0 "volTaggerBot_0" 0 0 0 1 1 1 1000

/-- Three hits with their id lists: two on the bottom panel (ids 10 and 11) at heights 0
and 5, one on the top-low panel (id 12) at height 10. -/
def exTrackHits : List (CRTHit ℚ × List Int) :=
  [((exHit 0 "volTaggerBot_0" 0 0 0 1 1 1 0).hit, [10]),
   ((exHit 1 "volTaggerBot_0" 0 5 0 1 1 1 0).hit, [11]),
   ((exHit 2 "volTaggerTopLow_0" 0 10 0 1 1 1 0).hit, [12])]

/-- A top-low hit at `(12, 9, 0)` whose precisely measured axis is `y`. -/
def exLowHit : CRTHit ℚ := (exHit 2 "volTaggerTopLow_0" 12 9 0 1 (2 / 5) 1 0).hit

/-- Two hits, both on the bottom panel. -/
def exSamePanelHits : List (CRTHit ℚ × List Int) :=
  [((exHit 0 "volTaggerBot_0" 0 0 0 1 (2 / 5) 1 0).hit, [1]),
   ((exHit 1 "volTaggerBot_0" 3 0 4 1 (2 / 5) 1 0).hit, [2])]

/-- A bottom-panel hit at the origin. -/
def exPairBot : CRTHit ℚ := (exHit 0 "volTaggerBot_0" 0 0 0 1 (2 / 5) 1 0).hit

/-- A top-low hit at `(6, 8, 0)`. -/
def exPairLow : CRTHit ℚ := (exHit 1 "volTaggerTopLow_0" 6 8 0 1 (2 / 5) 1 0).hit

/-- Two hits on different panels, 10 apart. -/
def exPairHits : List (CRTHit ℚ × List Int) := [(exPairBot, [1]), (exPairLow, [2])]

/-- Four hits: a bottom-panel hit at the origin that is a 1D hit (`x_err = 187.5`), a
top-high hit at `(0, 25, 0)`, and two top-low hits at `(12, 9, 0)` and `(8.25, 14, 0)`.
The last three lie on the line `4x + 3y = 75`, which meets the bottom panel at
`x = 18.75`, i.e. at the scan step `fac = 1.1`. -/
def exScanHits : List (CRTHit ℚ × List Int) :=
  [((exHit 0 "volTaggerBot_0" 0 0 0 (375 / 2) (2 / 5) 0 0).hit, [10]),
   ((exHit 1 "volTaggerTopHigh_0" 0 25 0 1 (2 / 5) 1 0).hit, [11]),
   ((exHit 2 "volTaggerTopLow_0" 12 9 0 1 (2 / 5) 1 0).hit, [12]),
   ((exHit 3 "volTaggerTopLow_0" (33 / 4) 14 0 1 (2 / 5) 1 0).hit, [13])]

/-- An input of 2001 hits. -/
def exManyHits : List (HitPtr ℚ) := List.replicate 2001 exT0

/-- Four hits: a bottom-panel 1D hit at the origin (`x_err = 200`), a top-high hit at
`(0, 20, 0)`, and two top-low hits at `(-100, 10, 0)` and `(-80, 10, 0)`. At scan step
`i` the line crosses the height 10 at `x = 10 i - 100`. -/
def exGreedyHits : List (CRTHit ℚ × List Int) :=
  [((exHit 0 "volTaggerBot_0" 0 0 0 200 (2 / 5) 0 0).hit, [10]),
   ((exHit 1 "volTaggerTopHigh_0" 0 20 0 1 (2 / 5) 1 0).hit, [11]),
   ((exHit 2 "volTaggerTopLow_0" (-100) 10 0 1 (2 / 5) 1 0).hit, [12]),
   ((exHit 3 "volTaggerTopLow_0" (-80) 10 0 1 (2 / 5) 1 0).hit, [13])]

/-- Three hits: a bottom-panel hit at `(100, 0, 100)`, a top-high hit at `(100, 20, 100)`,
and a top-low hit at `(0.3, 0.4, 0)` all of whose uncertainties are 1. -/
def exUnmatchedHits : List (CRTHit ℚ × List Int) :=
  [((exHit 0 "volTaggerBot_0" 100 0 100 1 (2 / 5) 1 0).hit, [10]),
   ((exHit 1 "volTaggerTopHigh_0" 100 20 100 1 (2 / 5) 1 0).hit, [11]),
   ((exHit 2 "volTaggerTopLow_0" (3 / 10) (2 / 5) 0 1 1 1 0).hit, [12])]

/-- A hit with `ts0_ns = 2^31`. -/
def exBigTimeHit : HitPtr ℚ := exHit 0 "volTaggerBot_0" 0 0 0 1 1 1 2147483648

/-- Five hits: a bottom, a top-high and a top-low hit on the line `x = 0, z = 0`, and two
hits of two side panels on the line `x = 1000, z = 0`. -/
def exMixedHits : List (CRTHit ℚ × List Int) :=
  [((exHit 0 "volTaggerBot_0" 0 0 0 1 (2 / 5) 1 0).hit, [10]),
   ((exHit 1 "volTaggerTopHigh_0" 0 20 0 1 (2 / 5) 1 0).hit, [11]),
   ((exHit 2 "volTaggerTopLow_0" 0 10 0 1 (2 / 5) 1 0).hit, [12]),
   ((exHit 3 "volTaggerNorth_0" 1000 5 0 1 (2 / 5) 1 0).hit, [13]),
   ((exHit 4 "volTaggerSouth_0" 1000 15 0 1 (2 / 5) 1 0).hit, [14])]

theorem flaggedFrom_congr {α : Type} (f g : IFlag) : ∀ (hs : List α) (s : Nat),
    (∀ k, s ≤ k → f k = g k) → flaggedFrom f s hs = flaggedFrom g s hs := by
  intro hs
  induction hs with
  | nil => intro s _; rfl
  | cons h t ih =>
    intro s hfg
    have e := ih (s + 1) (fun k hk => hfg k (by omega))
    simp only [flaggedFrom, hfg s le_rfl, e]

theorem flaggedFrom_write {α : Type} (f : IFlag) : ∀ (hs : List α) (s j : Nat) (hj : α),
    s ≤ j → hs[j - s]? = some hj → f j = 0 →
    (flaggedFrom (iflagWrite f j 1) s hs).Perm (hj :: flaggedFrom f s hs) := by
  intro hs
  induction hs with
  | nil => intro s j hj _ h; simp at h
  | cons h t ih =>
    intro s j hj hsj hget hf
    by_cases hjs : j = s
    · subst hjs
      simp only [Nat.sub_self, List.getElem?_cons_zero, Option.some.injEq] at hget
      subst hget
      have e := flaggedFrom_congr (iflagWrite f j 1) f t (j + 1) (fun k hk => by
        simp only [iflagWrite]; rw [if_neg (by omega)])
      simp [flaggedFrom, iflagWrite, hf, e]
    · have hlt : s < j := lt_of_le_of_ne hsj (Ne.symm hjs)
      have hget2 : t[j - (s + 1)]? = some hj := by
        have : j - s = (j - (s + 1)) + 1 := by omega
        rw [this, List.getElem?_cons_succ] at hget
        exact hget
      have p := ih (s + 1) j hj (by omega) hget2 hf
      have hw : iflagWrite f j 1 s = f s := by
        simp only [iflagWrite]; rw [if_neg (by omega)]
      simp only [flaggedFrom, hw]
      by_cases hfs : f s = 0
      · simpa [hfs] using p
      · simp only [ne_eq, hfs, not_false_eq_true, if_true]
        exact (List.Perm.cons h p).trans (List.Perm.swap hj h _)

theorem flaggedFrom_all {α : Type} (f : IFlag) : ∀ (hs : List α) (s : Nat),
    (∀ k, s ≤ k → k < s + hs.length → f k ≠ 0) → flaggedFrom f s hs = hs := by
  intro hs
  induction hs with
  | nil => intro s _; rfl
  | cons h t ih =>
    intro s hall
    have e := ih (s + 1) (fun k hk hk2 => hall k (by omega) (by simp; omega))
    have h0 := hall s le_rfl (by simp)
    simp [flaggedFrom, h0, e]

theorem flaggedFrom_init {α : Type} : ∀ (hs : List α) (s : Nat),
    flaggedFrom iflagInit s hs = [] := by
  intro hs
  induction hs with
  | nil => intro s; rfl
  | cons h t ih => intro s; simp [flaggedFrom, iflagInit, ih]

theorem iflagWrite_ne_zero (f : IFlag) (j k : Nat) (h : f k ≠ 0) : iflagWrite f j 1 k ≠ 0 := by
  unfold iflagWrite
  split
  · decide
  · exact h

/-! ## The loops of `CreateCRTTzeros` -/

/-- The inner loop returns; it only sets flags, and what it appends to the cluster are
exactly the newly flagged hits, each of them within the limit of the seed time. -/
theorem tzeroInner_spec (L : R) (hs : List (HitPtr R)) (A : R) (hn : hs.length ≤ iflagSize) :
    ∀ (js : List Nat) (f : IFlag) (c : List (HitPtr R)), (∀ j ∈ js, j < hs.length) →
    ∃ f1 ext, tzeroInner L hs A js (f, c) = some (f1, c ++ ext) ∧
      (∀ k, f k ≠ 0 → f1 k ≠ 0) ∧
      (flaggedFrom f1 0 hs).Perm (ext ++ flaggedFrom f 0 hs) ∧
      (∀ x ∈ ext, ∃ j ∈ js, hs[j]? = some x ∧ |x.hit.ts0_ns - A| * (1 / 1000) < L) := by
  intro js
  induction js with
  | nil =>
    intro f c _
    exact ⟨f, [], by simp [tzeroInner], fun _ h => h, by simp, by simp⟩
  | cons j js ih =>
    intro f c hjs
    have hj : j < hs.length := hjs j (List.mem_cons_self _ _)
    have hjs2 : ∀ k ∈ js, k < hs.length := fun k hk => hjs k (List.mem_cons_of_mem _ hk)
    have hread : iflagRead f j = some (f j) := by
      unfold iflagRead; rw [if_pos (by omega)]
    have hget : hs[j]? = some hs[j] := List.getElem?_eq_getElem hj
    rw [tzeroInner, hread, hget]
    simp only []
    by_cases hf : f j = 0
    · rw [if_pos hf]
      by_cases hd : |hs[j].hit.ts0_ns - A| * (1 / 1000) < L
      · rw [if_pos hd]
        obtain ⟨f1, ext, he, hmono, hperm, hext⟩ := ih (iflagWrite f j 1) (c ++ [hs[j]]) hjs2
        refine ⟨f1, hs[j] :: ext, ?_, ?_, ?_, ?_⟩
        · rw [he]; simp
        · intro k hk; exact hmono k (iflagWrite_ne_zero f j k hk)
        · have hw := flaggedFrom_write f hs 0 j hs[j] (Nat.zero_le _) (by simp) hf
          refine hperm.trans ?_
          refine (List.Perm.append_left ext hw).trans ?_
          exact List.perm_middle
        · intro x hx
          rcases List.mem_cons.1 hx with rfl | hx
          · exact ⟨j, List.mem_cons_self _ _, hget, hd⟩
          · obtain ⟨k, hk, h1, h2⟩ := hext x hx
            exact ⟨k, List.mem_cons_of_mem _ hk, h1, h2⟩
      · rw [if_neg hd]
        obtain ⟨f1, ext, he, hmono, hperm, hext⟩ := ih f c hjs2
        refine ⟨f1, ext, he, hmono, hperm, ?_⟩
        intro x hx
        obtain ⟨k, hk, h1, h2⟩ := hext x hx
        exact ⟨k, List.mem_cons_of_mem _ hk, h1, h2⟩
    · rw [if_neg hf]
      obtain ⟨f1, ext, he, hmono, hperm, hext⟩ := ih f c hjs2
      refine ⟨f1, ext, he, hmono, hperm, ?_⟩
      intro x hx
      obtain ⟨k, hk, h1, h2⟩ := hext x hx
      exact ⟨k, List.mem_cons_of_mem _ hk, h1, h2⟩

/-- The outer loop returns; the clusters it appends hold exactly the newly flagged hits,
and every index it visits is flagged afterwards. -/
theorem tzeroOuter_spec (L : R) (hs : List (HitPtr R)) (hn : hs.length ≤ iflagSize) :
    ∀ (is : List Nat) (f : IFlag) (out : List (List (HitPtr R))), (∀ i ∈ is, i < hs.length) →
    ∃ f1 new, tzeroOuter L hs is (f, out) = some (f1, out ++ new) ∧
      (∀ k, f k ≠ 0 → f1 k ≠ 0) ∧ (∀ i ∈ is, f1 i ≠ 0) ∧
      (flaggedFrom f1 0 hs).Perm (new.flatten ++ flaggedFrom f 0 hs) ∧
      (∀ c ∈ new, IsTzeroCluster L hs c) := by
  intro is
  induction is with
  | nil =>
    intro f out _
    exact ⟨f, [], by simp [tzeroOuter], fun _ h => h, by simp, by simp, by simp⟩
  | cons i is ih =>
    intro f out his
    have hi : i < hs.length := his i (List.mem_cons_self _ _)
    have his2 : ∀ k ∈ is, k < hs.length := fun k hk => his k (List.mem_cons_of_mem _ hk)
    have hread : iflagRead f i = some (f i) := by
      unfold iflagRead; rw [if_pos (by omega)]
    have hget : hs[i]? = some hs[i] := List.getElem?_eq_getElem hi
    rw [tzeroOuter, hread, hget]
    simp only []
    by_cases hf : f i = 0
    · rw [if_pos hf]
      have hjs : ∀ j ∈ List.range' (i + 1) (hs.length - (i + 1)), j < hs.length := by
        intro j hj
        have := List.mem_range'_1.1 hj
        omega
      obtain ⟨f1, ext, he, hmono, hperm, hext⟩ :=
        tzeroInner_spec L hs hs[i].hit.ts0_ns hn _ (iflagWrite f i 1) [hs[i]] hjs
      rw [he]
      simp only []
      obtain ⟨f2, new, he2, hmono2, hall2, hperm2, hcl2⟩ := ih f1 (out ++ [[hs[i]] ++ ext]) his2
      refine ⟨f2, ([hs[i]] ++ ext) :: new, ?_, ?_, ?_, ?_, ?_⟩
      · rw [he2]; simp
      · intro k hk; exact hmono2 k (hmono k (iflagWrite_ne_zero f i k hk))
      · intro k hk
        rcases List.mem_cons.1 hk with rfl | hk
        · apply hmono2; apply hmono; simp [iflagWrite]
        · exact hall2 k hk
      · have hw := flaggedFrom_write f hs 0 i hs[i] (Nat.zero_le _) (by simp) hf
        refine hperm2.trans ?_
        refine (List.Perm.append_left new.flatten (hperm.trans (List.Perm.append_left ext hw))).trans ?_
        simp only [List.flatten_cons, List.singleton_append, List.cons_append, List.append_assoc]
        refine (List.perm_append_comm_assoc _ _ _).trans ?_
        refine (List.Perm.append_left ext List.perm_middle).trans ?_
        exact List.perm_middle
      · intro c hc
        rcases List.mem_cons.1 hc with rfl | hc
        · refine ⟨i, hs[i], ext, rfl, hget, ?_⟩
          intro x hx
          obtain ⟨j, hj, h1, h2⟩ := hext x hx
          have := List.mem_range'_1.1 hj
          exact ⟨j, by omega, h1, h2⟩
        · exact hcl2 c hc
    · rw [if_neg hf]
      obtain ⟨f2, new, he2, hmono2, hall2, hperm2, hcl2⟩ := ih f out his2
      refine ⟨f2, new, he2, hmono2, ?_, hperm2, hcl2⟩
      intro k hk
      rcases List.mem_cons.1 hk with rfl | hk
      · exact hmono2 k hf
      · exact hall2 k hk

/-- Summary of `CreateCRTTzeros` on at most `iflagSize` hits: it returns clusters whose
concatenation is a permutation of the sorted hit list, each of the shape `IsTzeroCluster`. -/
theorem CreateCRTTzeros_spec (E : Env R) (alg : CRTTrackRecoAlg R) (hits : List (HitPtr R))
    (hn : hits.length ≤ iflagSize) :
    ∃ cl, CreateCRTTzeros E alg hits = some cl ∧
      cl.flatten.Perm
        (E.sort (fun left right => decide (left.hit.ts0_ns < right.hit.ts0_ns)) hits) ∧
      ∀ c ∈ cl, IsTzeroCluster alg.fTimeLimit
        (E.sort (fun left right => decide (left.hit.ts0_ns < right.hit.ts0_ns)) hits) c := by
  set hs := E.sort (fun left right => decide (left.hit.ts0_ns < right.hit.ts0_ns)) hits with hhs
  have hlen : hs.length = hits.length := (E.sort_perm _ hits).length_eq
  obtain ⟨f1, new, he, _, hall, hperm, hcl⟩ :=
    tzeroOuter_spec alg.fTimeLimit hs (by omega) (List.range hs.length) iflagInit []
      (fun i hi => List.mem_range.1 hi)
  refine ⟨new, ?_, ?_, hcl⟩
  · unfold CreateCRTTzeros
    simp only [← hhs, he, List.nil_append, Option.map_some']
  · have h1 : flaggedFrom f1 0 hs = hs :=
      flaggedFrom_all f1 hs 0 (fun k _ hk => hall k (List.mem_range.2 (by omega)))
    rw [h1, flaggedFrom_init, List.append_nil] at hperm
    exact hperm.symm

theorem tzeroInner_some_lt (L : R) (hs : List (HitPtr R)) (A : R) :
    ∀ (js : List Nat) (st r : IFlag × List (HitPtr R)),
    tzeroInner L hs A js st = some r → ∀ j ∈ js, j < iflagSize := by
  intro js
  induction js with
  | nil => intro _ _ _ j hj; simp at hj
  | cons j js ih =>
    intro st r h k hk
    obtain ⟨f, c⟩ := st
    rw [tzeroInner] at h
    by_cases hj : j < iflagSize
    · rcases List.mem_cons.1 hk with rfl | hk
      · exact hj
      · have hread : iflagRead f j = some (f j) := by unfold iflagRead; rw [if_pos hj]
        rw [hread] at h
        cases hg : hs[j]? with
        | none => rw [hg] at h; simp at h
        | some hj' =>
          rw [hg] at h
          simp only [] at h
          split at h
          · split at h
            · exact ih _ _ h k hk
            · exact ih _ _ h k hk
          · exact ih _ _ h k hk
    · have hread : iflagRead f j = none := by unfold iflagRead; rw [if_neg hj]
      rw [hread] at h
      simp at h

theorem tzeroOuter_some_lt (L : R) (hs : List (HitPtr R)) :
    ∀ (is : List Nat) (st r : IFlag × List (List (HitPtr R))),
    tzeroOuter L hs is st = some r → ∀ i ∈ is, i < iflagSize := by
  intro is
  induction is with
  | nil => intro _ _ _ j hj; simp at hj
  | cons i is ih =>
    intro st r h k hk
    obtain ⟨f, out⟩ := st
    rw [tzeroOuter] at h
    by_cases hi : i < iflagSize
    · rcases List.mem_cons.1 hk with rfl | hk
      · exact hi
      · have hread : iflagRead f i = some (f i) := by unfold iflagRead; rw [if_pos hi]
        rw [hread] at h
        cases hg : hs[i]? with
        | none => rw [hg] at h; simp at h
        | some hi' =>
          rw [hg] at h
          simp only [] at h
          split at h
          · split at h
            · exact ih _ _ h k hk
            · simp at h
          · exact ih _ _ h k hk
    · have hread : iflagRead f i = none := by unfold iflagRead; rw [if_neg hi]
      rw [hread] at h
      simp at h

/-- `CreateCRTTzeros` returns only for inputs that fit the flag array. -/
theorem CreateCRTTzeros_some_length (E : Env R) (alg : CRTTrackRecoAlg R)
    (hits : List (HitPtr R)) (cl : List (List (HitPtr R)))
    (h : CreateCRTTzeros E alg hits = some cl) : hits.length ≤ iflagSize := by
  unfold CreateCRTTzeros at h
  simp only [Option.map_eq_some'] at h
  obtain ⟨r, hr, _⟩ := h
  have hlen := (E.sort_perm (fun left right => decide (left.hit.ts0_ns < right.hit.ts0_ns)) hits).length_eq
  by_contra hcon
  have := tzeroOuter_some_lt _ _ _ _ _ hr iflagSize (List.mem_range.2 (by omega))
  omega

theorem sort_ts0_sorted (E : Env R) (hits : List (HitPtr R)) :
    (E.sort (fun left right => decide (left.hit.ts0_ns < right.hit.ts0_ns)) hits).Pairwise
      (fun a b => a.hit.ts0_ns ≤ b.hit.ts0_ns) := by
  have hsw : StrictWeak (fun left right : HitPtr R => decide (left.hit.ts0_ns < right.hit.ts0_ns)) := by
    constructor
    · intro a b h
      simp only [decide_eq_true_eq, decide_eq_false_iff_not, not_lt] at *
      exact le_of_lt h
    · intro a b c h1 h2
      simp only [decide_eq_false_iff_not, not_lt] at *
      exact le_trans h2 h1
  refine (E.sort_sorted _ hits hsw).imp ?_
  intro a b h
  simpa using h

theorem IsTzeroCluster.pairwise {L : R} {hs c : List (HitPtr R)} (h : IsTzeroCluster L hs c)
    (hsorted : hs.Pairwise (fun a b => a.hit.ts0_ns ≤ b.hit.ts0_ns)) :
    c.Pairwise (fun a b => |a.hit.ts0_ns - b.hit.ts0_ns| * (1 / 1000) < L) := by
  obtain ⟨i, seed, ext, rfl, hseed, hext⟩ := h
  have key : ∀ x ∈ ext, seed.hit.ts0_ns ≤ x.hit.ts0_ns ∧
      (x.hit.ts0_ns - seed.hit.ts0_ns) * (1 / 1000) < L := by
    intro x hx
    obtain ⟨j, hij, hj, hd⟩ := hext x hx
    have hle : seed.hit.ts0_ns ≤ x.hit.ts0_ns := by
      obtain ⟨hi', e1⟩ := List.getElem?_eq_some_iff.1 hseed
      obtain ⟨hj', e2⟩ := List.getElem?_eq_some_iff.1 hj
      have := List.pairwise_iff_getElem.1 hsorted i j hi' hj' hij
      rw [e1, e2] at this
      exact this
    refine ⟨hle, ?_⟩
    rwa [abs_of_nonneg (sub_nonneg.2 hle)] at hd
  rw [List.pairwise_cons]
  constructor
  · intro x hx
    obtain ⟨h1, h2⟩ := key x hx
    rw [abs_sub_comm, abs_of_nonneg (sub_nonneg.2 h1)]
    exact h2
  · apply List.pairwise_of_forall_mem_list
    intro a ha b hb
    obtain ⟨a1, a2⟩ := key a ha
    obtain ⟨b1, b2⟩ := key b hb
    rcases le_total a.hit.ts0_ns b.hit.ts0_ns with hab | hab
    · rw [abs_of_nonpos (sub_nonpos.2 hab)]; linarith
    · rw [abs_of_nonneg (sub_nonneg.2 hab)]; linarith

/-! ## `CreateCRTTzeros` as a split of the sorted list into runs -/

/-- The inner loop changes nothing when every index it visits is flagged or fails the
test. -/
theorem tzeroInner_noop (L : R) (hs : List (HitPtr R)) (A : R) (hn : hs.length ≤ iflagSize) :
    ∀ (js : List Nat) (f : IFlag) (c : List (HitPtr R)),
    (∀ j ∈ js, ∃ x, hs[j]? = some x ∧ (f j ≠ 0 ∨ nearSeed L A x = false)) →
    tzeroInner L hs A js (f, c) = some (f, c) := by
  intro js
  induction js with
  | nil => intro f c _; rfl
  | cons j js ih =>
    intro f c h
    obtain ⟨x, hx, hcond⟩ := h j (List.mem_cons_self _ _)
    have hj : j < hs.length := (List.getElem?_eq_some_iff.1 hx).1
    have hread : iflagRead f j = some (f j) := by
      unfold iflagRead; rw [if_pos (by omega)]
    rw [tzeroInner, hread, hx]
    simp only []
    have ih' := ih f c (fun k hk => h k (List.mem_cons_of_mem _ hk))
    by_cases hf : f j = 0
    · rw [if_pos hf]
      rcases hcond with h1 | h1
      · exact absurd hf h1
      · have : ¬ |x.hit.ts0_ns - A| * (1 / 1000) < L := by
          simpa [nearSeed] using h1
        rw [if_neg this]
        exact ih'
    · rw [if_neg hf]; exact ih'

/-- On a sorted list, with exactly the indices below `j0` flagged, the inner loop started
at `j0` appends the hits from `j0` on as long as they pass the test, and flags them. -/
theorem tzeroInner_run (L : R) (hs : List (HitPtr R)) (A : R) (hn : hs.length ≤ iflagSize) :
    ∀ (k j0 : Nat) (f : IFlag) (c : List (HitPtr R)), j0 + k = hs.length →
    (∀ i, f i ≠ 0 ↔ i < j0) → (∀ x ∈ hs.drop j0, A ≤ x.hit.ts0_ns) →
    (hs.drop j0).Pairwise (fun a b => a.hit.ts0_ns ≤ b.hit.ts0_ns) →
    ∃ f1, tzeroInner L hs A (List.range' j0 k) (f, c) =
        some (f1, c ++ (hs.drop j0).takeWhile (nearSeed L A)) ∧
      (∀ i, f1 i ≠ 0 ↔ i < j0 + ((hs.drop j0).takeWhile (nearSeed L A)).length) := by
  intro k
  induction k with
  | zero =>
    intro j0 f c hk hf _ _
    have : hs.drop j0 = [] := List.drop_eq_nil_of_le (by omega)
    exact ⟨f, by simp [this, tzeroInner], by simpa [this] using hf⟩
  | succ k ih =>
    intro j0 f c hk hf hA hsorted
    have hj : j0 < hs.length := by omega
    have hdrop : hs.drop j0 = hs[j0] :: hs.drop (j0 + 1) := List.drop_eq_getElem_cons hj
    rw [hdrop] at hA hsorted
    have hf0 : f j0 = 0 := by
      by_contra h
      exact lt_irrefl _ ((hf j0).1 h)
    by_cases hnear : nearSeed L A hs[j0] = true
    · have hread : iflagRead f j0 = some (f j0) := by
        unfold iflagRead; rw [if_pos (by omega)]
      have hd : |hs[j0].hit.ts0_ns - A| * (1 / 1000) < L := by
        simpa [nearSeed] using hnear
      obtain ⟨f1, he, hfl⟩ := ih (j0 + 1) (iflagWrite f j0 1) (c ++ [hs[j0]]) (by omega)
        (by
          intro i
          simp only [iflagWrite]
          split
          · rename_i h; subst h; simp
          · rename_i h; rw [hf i]; omega)
        (fun x hx => hA x (List.mem_cons_of_mem _ hx)) (List.Pairwise.of_cons hsorted)
      have htw : (hs.drop j0).takeWhile (nearSeed L A) =
          hs[j0] :: (hs.drop (j0 + 1)).takeWhile (nearSeed L A) := by
        rw [hdrop, List.takeWhile_cons, if_pos hnear]
      rw [htw]
      refine ⟨f1, ?_, ?_⟩
      · rw [List.range'_succ, tzeroInner, hread, List.getElem?_eq_getElem hj]
        simp only []
        rw [if_pos hf0, if_pos hd, he, List.append_assoc, List.singleton_append]
      · intro i
        rw [hfl i, List.length_cons]
        omega
    · have hnear' : nearSeed L A hs[j0] = false := by simpa using hnear
      have htw : (hs.drop j0).takeWhile (nearSeed L A) = [] := by
        rw [hdrop, List.takeWhile_cons, if_neg hnear]
      rw [htw]
      refine ⟨f, ?_, ?_⟩
      · rw [List.append_nil]
        apply tzeroInner_noop L hs A hn
        intro j hjm
        have hjr := List.mem_range'_1.1 hjm
        have hjl : j < hs.length := by omega
        refine ⟨hs[j], List.getElem?_eq_getElem hjl, Or.inr ?_⟩
        have hge : hs[j0].hit.ts0_ns ≤ hs[j].hit.ts0_ns := by
          rcases Nat.eq_or_lt_of_le hjr.1 with h | h
          · subst h; exact le_rfl
          · have hmem : hs[j] ∈ hs.drop (j0 + 1) := by
              rw [List.mem_iff_getElem]
              exact ⟨j - (j0 + 1), by simp; omega, by simp; congr 1; omega⟩
            exact (List.pairwise_cons.1 hsorted).1 _ hmem
        have hA0 : A ≤ hs[j0].hit.ts0_ns := hA _ (List.mem_cons_self _ _)
        have h1 : ¬ |hs[j0].hit.ts0_ns - A| * (1 / 1000) < L := by
          simpa [nearSeed] using hnear'
        rw [abs_of_nonneg (by linarith)] at h1
        simp only [nearSeed, decide_eq_false_iff_not]
        rw [abs_of_nonneg (by linarith)]
        intro h2
        apply h1
        linarith
      · intro i
        rw [hf i, List.length_nil, Nat.add_zero]

theorem tzeroRuns_fuel (L : R) : ∀ (f1 f2 : Nat) (l : List (HitPtr R)),
    l.length ≤ f1 → l.length ≤ f2 → tzeroRuns L f1 l = tzeroRuns L f2 l := by
  intro f1
  induction f1 with
  | zero =>
    intro f2 l h1 _
    have : l = [] := List.length_eq_zero.1 (by omega)
    subst this
    cases f2 <;> rfl
  | succ f1 ih =>
    intro f2 l h1 h2
    cases l with
    | nil => cases f2 <;> rfl
    | cons s t =>
      cases f2 with
      | zero => simp at h2
      | succ f2 =>
        simp only [tzeroRuns, List.length_cons] at *
        have hlen := (List.dropWhile_sublist (l := t) (nearSeed L s.hit.ts0_ns)).length_le
        rw [ih f2 _ (by omega) (by omega)]

theorem dropWhile_eq_drop {α : Type} (p : α → Bool) (l : List α) :
    l.dropWhile p = l.drop (l.takeWhile p).length := by
  calc l.dropWhile p
      = (l.takeWhile p ++ l.dropWhile p).drop (l.takeWhile p).length :=
        (List.drop_left _ _).symm
    _ = l.drop (l.takeWhile p).length := by rw [List.takeWhile_append_dropWhile]

/-- On a sorted list, with exactly the indices below `m` flagged, the outer loop started at
`i ≤ m` appends the runs of the hits from `m` on. -/
theorem tzeroOuter_run (L : R) (hs : List (HitPtr R)) (hn : hs.length ≤ iflagSize)
    (hsorted : hs.Pairwise (fun a b => a.hit.ts0_ns ≤ b.hit.ts0_ns)) :
    ∀ (k i m : Nat) (f : IFlag) (out : List (List (HitPtr R))), i + k = hs.length →
    i ≤ m → m ≤ hs.length → (∀ t, f t ≠ 0 ↔ t < m) →
    ∃ f1, tzeroOuter L hs (List.range' i k) (f, out) =
      some (f1, out ++ tzeroRuns L (hs.length - m) (hs.drop m)) := by
  intro k
  induction k with
  | zero =>
    intro i m f out hk him hm _
    have hm' : m = hs.length := by omega
    subst hm'
    exact ⟨f, by simp [tzeroOuter, tzeroRuns]⟩
  | succ k ih =>
    intro i m f out hk him hm hf
    have hi : i < hs.length := by omega
    have hread : iflagRead f i = some (f i) := by
      unfold iflagRead; rw [if_pos (by omega)]
    rw [List.range'_succ, tzeroOuter, hread, List.getElem?_eq_getElem hi]
    simp only []
    by_cases hlt : i < m
    · have hfi : f i ≠ 0 := (hf i).2 hlt
      rw [if_neg hfi]
      exact ih (i + 1) m f out (by omega) (by omega) hm hf
    · have hmi : m = i := by omega
      subst hmi
      have hfi : f m = 0 := by
        by_contra h
        exact lt_irrefl _ ((hf m).1 h)
      rw [if_pos hfi]
      have hdrop : hs.drop m = hs[m] :: hs.drop (m + 1) := List.drop_eq_getElem_cons hi
      have hsd : (hs.drop m).Pairwise (fun a b => a.hit.ts0_ns ≤ b.hit.ts0_ns) :=
        hsorted.sublist (List.drop_sublist _ _)
      rw [hdrop] at hsd
      obtain ⟨f1, he, hfl⟩ := tzeroInner_run L hs hs[m].hit.ts0_ns hn (hs.length - (m + 1))
        (m + 1) (iflagWrite f m 1) [hs[m]] (by omega)
        (by
          intro t
          simp only [iflagWrite]
          split
          · rename_i h; subst h; simp
          · rename_i h; rw [hf t]; omega)
        (fun x hx => (List.pairwise_cons.1 hsd).1 x hx) (List.Pairwise.of_cons hsd)
      rw [he]
      simp only []
      have hlen : ((hs.drop (m + 1)).takeWhile (nearSeed L hs[m].hit.ts0_ns)).length ≤
          hs.length - (m + 1) := by
        have := (List.takeWhile_sublist (l := hs.drop (m + 1))
          (nearSeed L hs[m].hit.ts0_ns)).length_le
        simpa using this
      obtain ⟨f2, he2⟩ := ih (m + 1)
        (m + 1 + ((hs.drop (m + 1)).takeWhile (nearSeed L hs[m].hit.ts0_ns)).length) f1
        (out ++ [[hs[m]] ++ (hs.drop (m + 1)).takeWhile (nearSeed L hs[m].hit.ts0_ns)])
        (by omega) (by omega) (by omega) hfl
      refine ⟨f2, ?_⟩
      rw [he2, hdrop]
      have hfuel : hs.length - m = (hs.length - (m + 1)) + 1 := by omega
      rw [hfuel, tzeroRuns, dropWhile_eq_drop, List.drop_drop]
      have hfe := tzeroRuns_fuel L
        (hs.length - (m + 1 + ((hs.drop (m + 1)).takeWhile (nearSeed L hs[m].hit.ts0_ns)).length))
        (hs.length - (m + 1))
        (hs.drop (m + 1 + ((hs.drop (m + 1)).takeWhile (nearSeed L hs[m].hit.ts0_ns)).length))
        (by simp) (by simp; omega)
      rw [hfe]
      simp [Nat.add_comm]

/-- On at most `iflagSize` hits, `CreateCRTTzeros` returns the runs of the sorted hit
list. -/
theorem CreateCRTTzeros_eq_runs (E : Env R) (alg : CRTTrackRecoAlg R) (hits : List (HitPtr R))
    (hn : hits.length ≤ iflagSize) :
    CreateCRTTzeros E alg hits =
      some (tzeroRuns alg.fTimeLimit hits.length
        (E.sort (fun left right => decide (left.hit.ts0_ns < right.hit.ts0_ns)) hits)) := by
  unfold CreateCRTTzeros
  simp only []
  generalize hhs : E.sort (fun left right => decide (left.hit.ts0_ns < right.hit.ts0_ns)) hits
    = hs
  have hlen : hs.length = hits.length := by
    rw [← hhs]; exact (E.sort_perm _ hits).length_eq
  have hsorted : hs.Pairwise (fun a b => a.hit.ts0_ns ≤ b.hit.ts0_ns) := by
    rw [← hhs]; exact sort_ts0_sorted E hits
  obtain ⟨f1, he⟩ := tzeroOuter_run alg.fTimeLimit hs (by rw [hlen]; exact hn)
    hsorted hs.length 0 0 iflagInit [] (by simp) le_rfl (Nat.zero_le _)
    (by intro t; simp [iflagInit])
  rw [List.range_eq_range', he]
  simp [hlen]

/-- Behind a seed of a sorted list, the hits taken by the test are the hits in the window
of the seed. -/
theorem takeWhile_nearSeed_eq_filter (L : R) (s : HitPtr R) : ∀ (t : List (HitPtr R)),
    (s :: t).Pairwise (fun a b => a.hit.ts0_ns ≤ b.hit.ts0_ns) →
    t.takeWhile (nearSeed L s.hit.ts0_ns) = t.filter (inWindow L s) := by
  intro t
  induction t with
  | nil => intro _; rfl
  | cons x t ih =>
    intro hsorted
    obtain ⟨hs1, hs2⟩ := List.pairwise_cons.1 hsorted
    obtain ⟨hx1, hx2⟩ := List.pairwise_cons.1 hs2
    have hsx : s.hit.ts0_ns ≤ x.hit.ts0_ns := hs1 x (List.mem_cons_self _ _)
    have hst : (s :: t).Pairwise (fun a b => a.hit.ts0_ns ≤ b.hit.ts0_ns) :=
      List.pairwise_cons.2 ⟨fun y hy => hs1 y (List.mem_cons_of_mem _ hy), hx2⟩
    by_cases hnear : nearSeed L s.hit.ts0_ns x = true
    · have hw : inWindow L s x = true := by
        simp only [nearSeed, decide_eq_true_eq] at hnear
        rw [abs_of_nonneg (by linarith)] at hnear
        simp only [inWindow, decide_eq_true_eq]
        exact ⟨hsx, hnear⟩
      rw [List.takeWhile_cons, if_pos hnear, List.filter_cons, if_pos hw, ih hst]
    · have hw : ∀ y ∈ x :: t, ¬ inWindow L s y = true := by
        intro y hy hwy
        apply hnear
        simp only [inWindow, decide_eq_true_eq] at hwy
        simp only [nearSeed, decide_eq_true_eq]
        rw [abs_of_nonneg (by linarith)]
        have hxy : x.hit.ts0_ns ≤ y.hit.ts0_ns := by
          rcases List.mem_cons.1 hy with rfl | hy
          · exact le_rfl
          · exact hx1 y hy
        linarith [hwy.2]
      rw [List.takeWhile_cons, if_neg hnear]
      exact (List.filter_eq_nil_iff.2 (fun y hy => hw y hy)).symm

/-- With a limit that is not positive every run is a single hit. -/
theorem tzeroRuns_singleton (L : R) (hL : L ≤ 0) : ∀ (fuel : Nat) (l : List (HitPtr R)),
    ∀ c ∈ tzeroRuns L fuel l, ∃ v, c = [v] := by
  intro fuel
  induction fuel with
  | zero => intro l c hc; simp [tzeroRuns] at hc
  | succ fuel ih =>
    intro l c hc
    cases l with
    | nil => simp [tzeroRuns] at hc
    | cons s t =>
      rw [tzeroRuns] at hc
      rcases List.mem_cons.1 hc with rfl | hc
      · refine ⟨s, ?_⟩
        have : t.takeWhile (nearSeed L s.hit.ts0_ns) = [] := by
          cases t with
          | nil => rfl
          | cons x t =>
            rw [List.takeWhile_cons, if_neg]
            simp only [nearSeed, decide_eq_true_eq, not_lt]
            have : 0 ≤ |x.hit.ts0_ns - s.hit.ts0_ns| * (1 / 1000) :=
              mul_nonneg (abs_nonneg _) (by norm_num)
            linarith
        rw [this]
      · exact ih _ c hc

/-- With a positive limit every run of a sorted list consists of the hits of the list in
the window of its first hit. -/
theorem tzeroRuns_window (L : R) (hL : 0 < L) : ∀ (fuel : Nat) (l : List (HitPtr R)),
    l.Pairwise (fun a b => a.hit.ts0_ns ≤ b.hit.ts0_ns) →
    ∀ c ∈ tzeroRuns L fuel l, ∃ v ∈ l, c.head? = some v ∧ c = l.filter (inWindow L v) := by
  intro fuel
  induction fuel with
  | zero => intro l _ c hc; simp [tzeroRuns] at hc
  | succ fuel ih =>
    intro l hsorted c hc
    cases l with
    | nil => simp [tzeroRuns] at hc
    | cons s t =>
      rw [tzeroRuns] at hc
      have hself : inWindow L s s = true := by
        simp only [inWindow, decide_eq_true_eq, sub_self, zero_mul]
        exact ⟨le_rfl, hL⟩
      rcases List.mem_cons.1 hc with rfl | hc
      · refine ⟨s, List.mem_cons_self _ _, rfl, ?_⟩
        rw [List.filter_cons, if_pos hself, takeWhile_nearSeed_eq_filter L s t hsorted]
      · obtain ⟨hs1, hs2⟩ := List.pairwise_cons.1 hsorted
        have hdsorted : (t.dropWhile (nearSeed L s.hit.ts0_ns)).Pairwise
            (fun a b => a.hit.ts0_ns ≤ b.hit.ts0_ns) :=
          hs2.sublist (List.dropWhile_sublist _)
        obtain ⟨v, hv, hhead, hceq⟩ := ih _ hdsorted c hc
        have hvt : v ∈ t := (List.dropWhile_sublist _).subset hv
        refine ⟨v, List.mem_cons_of_mem _ hvt, hhead, ?_⟩
        -- the end of the window of `s` is not after `v`
        have hend : ∀ x, s.hit.ts0_ns ≤ x.hit.ts0_ns →
            nearSeed L s.hit.ts0_ns x = true → x.hit.ts0_ns < v.hit.ts0_ns := by
          intro x hsx hx
          cases hd : t.dropWhile (nearSeed L s.hit.ts0_ns) with
          | nil => rw [hd] at hv; simp at hv
          | cons u r =>
            have hu : ¬ nearSeed L s.hit.ts0_ns u = true := by
              have := List.head?_dropWhile_not (nearSeed L s.hit.ts0_ns) t
              rw [hd] at this
              simpa using this
            have hut : u ∈ t := (List.dropWhile_sublist _).subset (by rw [hd]; simp)
            have hsu : s.hit.ts0_ns ≤ u.hit.ts0_ns := hs1 u hut
            have huv : u.hit.ts0_ns ≤ v.hit.ts0_ns := by
              rw [hd] at hv hdsorted
              rcases List.mem_cons.1 hv with rfl | hv
              · exact le_rfl
              · exact (List.pairwise_cons.1 hdsorted).1 v hv
            simp only [nearSeed, decide_eq_true_eq, not_lt] at hu hx
            rw [abs_of_nonneg (by linarith)] at hu hx
            linarith
        have hs_out : inWindow L v s = false := by
          have := hend s le_rfl (by
            simp only [nearSeed, decide_eq_true_eq, sub_self, abs_zero, zero_mul]; exact hL)
          simp only [inWindow, decide_eq_false_iff_not, not_and]
          intro h; linarith
        have htw_out : (t.takeWhile (nearSeed L s.hit.ts0_ns)).filter (inWindow L v) = [] := by
          rw [List.filter_eq_nil_iff]
          intro x hx hwx
          have hxt : x ∈ t := (List.takeWhile_sublist _).subset hx
          have := hend x (hs1 x hxt) (List.mem_takeWhile_imp hx)
          simp only [inWindow, decide_eq_true_eq] at hwx
          linarith [hwx.1]
        rw [List.filter_cons, hs_out]
        simp only [Bool.false_eq_true, if_false]
        conv_rhs => rw [← List.takeWhile_append_dropWhile (nearSeed L s.hit.ts0_ns) t]
        rw [List.filter_append, htw_out, List.nil_append]
        exact hceq

/-! ## Properties of `CreateCRTTzeros` -/

/-- C1: on an input of at most 2000 hits (the capacity of the flag array), for every
time limit, `CreateCRTTzeros` returns clusters whose concatenation is a permutation of the
input: every input hit is in exactly one cluster, none dropped and none duplicated. -/
theorem CreateCRTTzeros_partition (E : Env R) (alg : CRTTrackRecoAlg R)
    (hits : List (HitPtr R)) (hn : hits.length ≤ 2000) :
    ∃ cl, CreateCRTTzeros E alg hits = some cl ∧ cl.flatten.Perm hits := by
  obtain ⟨cl, h1, h2, _⟩ := CreateCRTTzeros_spec E alg hits hn
  exact ⟨cl, h1, h2.trans (E.sort_perm _ hits)⟩

theorem CreateCRTTzeros_partition_witness :
    exTzeroHits.length ≤ 2000 ∧
      ∃ cl, CreateCRTTzeros ratEnv ⟨2, 1, 1⟩ exTzeroHits = some cl ∧
        cl.flatten.Perm exTzeroHits :=
  ⟨by decide, CreateCRTTzeros_partition ratEnv ⟨2, 1, 1⟩ exTzeroHits (by decide)⟩

/-- C4, refuted as stated: for the hits with `ts0_ns` 0, 3000, 2000 the limit 2 puts the
hits at 2000 and 3000 into one cluster, and the larger limit 3 separates them (the hit at
2000 joins the cluster seeded at 0, the hit at 3000 is left alone). -/
theorem CreateCRTTzeros_not_monotone :
    (2 : ℚ) ≤ 3 ∧
    CreateCRTTzeros ratEnv ⟨2, 1, 1⟩ exTzeroHits = some [[exT0], [exT2000, exT3000]] ∧
    CreateCRTTzeros ratEnv ⟨3, 1, 1⟩ exTzeroHits = some [[exT0, exT2000], [exT3000]] ∧
    ¬ ∃ c ∈ [[exT0, exT2000], [exT3000]], exT2000 ∈ c ∧ exT3000 ∈ c := by
  refine ⟨by norm_num, by decide!, by decide!, by decide!⟩

/-- C4, amended: for limits `L1 ≤ L2` and a fixed hit collection, a cluster returned with
`L1` whose first hit (its seed) is also the first hit of a cluster returned with `L2` is
contained, in order, in that cluster: raising the limit never removes a hit from the
cluster of a seed that remains a seed. -/
theorem CreateCRTTzeros_seed_mono (E : Env R) (alg1 alg2 : CRTTrackRecoAlg R)
    (hits : List (HitPtr R)) (hL : alg1.fTimeLimit ≤ alg2.fTimeLimit)
    (cl1 cl2 : List (List (HitPtr R)))
    (h1 : CreateCRTTzeros E alg1 hits = some cl1)
    (h2 : CreateCRTTzeros E alg2 hits = some cl2) :
    ∀ c1 ∈ cl1, ∀ c2 ∈ cl2, c1.head? = c2.head? → c1.Sublist c2 := by
  have hn := CreateCRTTzeros_some_length E alg1 hits cl1 h1
  rw [CreateCRTTzeros_eq_runs E alg1 hits hn] at h1
  rw [CreateCRTTzeros_eq_runs E alg2 hits hn] at h2
  cases h1
  cases h2
  intro c1 hc1 c2 hc2 hhead
  have hsorted := sort_ts0_sorted E hits
  by_cases hpos : 0 < alg1.fTimeLimit
  · obtain ⟨v1, _, hv1, e1⟩ := tzeroRuns_window _ hpos _ _ hsorted c1 hc1
    obtain ⟨v2, _, hv2, e2⟩ := tzeroRuns_window _ (lt_of_lt_of_le hpos hL) _ _ hsorted c2 hc2
    rw [hv1, hv2] at hhead
    cases hhead
    rw [e1, e2]
    apply List.monotone_filter_right
    intro x hx
    simp only [inWindow, decide_eq_true_eq] at hx ⊢
    exact ⟨hx.1, lt_of_lt_of_le hx.2 hL⟩
  · obtain ⟨v, rfl⟩ := tzeroRuns_singleton _ (not_lt.1 hpos) _ _ c1 hc1
    rw [List.singleton_sublist]
    exact List.mem_of_mem_head? (by rw [← hhead]; simp)

theorem CreateCRTTzeros_seed_mono_witness :
    (2 : ℚ) ≤ 3 ∧
    CreateCRTTzeros ratEnv ⟨2, 1, 1⟩ exTzeroHits = some [[exT0], [exT2000, exT3000]] ∧
    CreateCRTTzeros ratEnv ⟨3, 1, 1⟩ exTzeroHits = some [[exT0, exT2000], [exT3000]] ∧
    ∀ c1 ∈ [[exT0], [exT2000, exT3000]], ∀ c2 ∈ [[exT0, exT2000], [exT3000]],
      c1.head? = c2.head? → c1.Sublist c2 :=
  ⟨by norm_num, by decide!, by decide!,
    CreateCRTTzeros_seed_mono ratEnv ⟨2, 1, 1⟩ ⟨3, 1, 1⟩ exTzeroHits (by norm_num)
      _ _ (by decide!) (by decide!)⟩

/-- C5: any two hits (at different places) of a cluster returned by `CreateCRTTzeros`
differ in `ts0_ns`, after the conversion by `1e-3`, by less than the time limit. -/
theorem CreateCRTTzeros_pairwise_close (E : Env R) (alg : CRTTrackRecoAlg R)
    (hits : List (HitPtr R)) (cl : List (List (HitPtr R)))
    (h : CreateCRTTzeros E alg hits = some cl) :
    ∀ c ∈ cl, c.Pairwise
      (fun a b => |a.hit.ts0_ns - b.hit.ts0_ns| * (1 / 1000) < alg.fTimeLimit) := by
  have hn := CreateCRTTzeros_some_length E alg hits cl h
  obtain ⟨cl1, h1, _, h3⟩ := CreateCRTTzeros_spec E alg hits hn
  rw [h] at h1
  cases h1
  intro c hc
  exact (h3 c hc).pairwise (sort_ts0_sorted E hits)

theorem CreateCRTTzeros_pairwise_close_witness :
    CreateCRTTzeros ratEnv ⟨2, 1, 1⟩ exTzeroHits = some [[exT0], [exT2000, exT3000]] ∧
      ∀ c ∈ [[exT0], [exT2000, exT3000]],
        c.Pairwise (fun a b => |a.hit.ts0_ns - b.hit.ts0_ns| * (1 / 1000) < (2 : ℚ)) :=
  ⟨by decide!, CreateCRTTzeros_pairwise_close ratEnv ⟨2, 1, 1⟩ exTzeroHits _ (by decide!)⟩

/-! ## The loop and the recursion of `AverageHits` -/

theorem Env.sqrt_zero (E : Env R) : E.sqrt 0 = 0 := by
  simpa using E.sqrt_mul_self 0

/-- After the first iteration the loop of `AverageHits` splits the remaining hits by the
test against the fixed `middle`. -/
theorem aveStep_foldl (E : Env R) (d : R) : ∀ (l : List (HitPtr R)) (st : AveState R),
    st.first = false →
    (l.foldl (aveStep E d) st).first = false ∧
    (l.foldl (aveStep E d) st).middle = st.middle ∧
    (l.foldl (aveStep E d) st).aveHits = st.aveHits ++ l.filter (nearHit E d st.middle) ∧
    (l.foldl (aveStep E d) st).spareHits =
      st.spareHits ++ l.filter (fun h => !nearHit E d st.middle h) := by
  intro l
  induction l with
  | nil => intro st h; simp [h]
  | cons x t ih =>
    intro st hst
    rw [List.foldl_cons]
    by_cases hx : ((hitPos x.hit).sub st.middle).Mag E < d
    · have hstep : aveStep E d st x = ⟨false, st.middle, st.aveHits ++ [x], st.spareHits⟩ := by
        simp only [aveStep, hst, hitPos] at hx ⊢
        simp [hx]
      obtain ⟨h1, h2, h3, h4⟩ := ih (aveStep E d st x) (by rw [hstep])
      rw [hstep] at h1 h2 h3 h4 ⊢
      refine ⟨h1, h2, ?_, ?_⟩
      · rw [h3]; simp [nearHit, hx]
      · rw [h4]; simp [nearHit, hx]
    · have hstep : aveStep E d st x = ⟨false, st.middle, st.aveHits, st.spareHits ++ [x]⟩ := by
        simp only [aveStep, hst, hitPos] at hx ⊢
        simp [hx]
      obtain ⟨h1, h2, h3, h4⟩ := ih (aveStep E d st x) (by rw [hstep])
      rw [hstep] at h1 h2 h3 h4 ⊢
      refine ⟨h1, h2, ?_, ?_⟩
      · rw [h3]; simp [nearHit, hx]
      · rw [h4]; simp [nearHit, hx]

/-- The loop of `AverageHits` on a non-empty input: `aveHits` are the hits that pass the
distance test against the position of the first hit, `spareHits` the others, both in
input order. -/
theorem aveLoop_eq (E : Env R) (d : R) (h0 : HitPtr R) (t : List (HitPtr R)) :
    ((h0 :: t).foldl (aveStep E d)
        ⟨true, ⟨0, 0, 0⟩, [], []⟩).aveHits =
      (h0 :: t).filter (nearHit E d (hitPos h0.hit)) ∧
    ((h0 :: t).foldl (aveStep E d)
        ⟨true, ⟨0, 0, 0⟩, [], []⟩).spareHits =
      (h0 :: t).filter (fun h => !nearHit E d (hitPos h0.hit) h) := by
  rw [List.foldl_cons]
  by_cases hx : ((hitPos h0.hit).sub (hitPos h0.hit)).Mag E < d
  · have hstep : aveStep E d
        ⟨true, ⟨0, 0, 0⟩, [], []⟩ h0 =
        ⟨false, hitPos h0.hit, [h0], []⟩ := by
      simp only [aveStep, hitPos] at hx ⊢
      simp [hx]
    rw [hstep]
    obtain ⟨_, _, h3, h4⟩ := aveStep_foldl E d t ⟨false, hitPos h0.hit, [h0], []⟩ rfl
    rw [h3, h4]
    simp [nearHit, hx]
  · have hstep : aveStep E d
        ⟨true, ⟨0, 0, 0⟩, [], []⟩ h0 =
        ⟨false, hitPos h0.hit, [], [h0]⟩ := by
      simp only [aveStep, hitPos] at hx ⊢
      simp [hx]
    rw [hstep]
    obtain ⟨_, _, h3, h4⟩ := aveStep_foldl E d t ⟨false, hitPos h0.hit, [], [h0]⟩ rfl
    rw [h3, h4]
    simp [nearHit, hx]

/-- A hit is at distance zero from itself, so it passes the test for a positive limit. -/
theorem nearHit_self (E : Env R) (d : R) (hd : 0 < d) (h : HitPtr R) :
    nearHit E d (hitPos h.hit) h = true := by
  simp [nearHit, TVector3.sub, TVector3.Mag, E.sqrt_zero, hd]

theorem DoAverage_isSome (E : Env R) (h0 : HitPtr R) (t : List (HitPtr R)) :
    ∃ a, DoAverage E (h0 :: t) = some a := by
  simp [DoAverage]

/-- The recursion of `AverageHits` returns as soon as the fuel exceeds the number of
hits, whatever the distance limit. -/
theorem AverageHitsFuel_isSome (E : Env R) (alg : CRTTrackRecoAlg R)
    (hitIds : List (Nat × Int)) :
    ∀ (fuel : Nat) (hits : List (HitPtr R)), hits.length < fuel →
    ∃ out, AverageHitsFuel E alg hitIds fuel hits = some out := by
  intro fuel
  induction fuel with
  | zero => intro hits h; omega
  | succ fuel ih =>
    intro hits hlen
    cases hits with
    | nil => exact ⟨[], by simp [AverageHitsFuel]⟩
    | cons h0 t =>
      obtain ⟨ha, hs⟩ := aveLoop_eq E alg.fAverageHitDistance h0 t
      rw [AverageHitsFuel]
      simp only [List.length_cons, gt_iff_lt, Nat.zero_lt_succ, if_true]
      rw [ha, hs]
      by_cases hpos : 0 < ((h0 :: t).filter
          (nearHit E alg.fAverageHitDistance (hitPos h0.hit))).length
      · rw [if_pos hpos]
        have hperm := List.filter_append_perm
          (nearHit E alg.fAverageHitDistance (hitPos h0.hit)) (h0 :: t)
        have hlt : ((h0 :: t).filter
            (fun h => !nearHit E alg.fAverageHitDistance (hitPos h0.hit) h)).length < fuel := by
          have := hperm.length_eq
          rw [List.length_append] at this
          simp only [List.length_cons] at this hlen
          omega
        obtain ⟨more, hmore⟩ := ih _ hlt
        obtain ⟨a, hav⟩ : ∃ a, DoAverage E ((h0 :: t).filter
            (nearHit E alg.fAverageHitDistance (hitPos h0.hit))) = some a := by
          cases hf : (h0 :: t).filter (nearHit E alg.fAverageHitDistance (hitPos h0.hit)) with
          | nil => rw [hf] at hpos; simp at hpos
          | cons x xs => exact DoAverage_isSome E x xs
        rw [hav, hmore]
        exact ⟨_, rfl⟩
      · rw [if_neg hpos]
        exact ⟨_, rfl⟩

/-- With a positive `fAverageHitDistance` the recursion of `AverageHits` returns as soon
as the fuel exceeds the number of hits, and the id lists of its output, concatenated, are
a permutation of the ids of the input hits. -/
theorem AverageHitsFuel_partition (E : Env R) (alg : CRTTrackRecoAlg R)
    (hitIds : List (Nat × Int)) (hd : 0 < alg.fAverageHitDistance) :
    ∀ (fuel : Nat) (hits : List (HitPtr R)), hits.length < fuel →
    ∃ out, AverageHitsFuel E alg hitIds fuel hits = some out ∧
      (out.map Prod.snd).flatten.Perm (hits.map (hitIdOf hitIds)) := by
  intro fuel
  induction fuel with
  | zero => intro hits h; omega
  | succ fuel ih =>
    intro hits hlen
    cases hits with
    | nil => exact ⟨[], by simp [AverageHitsFuel], by simp⟩
    | cons h0 t =>
      obtain ⟨ha, hs⟩ := aveLoop_eq E alg.fAverageHitDistance h0 t
      have hmem : h0 ∈ (h0 :: t).filter (nearHit E alg.fAverageHitDistance (hitPos h0.hit)) :=
        List.mem_filter.2 ⟨List.mem_cons_self _ _, nearHit_self E _ hd h0⟩
      have hpos : 0 < ((h0 :: t).filter
          (nearHit E alg.fAverageHitDistance (hitPos h0.hit))).length :=
        List.length_pos_of_mem hmem
      have hperm := List.filter_append_perm
        (nearHit E alg.fAverageHitDistance (hitPos h0.hit)) (h0 :: t)
      have hlt : ((h0 :: t).filter
          (fun h => !nearHit E alg.fAverageHitDistance (hitPos h0.hit) h)).length < fuel := by
        have := hperm.length_eq
        rw [List.length_append] at this
        omega
      obtain ⟨more, hmore, hmp⟩ := ih _ hlt
      obtain ⟨a, hav⟩ : ∃ a, DoAverage E ((h0 :: t).filter
          (nearHit E alg.fAverageHitDistance (hitPos h0.hit))) = some a := by
        cases hf : (h0 :: t).filter (nearHit E alg.fAverageHitDistance (hitPos h0.hit)) with
        | nil => rw [hf] at hpos; simp at hpos
        | cons x xs => exact DoAverage_isSome E x xs
      refine ⟨(a, ((h0 :: t).filter
        (nearHit E alg.fAverageHitDistance (hitPos h0.hit))).map (hitIdOf hitIds)) :: more,
        ?_, ?_⟩
      · rw [AverageHitsFuel]
        simp only [List.length_cons, gt_iff_lt, Nat.zero_lt_succ, if_true]
        rw [ha, hs, if_pos hpos, hav, hmore]
      · simp only [List.map_cons, List.flatten_cons]
        refine (List.Perm.append_left _ hmp).trans ?_
        rw [← List.map_append]
        exact hperm.map _

/-! ## Properties of `AverageHits` -/

/-- C2: for every input and every `AverageHitDistance > 0`, `AverageHits` (with the
hit-to-id map) returns, and the contributor-id lists of its output entries, concatenated,
are the ids of the input hits, each input hit counted exactly once. -/
theorem AverageHits_partition (E : Env R) (alg : CRTTrackRecoAlg R) (hits : List (HitPtr R))
    (hitIds : List (Nat × Int)) (hd : 0 < alg.fAverageHitDistance) :
    ∃ out, AverageHits E alg hits hitIds = some out ∧
      (out.map Prod.snd).flatten.Perm (hits.map (hitIdOf hitIds)) :=
  AverageHitsFuel_partition E alg hitIds hd (hits.length + 1) hits (Nat.lt_succ_self _)

theorem AverageHits_partition_witness :
    (0 : ℚ) < 6 ∧
      ∃ out, AverageHits ratEnv ⟨1, 6, 1⟩ exAveHits exHitIds = some out ∧
        (out.map Prod.snd).flatten.Perm (exAveHits.map (hitIdOf exHitIds)) :=
  ⟨by norm_num, AverageHits_partition ratEnv ⟨1, 6, 1⟩ exAveHits exHitIds (by norm_num)⟩

/-! ## The loop of `DoAverage` -/

theorem foldl_max_spec : ∀ (vs : List R) (a : R),
    IsMaxOf (vs.foldl (fun m v => if v > m then v else m) a) (a :: vs) := by
  intro vs
  induction vs with
  | nil => intro a; simp [IsMaxOf]
  | cons v t ih =>
    intro a
    rw [List.foldl_cons]
    obtain ⟨h1, h2⟩ := ih (if v > a then v else a)
    constructor
    · rcases List.mem_cons.1 h1 with h | h
      · rw [h]
        split
        · simp
        · simp
      · simp [h]
    · intro w hw
      have hstep : a ≤ (if v > a then v else a) ∧ v ≤ (if v > a then v else a) := by
        split
        · rename_i h; exact ⟨le_of_lt h, le_rfl⟩
        · rename_i h; exact ⟨le_rfl, not_lt.1 h⟩
      have hbase := h2 _ (List.mem_cons_self _ _)
      rcases List.mem_cons.1 hw with rfl | hw
      · exact le_trans hstep.1 hbase
      · rcases List.mem_cons.1 hw with rfl | hw
        · exact le_trans hstep.2 hbase
        · exact h2 w (List.mem_cons_of_mem _ hw)

theorem foldl_min_spec : ∀ (vs : List R) (a : R),
    IsMinOf (vs.foldl (fun m v => if v < m then v else m) a) (a :: vs) := by
  intro vs
  induction vs with
  | nil => intro a; simp [IsMinOf]
  | cons v t ih =>
    intro a
    rw [List.foldl_cons]
    obtain ⟨h1, h2⟩ := ih (if v < a then v else a)
    constructor
    · rcases List.mem_cons.1 h1 with h | h
      · rw [h]
        split
        · simp
        · simp
      · simp [h]
    · intro w hw
      have hstep : (if v < a then v else a) ≤ a ∧ (if v < a then v else a) ≤ v := by
        split
        · rename_i h; exact ⟨le_of_lt h, le_rfl⟩
        · rename_i h; exact ⟨le_rfl, not_lt.1 h⟩
      have hbase := h2 _ (List.mem_cons_self _ _)
      rcases List.mem_cons.1 hw with rfl | hw
      · exact le_trans hbase hstep.1
      · rcases List.mem_cons.1 hw with rfl | hw
        · exact le_trans hbase hstep.2
        · exact h2 w (List.mem_cons_of_mem _ hw)

/-- The local variables of `DoAverage` after its loop, component by component. -/
theorem avgStep_foldl (E : Env R) : ∀ (l : List (HitPtr R)) (a : AvgState R),
    (l.foldl (avgStep E) a).xpos = a.xpos + (l.map (fun h => h.hit.x_pos)).sum ∧
    (l.foldl (avgStep E) a).ypos = a.ypos + (l.map (fun h => h.hit.y_pos)).sum ∧
    (l.foldl (avgStep E) a).zpos = a.zpos + (l.map (fun h => h.hit.z_pos)).sum ∧
    (l.foldl (avgStep E) a).ts0_ns =
      a.ts0_ns + (l.map (fun h => ((E.toInt h.hit.ts0_ns : Int) : R))).sum ∧
    (l.foldl (avgStep E) a).ts1_ns =
      a.ts1_ns + (l.map (fun h => ((E.toInt h.hit.ts1_ns : Int) : R))).sum ∧
    (l.foldl (avgStep E) a).nhits = a.nhits + l.length ∧
    (l.foldl (avgStep E) a).xmax =
      (l.map (fun h => h.hit.x_pos + h.hit.x_err)).foldl (fun m v => if v > m then v else m) a.xmax ∧
    (l.foldl (avgStep E) a).xmin =
      (l.map (fun h => h.hit.x_pos - h.hit.x_err)).foldl (fun m v => if v < m then v else m) a.xmin ∧
    (l.foldl (avgStep E) a).ymax =
      (l.map (fun h => h.hit.y_pos + h.hit.y_err)).foldl (fun m v => if v > m then v else m) a.ymax ∧
    (l.foldl (avgStep E) a).ymin =
      (l.map (fun h => h.hit.y_pos - h.hit.y_err)).foldl (fun m v => if v < m then v else m) a.ymin ∧
    (l.foldl (avgStep E) a).zmax =
      (l.map (fun h => h.hit.z_pos + h.hit.z_err)).foldl (fun m v => if v > m then v else m) a.zmax ∧
    (l.foldl (avgStep E) a).zmin =
      (l.map (fun h => h.hit.z_pos - h.hit.z_err)).foldl (fun m v => if v < m then v else m) a.zmin := by
  intro l
  induction l with
  | nil => intro a; simp
  | cons x t ih =>
    intro a
    obtain ⟨h1, h2, h3, h4, h5, h6, h7, h8, h9, h10, h11, h12⟩ := ih (avgStep E a x)
    simp only [List.foldl_cons, List.map_cons, List.sum_cons, List.length_cons]
    rw [h1, h2, h3, h4, h5, h6, h7, h8, h9, h10, h11, h12]
    simp only [avgStep]
    exact ⟨by ring, by ring, by ring, by ring, by ring, by omega, trivial, trivial, trivial,
      trivial, trivial, trivial⟩

/-! ## Properties of `DoAverage` -/

/-- C6, refuted as stated: for the single hit with `x_pos = 200000` and `x_err = 0` the
envelope span is 0, but the averaged hit has `x_err = (200000 - 99999)/2`, because the
running minimum starts at 99999. -/
theorem DoAverage_err_not_envelope :
    (DoAverage ratEnv [exFarHit]).map (fun a => a.x_err) = some (100001 / 2) ∧
    ((exFarHit.hit.x_pos + exFarHit.hit.x_err) -
      (exFarHit.hit.x_pos - exFarHit.hit.x_err)) / 2 = 0 := by
  constructor <;> decide!

/-- C6, amended: for every non-empty group of hits, the hit built by `DoAverage` has on
each axis the uncertainty `(M - m)/2`, where `M` is the largest of `-99999` and the values
`pos + err` of the group and `m` is the smallest of `99999` and the values `pos - err` of
the group. -/
theorem DoAverage_err_envelope (E : Env R) (hits : List (HitPtr R)) (hne : hits ≠ []) :
    ∃ a Mx mx My my Mz mz, DoAverage E hits = some a ∧
      IsMaxOf Mx (-99999 :: hits.map (fun h => h.hit.x_pos + h.hit.x_err)) ∧
      IsMinOf mx (99999 :: hits.map (fun h => h.hit.x_pos - h.hit.x_err)) ∧
      a.x_err = (Mx - mx) / 2 ∧
      IsMaxOf My (-99999 :: hits.map (fun h => h.hit.y_pos + h.hit.y_err)) ∧
      IsMinOf my (99999 :: hits.map (fun h => h.hit.y_pos - h.hit.y_err)) ∧
      a.y_err = (My - my) / 2 ∧
      IsMaxOf Mz (-99999 :: hits.map (fun h => h.hit.z_pos + h.hit.z_err)) ∧
      IsMinOf mz (99999 :: hits.map (fun h => h.hit.z_pos - h.hit.z_err)) ∧
      a.z_err = (Mz - mz) / 2 := by
  cases hits with
  | nil => exact absurd rfl hne
  | cons h0 t =>
    obtain ⟨_, _, _, _, _, _, h7, h8, h9, h10, h11, h12⟩ := avgStep_foldl E (h0 :: t) avgInit
    refine ⟨_, ((h0 :: t).foldl (avgStep E) avgInit).xmax,
      ((h0 :: t).foldl (avgStep E) avgInit).xmin, ((h0 :: t).foldl (avgStep E) avgInit).ymax,
      ((h0 :: t).foldl (avgStep E) avgInit).ymin, ((h0 :: t).foldl (avgStep E) avgInit).zmax,
      ((h0 :: t).foldl (avgStep E) avgInit).zmin, rfl, ?_, ?_, rfl, ?_, ?_, rfl, ?_, ?_, rfl⟩
    · rw [h7]; exact foldl_max_spec _ _
    · rw [h8]; exact foldl_min_spec _ _
    · rw [h9]; exact foldl_max_spec _ _
    · rw [h10]; exact foldl_min_spec _ _
    · rw [h11]; exact foldl_max_spec _ _
    · rw [h12]; exact foldl_min_spec _ _

theorem DoAverage_err_envelope_witness :
    exAveHits ≠ [] ∧
    ∃ a Mx mx My my Mz mz, DoAverage ratEnv exAveHits = some a ∧
      IsMaxOf Mx (-99999 :: exAveHits.map (fun h => h.hit.x_pos + h.hit.x_err)) ∧
      IsMinOf mx (99999 :: exAveHits.map (fun h => h.hit.x_pos - h.hit.x_err)) ∧
      a.x_err = (Mx - mx) / 2 ∧
      IsMaxOf My (-99999 :: exAveHits.map (fun h => h.hit.y_pos + h.hit.y_err)) ∧
      IsMinOf my (99999 :: exAveHits.map (fun h => h.hit.y_pos - h.hit.y_err)) ∧
      a.y_err = (My - my) / 2 ∧
      IsMaxOf Mz (-99999 :: exAveHits.map (fun h => h.hit.z_pos + h.hit.z_err)) ∧
      IsMinOf mz (99999 :: exAveHits.map (fun h => h.hit.z_pos - h.hit.z_err)) ∧
      a.z_err = (Mz - mz) / 2 :=
  ⟨by decide, DoAverage_err_envelope ratEnv exAveHits (by decide)⟩

/-- C7, refuted as stated: averaging the single hit with `ts0_ns = 1000` gives a hit with
`ts0_ns = 1`, not 1000. -/
theorem DoAverage_single_changes_time :
    (DoAverage ratEnv [exTimedHit]).map (fun a => a.ts0_ns) = some 1 ∧
      exTimedHit.hit.ts0_ns = 1000 := by
  constructor <;> decide!

/-- C7, amended: averaging the single-hit group `[h]` returns a hit with the position,
charge, charge map, tagger, plane and board of `h`; its two times are `ts0_ns` and `ts1_ns`
of `h`, converted through a 32-bit `int` and multiplied by `1e-3`; its uncertainty on an
axis is that of `h` when `h`'s envelope on the axis lies inside the initial values
(`-99999 < pos + err` and `pos - err < 99999`). -/
theorem DoAverage_single (E : Env R) (h : HitPtr R) :
    ∃ a, DoAverage E [h] = some a ∧
      a.x_pos = h.hit.x_pos ∧ a.y_pos = h.hit.y_pos ∧ a.z_pos = h.hit.z_pos ∧
      a.peshit = h.hit.peshit ∧ a.pesmap = h.hit.pesmap ∧ a.tagger = h.hit.tagger ∧
      a.plane = h.hit.plane ∧ a.feb_id = h.hit.feb_id ∧
      a.ts0_ns = ((E.toInt h.hit.ts0_ns : Int) : R) * (1 / 1000) ∧
      a.ts1_ns = ((E.toInt h.hit.ts1_ns : Int) : R) * (1 / 1000) ∧
      (-99999 < h.hit.x_pos + h.hit.x_err → h.hit.x_pos - h.hit.x_err < 99999 →
        a.x_err = h.hit.x_err) ∧
      (-99999 < h.hit.y_pos + h.hit.y_err → h.hit.y_pos - h.hit.y_err < 99999 →
        a.y_err = h.hit.y_err) ∧
      (-99999 < h.hit.z_pos + h.hit.z_err → h.hit.z_pos - h.hit.z_err < 99999 →
        a.z_err = h.hit.z_err) := by
  refine ⟨_, rfl, ?_, ?_, ?_, rfl, rfl, rfl, rfl, rfl, ?_, ?_, ?_, ?_, ?_⟩
  · simp [FillCRTHit, avgStep, avgInit]
  · simp [FillCRTHit, avgStep, avgInit]
  · simp [FillCRTHit, avgStep, avgInit]
  · simp [FillCRTHit, avgStep, avgInit]
  · simp [FillCRTHit, avgStep, avgInit]
  · intro h1 h2
    simp only [FillCRTHit, avgStep, avgInit, List.foldl_cons, List.foldl_nil, gt_iff_lt]
    rw [if_pos h1, if_pos h2]; ring
  · intro h1 h2
    simp only [FillCRTHit, avgStep, avgInit, List.foldl_cons, List.foldl_nil, gt_iff_lt]
    rw [if_pos h1, if_pos h2]; ring
  · intro h1 h2
    simp only [FillCRTHit, avgStep, avgInit, List.foldl_cons, List.foldl_nil, gt_iff_lt]
    rw [if_pos h1, if_pos h2]; ring

theorem DoAverage_single_witness :
    -99999 < exTimedHit.hit.x_pos + exTimedHit.hit.x_err ∧
    exTimedHit.hit.x_pos - exTimedHit.hit.x_err < 99999 ∧
    ∃ a, DoAverage ratEnv [exTimedHit] = some a ∧ a.x_pos = exTimedHit.hit.x_pos ∧
      a.x_err = exTimedHit.hit.x_err ∧
      a.ts0_ns = ((ratEnv.toInt exTimedHit.hit.ts0_ns : Int) : ℚ) * (1 / 1000) := by
  obtain ⟨a, h0, h1, _, _, _, _, _, _, _, h9, _, hx, _, _⟩ := DoAverage_single ratEnv exTimedHit
  exact ⟨by decide!, by decide!, a, h0, h1, hx (by decide!) (by decide!), h9⟩

/-! ## The selection loop of `CreateTracks` -/

theorem selectLoop_eq_map (E : Env R) (hits : List (CRTHit R × List Int)) :
    ∀ (tracks : List (List Nat × R)) (usedHits : List Nat),
    selectLoop E hits tracks usedHits =
      (acceptedLoop tracks usedHits).map (emitTrack E hits) := by
  intro tracks
  induction tracks with
  | nil => intro _; rfl
  | cons track rest ih =>
    intro usedHits
    rw [selectLoop, acceptedLoop]
    split
    · exact ih _
    · rw [List.map_cons, ih]

/-- The output of `CreateTracks` is the list of accepted candidates, each turned into its
track and id list. -/
theorem CreateTracks_eq_map (E : Env R) (alg : CRTTrackRecoAlg R)
    (hits : List (CRTHit R × List Int)) :
    CreateTracks E alg hits = (acceptedCandidates E alg hits).map (emitTrack E hits) :=
  selectLoop_eq_map E hits _ _

/-- Accepted candidates avoid the hits used so far, and two accepted candidates with more
than two hits each have no hit in common. -/
theorem acceptedLoop_disjoint {R : Type} :
    ∀ (tracks : List (List Nat × R)) (usedHits : List Nat),
    (∀ c ∈ acceptedLoop tracks usedHits, ∀ k ∈ c.1, k ∉ usedHits) ∧
    (acceptedLoop tracks usedHits).Pairwise
      (fun a b => 2 < a.1.length → 2 < b.1.length → ∀ k ∈ a.1, k ∉ b.1) := by
  intro tracks
  induction tracks with
  | nil => intro _; simp [acceptedLoop]
  | cons track rest ih =>
    intro usedHits
    rw [acceptedLoop]
    split
    · exact ih usedHits
    · rename_i hused
      obtain ⟨h1, h2⟩ := ih (if track.1.length > 2 then usedHits ++ track.1 else usedHits)
      have hused' : ∀ k ∈ track.1, k ∉ usedHits := by
        intro k hk hku
        apply hused
        simp only [List.any_eq_true, decide_eq_true_eq]
        exact ⟨k, hk, hku⟩
      constructor
      · intro c hc k hk
        rcases List.mem_cons.1 hc with rfl | hc
        · exact hused' k hk
        · intro hku
          apply h1 c hc k hk
          split
          · exact List.mem_append_left _ hku
          · exact hku
      · rw [List.pairwise_cons]
        refine ⟨?_, h2⟩
        intro c hc hlen _ k hk hkc
        apply h1 c hc k hkc
        rw [if_pos hlen]
        exact List.mem_append_right _ hk

/-! ## Properties of `CreateTracks` -/

/-- C3: the tracks emitted by `CreateTracks` are built from the accepted candidates, and
any two accepted candidates that each have more than two hits (anchors plus supporting
hits) share no hit index. -/
theorem CreateTracks_disjoint (E : Env R) (alg : CRTTrackRecoAlg R)
    (hits : List (CRTHit R × List Int)) :
    CreateTracks E alg hits = (acceptedCandidates E alg hits).map (emitTrack E hits) ∧
    (acceptedCandidates E alg hits).Pairwise
      (fun a b => 2 < a.1.length → 2 < b.1.length → ∀ k ∈ a.1, k ∉ b.1) :=
  ⟨CreateTracks_eq_map E alg hits, (acceptedLoop_disjoint _ _).2⟩

/-- The `complete` flag of the track built from a candidate: false exactly for a two-hit
candidate with one anchor on the top-high and the other on the top-low panel. -/
theorem emitTrack_complete (E : Env R) (hits : List (CRTHit R × List Int))
    (c : List Nat × R) :
    (emitTrack E hits c).1.complete = false ↔
      c.1.length = 2 ∧
      (((hitAt hits (c.1.getD 0 0)).tagger = "volTaggerTopHigh_0" ∧
          (hitAt hits (c.1.getD 1 0)).tagger = "volTaggerTopLow_0") ∨
        ((hitAt hits (c.1.getD 0 0)).tagger = "volTaggerTopLow_0" ∧
          (hitAt hits (c.1.getD 1 0)).tagger = "volTaggerTopHigh_0")) := by
  unfold emitTrack
  generalize c.1.getD 0 0 = i0
  generalize c.1.getD 1 0 = i1
  generalize c.1.length = n
  by_cases hswap : (hitAt hits i1).tagger = "volTaggerTopHigh_0"
  · simp only [hswap, decide_True, if_true]
    split
    · rename_i h
      simp only [true_and] at h
      simp [h.1, h.2]
    · rename_i h
      simp only [true_and] at h
      simp only [FillCrtTrack, Bool.true_eq_false, false_iff]
      rintro ⟨h1, h2 | h2⟩
      · exact absurd h2.2 (by decide)
      · exact h ⟨h1, h2.1⟩
  · simp only [hswap, decide_False, if_false, Bool.false_eq_true]
    split
    · rename_i h
      simp [h.1, h.2.1, h.2.2]
    · rename_i h
      simp only [FillCrtTrack, Bool.true_eq_false, false_iff]
      rintro ⟨h1, h2 | h2⟩
      · exact h ⟨h1, h2.1, h2.2⟩
      · exact h2.2.elim

/-- C10: for every track emitted by `CreateTracks`, `complete` is false if and only if
the accepted candidate has exactly two hits and its two anchors are on the taggers
`volTaggerTopHigh_0` and `volTaggerTopLow_0`, in either order. -/
theorem CreateTracks_complete (E : Env R) (alg : CRTTrackRecoAlg R)
    (hits : List (CRTHit R × List Int)) :
    CreateTracks E alg hits = (acceptedCandidates E alg hits).map (emitTrack E hits) ∧
    ∀ c ∈ acceptedCandidates E alg hits,
      ((emitTrack E hits c).1.complete = false ↔
        c.1.length = 2 ∧
        (((hitAt hits (c.1.getD 0 0)).tagger = "volTaggerTopHigh_0" ∧
            (hitAt hits (c.1.getD 1 0)).tagger = "volTaggerTopLow_0") ∨
          ((hitAt hits (c.1.getD 0 0)).tagger = "volTaggerTopLow_0" ∧
            (hitAt hits (c.1.getD 1 0)).tagger = "volTaggerTopHigh_0"))) :=
  ⟨CreateTracks_eq_map E alg hits, fun c _ => emitTrack_complete E hits c⟩

/-! ## Phase 1 of `CreateTracks` -/

theorem pairStep_inv (E : Env R) (hits : List (CRTHit R × List Int)) (i j : Nat)
    (st : List (Nat × Nat) × List ((Nat × Nat) × R)) (hi : i < hits.length)
    (hj : j < hits.length) (h : PairInv hits i j st) :
    PairInv hits i (j + 1) (pairStep E hits i j st) := by
  obtain ⟨hfst, hnd, hmem⟩ := h
  have hrev : (j, i) ∈ st.1 ↔ j < i ∧ (hitAt hits j).tagger ≠ (hitAt hits i).tagger := by
    rw [hmem]
    constructor
    · rintro ⟨h1, _, h3, _⟩; exact ⟨h1, h3⟩
    · rintro ⟨h1, h3⟩; exact ⟨h1, hi, h3, Or.inl h1⟩
  have hnot : (i, j) ∉ st.1 := by
    rw [hmem]
    rintro ⟨_, _, _, h4 | h4⟩
    · exact lt_irrefl _ h4
    · exact lt_irrefl _ h4.2
  unfold pairStep
  simp only []
  split
  · rename_i hc
    obtain ⟨hc1, hc2⟩ := hc
    have hij : i < j := by
      have hle : ¬ j < i := fun hlt => hc2 (hrev.2 ⟨hlt, fun e => hc1 e.symm⟩)
      have hne : i ≠ j := fun e => hc1 (by rw [e])
      omega
    refine ⟨?_, ?_, ?_⟩
    · simp [hfst]
    · exact List.Nodup.append hnd (List.nodup_singleton _) (by simpa using hnot)
    · intro a b
      simp only [List.mem_append, List.mem_singleton, Prod.mk.injEq, hmem]
      constructor
      · rintro (⟨h1, h2, h3, h4⟩ | ⟨rfl, rfl⟩)
        · refine ⟨h1, h2, h3, ?_⟩
          rcases h4 with h4 | h4
          · exact Or.inl h4
          · exact Or.inr ⟨h4.1, by omega⟩
        · exact ⟨hij, hj, hc1, Or.inr ⟨rfl, by omega⟩⟩
      · rintro ⟨h1, h2, h3, h4⟩
        rcases h4 with h4 | ⟨h4, h5⟩
        · exact Or.inl ⟨h1, h2, h3, Or.inl h4⟩
        · by_cases hb : b = j
          · exact Or.inr ⟨h4, hb⟩
          · exact Or.inl ⟨h1, h2, h3, Or.inr ⟨h4, by omega⟩⟩
  · rename_i hc
    refine ⟨hfst, hnd, ?_⟩
    intro a b
    rw [hmem]
    constructor
    · rintro ⟨h1, h2, h3, h4⟩
      refine ⟨h1, h2, h3, ?_⟩
      rcases h4 with h4 | h4
      · exact Or.inl h4
      · exact Or.inr ⟨h4.1, by omega⟩
    · rintro ⟨h1, h2, h3, h4⟩
      refine ⟨h1, h2, h3, ?_⟩
      rcases h4 with h4 | ⟨h4, h5⟩
      · exact Or.inl h4
      · by_cases hb : b = j
        · exfalso
          subst h4 hb
          apply hc
          refine ⟨h3, ?_⟩
          rw [hrev]
          rintro ⟨hlt, _⟩
          omega
        · exact Or.inr ⟨h4, by omega⟩

theorem pairInner_inv (E : Env R) (hits : List (CRTHit R × List Int)) (i : Nat)
    (st : List (Nat × Nat) × List ((Nat × Nat) × R)) (hi : i < hits.length)
    (h : PairInv hits i 0 st) : ∀ j, j ≤ hits.length →
    PairInv hits i j ((List.range j).foldl (fun st j => pairStep E hits i j st) st) := by
  intro j
  induction j with
  | zero => intro _; simpa using h
  | succ j ih =>
    intro hj
    rw [List.range_succ, List.foldl_append]
    exact pairStep_inv E hits i j _ hi (by omega) (ih (by omega))

theorem pairOuter_inv (E : Env R) (hits : List (CRTHit R × List Int)) : ∀ i, i ≤ hits.length →
    PairInv hits i 0 ((List.range i).foldl
      (fun st i => (List.range hits.length).foldl (fun st j => pairStep E hits i j st) st)
      ([], [])) := by
  intro i
  induction i with
  | zero =>
    intro _
    refine ⟨rfl, List.nodup_nil, ?_⟩
    intro a b
    simp
  | succ i ih =>
    intro hi
    rw [List.range_succ, List.foldl_append]
    obtain ⟨h1, h2, h3⟩ := pairInner_inv E hits i _ (by omega) (ih (by omega)) hits.length le_rfl
    refine ⟨h1, h2, ?_⟩
    intro a b
    simp only [List.foldl_cons, List.foldl_nil]
    rw [h3]
    constructor
    · rintro ⟨k1, k2, k3, k4⟩
      refine ⟨k1, k2, k3, Or.inl ?_⟩
      rcases k4 with k4 | k4
      · omega
      · omega
    · rintro ⟨k1, k2, k3, k4⟩
      refine ⟨k1, k2, k3, ?_⟩
      rcases k4 with k4 | k4
      · by_cases ha : a = i
        · exact Or.inr ⟨ha, k2⟩
        · exact Or.inl (by omega)
      · omega

/-- The pairs recorded by Phase 1, without the distances: no repetition, and exactly the
pairs `(i, j)` with `i < j` on different taggers. -/
theorem hitPairLoop_mem (E : Env R) (hits : List (CRTHit R × List Int)) :
    ((hitPairLoop E hits).2.map Prod.fst).Nodup ∧
    ∀ i j, (i, j) ∈ (hitPairLoop E hits).2.map Prod.fst ↔
      i < j ∧ j < hits.length ∧ (hitAt hits i).tagger ≠ (hitAt hits j).tagger := by
  obtain ⟨h1, h2, h3⟩ := pairOuter_inv E hits hits.length le_rfl
  unfold hitPairLoop
  rw [h1]
  refine ⟨h2, ?_⟩
  intro i j
  rw [h3]
  constructor
  · rintro ⟨k1, k2, k3, _⟩; exact ⟨k1, k2, k3⟩
  · rintro ⟨k1, k2, k3⟩; exact ⟨k1, k2, k3, Or.inl (by omega)⟩

/-- C9: the pair list built in Phase 1 of `CreateTracks` has no repetition and holds
exactly the index pairs `(i, j)` with `i < j` (both below the number of hits) whose hits
are on different taggers: no self-pair, no same-panel pair, never both `(i, j)` and
`(j, i)`. -/
theorem hitPairLoop_pairs (E : Env R) (hits : List (CRTHit R × List Int)) :
    ((hitPairLoop E hits).2.map Prod.fst).Nodup ∧
    (∀ i j, (i, j) ∈ (hitPairLoop E hits).2.map Prod.fst ↔
      i < j ∧ j < hits.length ∧ (hitAt hits i).tagger ≠ (hitAt hits j).tagger) ∧
    (∀ i, (i, i) ∉ (hitPairLoop E hits).2.map Prod.fst) ∧
    (∀ i j, (i, j) ∈ (hitPairLoop E hits).2.map Prod.fst →
      (j, i) ∉ (hitPairLoop E hits).2.map Prod.fst) := by
  obtain ⟨h1, h2⟩ := hitPairLoop_mem E hits
  refine ⟨h1, h2, ?_, ?_⟩
  · intro i hi
    exact lt_irrefl _ ((h2 i i).1 hi).1
  · intro i j hij hji
    exact lt_asymm ((h2 i j).1 hij).1 ((h2 j i).1 hji).1

/-- The id list paired with a track: the id lists of the hits at the positions
`0, 1, ..., n-1` of the input, where `n` is the number of hits of the candidate. -/
theorem emitTrack_ids (E : Env R) (hits : List (CRTHit R × List Int)) (c : List Nat × R) :
    (emitTrack E hits c).2 = ((List.range c.1.length).map (idsAt hits)).flatten := by
  unfold emitTrack
  simp only []
  generalize c.1.length = n
  induction n with
  | zero => simp
  | succ n ih =>
    rw [List.range_succ, List.foldl_append, List.map_append, List.flatten_append, ih]
    simp

/-- C8 at a failing input: for the three hits of `exTrackHits` the accepted candidates
are `[0, 2]` and `[1, 2]`; the id lists of their hits are `[10, 12]` and `[11, 12]`, but
both tracks are returned with the ids `[10, 11]` of the input hits at positions 0 and 1. -/
theorem CreateTracks_ids_exTrackHits :
    acceptedCandidates ratEnv ⟨1, 1, 1⟩ exTrackHits = [([0, 2], 1), ([1, 2], 1)] ∧
    (CreateTracks ratEnv ⟨1, 1, 1⟩ exTrackHits).map Prod.snd = [[10, 11], [10, 11]] ∧
    [idsAt exTrackHits 0 ++ idsAt exTrackHits 2, idsAt exTrackHits 1 ++ idsAt exTrackHits 2] =
      [[10, 12], [11, 12]] := by
  refine ⟨by decide!, by decide!, by decide!⟩

/-! ## Properties of `CrossPoint` -/

/-- The crossing point for a hit whose only uncertainty in the band is the one along axis
`a`, when the line is not parallel to the plane of the hit. -/
theorem CrossPoint_eq_linePoint (hit : CRTHit R) (start diff : TVector3 R) (a : Axis)
    (hband : inBand (errOf hit a)) (hother : ∀ b, b ≠ a → ¬ inBand (errOf hit b))
    (hd : diff.comp a ≠ 0) :
    CrossPoint hit start diff =
      some (linePoint start diff ((posOf hit a - start.comp a) / diff.comp a)) := by
  cases a with
  | x =>
    simp only [errOf, posOf, TVector3.comp, inBand] at hband hd ⊢
    unfold CrossPoint
    rw [if_pos ⟨hband.1, hband.2⟩]
    simp only []
    rw [if_neg hd]
    simp only [linePoint, Option.some.injEq, TVector3.mk.injEq]
    refine ⟨?_, ?_, ?_⟩
    · field_simp
    · ring
    · ring
  | y =>
    have hx : ¬ inBand hit.x_err := hother Axis.x (by decide)
    simp only [errOf, posOf, TVector3.comp, inBand] at hband hd hx ⊢
    unfold CrossPoint
    rw [if_neg (fun h => hx ⟨h.1, h.2⟩), if_pos ⟨hband.1, hband.2⟩]
    simp only []
    rw [if_neg hd]
    simp only [linePoint, Option.some.injEq, TVector3.mk.injEq]
    refine ⟨?_, ?_, ?_⟩
    · ring
    · field_simp
    · ring
  | z =>
    have hx : ¬ inBand hit.x_err := hother Axis.x (by decide)
    have hy : ¬ inBand hit.y_err := hother Axis.y (by decide)
    simp only [errOf, posOf, TVector3.comp, inBand] at hband hd hx hy ⊢
    unfold CrossPoint
    rw [if_neg (fun h => hx ⟨h.1, h.2⟩), if_neg (fun h => hy ⟨h.1, h.2⟩),
      if_pos ⟨hband.1, hband.2⟩]
    simp only []
    rw [if_neg hd]
    simp only [linePoint, Option.some.injEq, TVector3.mk.injEq]
    refine ⟨?_, ?_, ?_⟩
    · ring
    · ring
    · field_simp

theorem linePoint_comp (start diff : TVector3 R) (a : Axis) (c : R) (hd : diff.comp a ≠ 0) :
    (linePoint start diff ((c - start.comp a) / diff.comp a)).comp a = c := by
  cases a <;> simp only [linePoint, TVector3.comp] at hd ⊢ <;> field_simp

/-- C11: for a hit with exactly one per-axis uncertainty strictly between 0.39 and 0.41,
along axis `a`, and a line whose `diff` component along `a` is not zero, `CrossPoint`
returns a point that has the hit's coordinate on axis `a` and is the point
`start + t * diff` of the line for `t = (hit coordinate - start coordinate) / (diff
coordinate)` on that axis. -/
theorem CrossPoint_on_line (hit : CRTHit R) (start diff : TVector3 R) (a : Axis)
    (hband : inBand (errOf hit a)) (hother : ∀ b, b ≠ a → ¬ inBand (errOf hit b))
    (hd : diff.comp a ≠ 0) :
    ∃ p, CrossPoint hit start diff = some p ∧ p.comp a = posOf hit a ∧
      p = linePoint start diff ((posOf hit a - start.comp a) / diff.comp a) :=
  ⟨_, CrossPoint_eq_linePoint hit start diff a hband hother hd,
    linePoint_comp start diff a (posOf hit a) hd, rfl⟩

theorem CrossPoint_on_line_witness :
    inBand (errOf exLowHit Axis.y) ∧
    (∀ b, b ≠ Axis.y →
      ¬ inBand (errOf exLowHit b)) ∧
    (TVector3.mk (75 / 4 : ℚ) (-25) 0).comp Axis.y ≠ 0 ∧
    ∃ p, CrossPoint exLowHit
        ⟨75 / 4, 0, 0⟩ ⟨75 / 4, -25, 0⟩ = some p ∧
      p.comp Axis.y = posOf exLowHit Axis.y ∧
      p = linePoint ⟨75 / 4, 0, 0⟩ ⟨75 / 4, -25, 0⟩
        ((posOf exLowHit Axis.y -
          (TVector3.mk (75 / 4 : ℚ) 0 0).comp Axis.y) /
          (TVector3.mk (75 / 4 : ℚ) (-25) 0).comp Axis.y) := by
  have h1 : inBand (errOf exLowHit Axis.y) := by
    constructor <;> simp [errOf, exHit, exLowHit] <;> norm_num
  have h2 : ∀ b, b ≠ Axis.y →
      ¬ inBand (errOf exLowHit b) := by
    intro b hb
    cases b with
    | x => simp [errOf, exHit, exLowHit, inBand]; norm_num
    | y => exact absurd rfl hb
    | z => simp [errOf, exHit, exLowHit, inBand]; norm_num
  have h3 : (TVector3.mk (75 / 4 : ℚ) (-25) 0).comp Axis.y ≠ 0 := by
    simp [TVector3.comp]
  exact ⟨h1, h2, h3, CrossPoint_on_line _ _ _ Axis.y h1 h2 h3⟩

/-! ## `CreateTracks` on inputs without supporting hits -/

theorem hitAt_mem (hits : List (CRTHit R × List Int)) (i : Nat) (hi : i < hits.length) :
    ∃ p ∈ hits, hitAt hits i = p.1 := by
  refine ⟨hits[i], List.getElem_mem _, ?_⟩
  simp [hitAt, List.getElem?_eq_getElem hi]

/-- The pairs recorded by Phase 1 are, up to order, the pairs `differentPanelPairs`. -/
theorem hitPairLoop_perm (E : Env R) (hits : List (CRTHit R × List Int)) :
    ((hitPairLoop E hits).2.map Prod.fst).Perm (differentPanelPairs hits) := by
  obtain ⟨h1, h2⟩ := hitPairLoop_mem E hits
  have hnd : (differentPanelPairs hits).Nodup :=
    ((List.nodup_range _).product (List.nodup_range _)).filter _
  rw [List.perm_ext_iff_of_nodup h1 hnd]
  rintro ⟨i, j⟩
  rw [h2]
  simp only [differentPanelPairs, List.mem_filter, List.pair_mem_product, List.mem_range,
    decide_eq_true_eq]
  constructor
  · rintro ⟨k1, k2, k3⟩; exact ⟨⟨by omega, k2⟩, k1, k3⟩
  · rintro ⟨⟨_, k2⟩, k1, k3⟩; exact ⟨k1, k2, k3⟩

/-- The list of candidates has one entry per pair recorded by Phase 1. -/
theorem sortedTracks_length (E : Env R) (alg : CRTTrackRecoAlg R)
    (hits : List (CRTHit R × List Int)) :
    (sortedTracks E alg hits).length = (differentPanelPairs hits).length := by
  unfold sortedTracks sortedHitPairDist
  rw [(E.sort_perm _ _).length_eq, List.length_map, (E.sort_perm _ _).length_eq,
    ← (hitPairLoop_perm E hits).length_eq, List.length_map]

/-- With no hit in common with `usedHits`, and two hits each, all candidates are
accepted. -/
theorem acceptedLoop_all {R : Type} : ∀ (tracks : List (List Nat × R)),
    (∀ c ∈ tracks, c.1.length ≤ 2) → acceptedLoop tracks [] = tracks := by
  intro tracks
  induction tracks with
  | nil => intro _; rfl
  | cons c rest ih =>
    intro h
    have hc : c.1.length ≤ 2 := h c (List.mem_cons_self _ _)
    rw [acceptedLoop]
    have hany : (c.1.any fun h => decide (h ∈ ([] : List Nat))) = false := by
      simp
    rw [hany]
    simp only [Bool.false_eq_true, if_false]
    rw [if_neg (by omega), ih (fun c hc => h c (List.mem_cons_of_mem _ hc))]

/-- C12: when all hits carry the same tagger (in particular for the empty input),
`CreateTracks` returns the empty track collection; the function has no error path. -/
theorem CreateTracks_same_tagger (E : Env R) (alg : CRTTrackRecoAlg R)
    (hits : List (CRTHit R × List Int))
    (hsame : ∀ a ∈ hits, ∀ b ∈ hits, a.1.tagger = b.1.tagger) :
    CreateTracks E alg hits = [] := by
  have hlen : (differentPanelPairs hits).length = 0 := by
    rw [List.length_eq_zero, List.eq_nil_iff_forall_not_mem]
    rintro ⟨i, j⟩ hmem
    simp only [differentPanelPairs, List.mem_filter, List.pair_mem_product, List.mem_range,
      decide_eq_true_eq] at hmem
    obtain ⟨⟨hi, hj⟩, _, hne⟩ := hmem
    obtain ⟨a, ha, ea⟩ := hitAt_mem hits i hi
    obtain ⟨b, hb, eb⟩ := hitAt_mem hits j hj
    exact hne (by rw [ea, eb]; exact hsame a ha b hb)
  have h0 : sortedTracks E alg hits = [] := by
    rw [← List.length_eq_zero, sortedTracks_length, hlen]
  unfold CreateTracks
  rw [h0]
  rfl

theorem CreateTracks_same_tagger_witness :
    (∀ a ∈ exSamePanelHits, ∀ b ∈ exSamePanelHits, a.1.tagger = b.1.tagger) ∧
    CreateTracks ratEnv ⟨1, 1, 15⟩ exSamePanelHits = [] :=
  ⟨by decide, CreateTracks_same_tagger ratEnv ⟨1, 1, 15⟩ exSamePanelHits (by decide)⟩

/-- C13: when no candidate has a supporting hit (every candidate consists of its two
anchors), every candidate is emitted as a track, also when candidates share an anchor
hit: the number of emitted tracks is the number of different-panel hit pairs. -/
theorem CreateTracks_two_hit_all (E : Env R) (alg : CRTTrackRecoAlg R)
    (hits : List (CRTHit R × List Int))
    (h2 : ∀ c ∈ sortedTracks E alg hits, c.1.length = 2) :
    CreateTracks E alg hits = (sortedTracks E alg hits).map (emitTrack E hits) ∧
    (CreateTracks E alg hits).length = (differentPanelPairs hits).length := by
  have hacc : acceptedCandidates E alg hits = sortedTracks E alg hits :=
    acceptedLoop_all _ (fun c hc => le_of_eq (h2 c hc))
  have h1 : CreateTracks E alg hits = (sortedTracks E alg hits).map (emitTrack E hits) := by
    rw [CreateTracks_eq_map, hacc]
  refine ⟨h1, ?_⟩
  rw [h1, List.length_map, sortedTracks_length]

theorem CreateTracks_two_hit_all_witness :
    (∀ c ∈ sortedTracks ratEnv ⟨1, 1, 1⟩ exTrackHits, c.1.length = 2) ∧
    CreateTracks ratEnv ⟨1, 1, 1⟩ exTrackHits =
      (sortedTracks ratEnv ⟨1, 1, 1⟩ exTrackHits).map (emitTrack ratEnv exTrackHits) ∧
    (CreateTracks ratEnv ⟨1, 1, 1⟩ exTrackHits).length =
      (differentPanelPairs exTrackHits).length :=
  ⟨by decide!, CreateTracks_two_hit_all ratEnv ⟨1, 1, 1⟩ exTrackHits (by decide!)⟩

/-! ## `CreateTracks` on two hits -/

/-- The length of the track built from a candidate with depth factor 1: the Euclidean
distance between the positions of its two anchors. -/
theorem emitTrack_length (E : Env R) (hits : List (CRTHit R × List Int)) (c : List Nat) :
    (emitTrack E hits (c, 1)).1.length =
      E.sqrt
        (((hitAt hits (c.getD 0 0)).x_pos - (hitAt hits (c.getD 1 0)).x_pos) *
            ((hitAt hits (c.getD 0 0)).x_pos - (hitAt hits (c.getD 1 0)).x_pos) +
          ((hitAt hits (c.getD 0 0)).y_pos - (hitAt hits (c.getD 1 0)).y_pos) *
            ((hitAt hits (c.getD 0 0)).y_pos - (hitAt hits (c.getD 1 0)).y_pos) +
          ((hitAt hits (c.getD 0 0)).z_pos - (hitAt hits (c.getD 1 0)).z_pos) *
            ((hitAt hits (c.getD 0 0)).z_pos - (hitAt hits (c.getD 1 0)).z_pos)) := by
  unfold emitTrack
  simp only []
  generalize c.getD 0 0 = i0
  generalize c.getD 1 0 = i1
  by_cases hswap : (hitAt hits i1).tagger = "volTaggerTopHigh_0"
  · simp only [hswap, decide_True, if_true]
    split <;> (simp only [FillCrtTrack]; congr 1; ring)
  · simp only [hswap, decide_False, if_false, Bool.false_eq_true]
    split <;> (simp only [FillCrtTrack]; congr 1; ring)

/-- Phases 1 and 2 on two hits of different taggers, none of them a 1D hit: one
candidate, made of the two hits, with depth factor 1. -/
theorem sortedTracks_two_hits (E : Env R) (alg : CRTTrackRecoAlg R) (h0 h1 : CRTHit R)
    (ids0 ids1 : List Int) (htag : h0.tagger ≠ h1.tagger)
    (h0x : h0.x_err ≤ 100) (h0z : h0.z_err ≤ 100) (h1x : h1.x_err ≤ 100)
    (h1z : h1.z_err ≤ 100) :
    sortedTracks E alg [(h0, ids0), (h1, ids1)] = [([0, 1], 1)] ∨
      sortedTracks E alg [(h0, ids0), (h1, ids1)] = [([1, 0], 1)] := by
  have hat0 : hitAt [(h0, ids0), (h1, ids1)] 0 = h0 := rfl
  have hat1 : hitAt [(h0, ids0), (h1, ids1)] 1 = h1 := rfl
  have hpairs : (hitPairLoop E [(h0, ids0), (h1, ids1)]).2 =
      [((0, 1), ((hitPos h0).sub (hitPos h1)).Mag E)] := by
    have hr : List.range 2 = [0, 1] := by decide
    simp [hitPairLoop, hr, pairStep, hat0, hat1, htag, Ne.symm htag]
  have hsorted : sortedHitPairDist E [(h0, ids0), (h1, ids1)] =
      [((0, 1), ((hitPos h0).sub (hitPos h1)).Mag E)] := by
    unfold sortedHitPairDist
    rw [hpairs]
    exact List.perm_singleton.1 (E.sort_perm _ _)
  have hr : List.range 2 = [0, 1] := by decide
  unfold sortedTracks
  rw [hsorted, List.map_singleton]
  by_cases hbot : h1.tagger = "volTaggerBot_0"
  · right
    have hc : trackCandidate E alg [(h0, ids0), (h1, ids1)]
        ((0, 1), ((hitPos h0).sub (hitPos h1)).Mag E) = ([1, 0], 1) := by
      simp [trackCandidate, hat0, hat1, hbot, not_lt.2 h1x, not_lt.2 h1z, hr,
        plainSupportStep]
    rw [hc]
    exact List.perm_singleton.1 (E.sort_perm _ _)
  · left
    have hc : trackCandidate E alg [(h0, ids0), (h1, ids1)]
        ((0, 1), ((hitPos h0).sub (hitPos h1)).Mag E) = ([0, 1], 1) := by
      simp [trackCandidate, hat0, hat1, hbot, not_lt.2 h0x, not_lt.2 h0z, hr,
        plainSupportStep]
    rw [hc]
    exact List.perm_singleton.1 (E.sort_perm _ _)

/-- C14: for an input of exactly two hits on different panels, neither with an x or z
uncertainty above 100 and not the top-high/top-low pairing, `CreateTracks` emits exactly
one track, with `complete = true` and with the Euclidean distance between the two hit
positions as its length. -/
theorem CreateTracks_two_hits (E : Env R) (alg : CRTTrackRecoAlg R) (h0 h1 : CRTHit R)
    (ids0 ids1 : List Int) (htag : h0.tagger ≠ h1.tagger)
    (h0x : h0.x_err ≤ 100) (h0z : h0.z_err ≤ 100) (h1x : h1.x_err ≤ 100)
    (h1z : h1.z_err ≤ 100)
    (hnot : ¬ ((h0.tagger = "volTaggerTopHigh_0" ∧ h1.tagger = "volTaggerTopLow_0") ∨
      (h0.tagger = "volTaggerTopLow_0" ∧ h1.tagger = "volTaggerTopHigh_0"))) :
    ∃ t ids, CreateTracks E alg [(h0, ids0), (h1, ids1)] = [(t, ids)] ∧
      t.complete = true ∧
      t.length = E.sqrt ((h0.x_pos - h1.x_pos) * (h0.x_pos - h1.x_pos) +
        (h0.y_pos - h1.y_pos) * (h0.y_pos - h1.y_pos) +
        (h0.z_pos - h1.z_pos) * (h0.z_pos - h1.z_pos)) := by
  have hat0 : hitAt [(h0, ids0), (h1, ids1)] 0 = h0 := rfl
  have hat1 : hitAt [(h0, ids0), (h1, ids1)] 1 = h1 := rfl
  rcases sortedTracks_two_hits E alg h0 h1 ids0 ids1 htag h0x h0z h1x h1z with hs | hs
  · refine ⟨(emitTrack E [(h0, ids0), (h1, ids1)] ([0, 1], 1)).1,
      (emitTrack E [(h0, ids0), (h1, ids1)] ([0, 1], 1)).2, ?_, ?_, ?_⟩
    · rw [CreateTracks_eq_map]
      unfold acceptedCandidates
      rw [hs, acceptedLoop_all _ (by simp)]
      rfl
    · have hc := emitTrack_complete E [(h0, ids0), (h1, ids1)] ([0, 1], 1)
      simp only [List.getD_cons_zero, List.getD_cons_succ, hat0, hat1] at hc
      cases hcomp : (emitTrack E [(h0, ids0), (h1, ids1)] ([0, 1], 1)).1.complete with
      | true => rfl
      | false => exact absurd (hc.1 hcomp).2 hnot
    · rw [emitTrack_length]
      simp only [List.getD_cons_zero, List.getD_cons_succ, hat0, hat1]
  · refine ⟨(emitTrack E [(h0, ids0), (h1, ids1)] ([1, 0], 1)).1,
      (emitTrack E [(h0, ids0), (h1, ids1)] ([1, 0], 1)).2, ?_, ?_, ?_⟩
    · rw [CreateTracks_eq_map]
      unfold acceptedCandidates
      rw [hs, acceptedLoop_all _ (by simp)]
      rfl
    · have hc := emitTrack_complete E [(h0, ids0), (h1, ids1)] ([1, 0], 1)
      simp only [List.getD_cons_zero, List.getD_cons_succ, hat0, hat1] at hc
      cases hcomp : (emitTrack E [(h0, ids0), (h1, ids1)] ([1, 0], 1)).1.complete with
      | true => rfl
      | false =>
        exact absurd ((hc.1 hcomp).2.elim (fun h => Or.inr ⟨h.2, h.1⟩)
          (fun h => Or.inl ⟨h.2, h.1⟩)) hnot
    · rw [emitTrack_length]
      simp only [List.getD_cons_zero, List.getD_cons_succ, hat0, hat1]
      congr 1
      ring

theorem CreateTracks_two_hits_witness :
    exPairBot.tagger ≠ exPairLow.tagger ∧ exPairBot.x_err ≤ 100 ∧ exPairBot.z_err ≤ 100 ∧
    exPairLow.x_err ≤ 100 ∧ exPairLow.z_err ≤ 100 ∧
    ¬ ((exPairBot.tagger = "volTaggerTopHigh_0" ∧ exPairLow.tagger = "volTaggerTopLow_0") ∨
      (exPairBot.tagger = "volTaggerTopLow_0" ∧ exPairLow.tagger = "volTaggerTopHigh_0")) ∧
    ratEnv.sqrt ((exPairBot.x_pos - exPairLow.x_pos) * (exPairBot.x_pos - exPairLow.x_pos) +
        (exPairBot.y_pos - exPairLow.y_pos) * (exPairBot.y_pos - exPairLow.y_pos) +
        (exPairBot.z_pos - exPairLow.z_pos) * (exPairBot.z_pos - exPairLow.z_pos)) = 10 ∧
    ∃ t ids, CreateTracks ratEnv ⟨1, 1, 15⟩ exPairHits = [(t, ids)] ∧
      t.complete = true ∧
      t.length = ratEnv.sqrt
        ((exPairBot.x_pos - exPairLow.x_pos) * (exPairBot.x_pos - exPairLow.x_pos) +
        (exPairBot.y_pos - exPairLow.y_pos) * (exPairBot.y_pos - exPairLow.y_pos) +
        (exPairBot.z_pos - exPairLow.z_pos) * (exPairBot.z_pos - exPairLow.z_pos)) :=
  ⟨by decide!, by decide!, by decide!, by decide!, by decide!, by decide!, by decide!,
    CreateTracks_two_hits ratEnv ⟨1, 1, 15⟩ exPairBot exPairLow [1] [2] (by decide!)
      (by decide!) (by decide!) (by decide!) (by decide!) (by decide!)⟩

/-! ## Inputs that form a single group -/

theorem tzeroRuns_nil (L : R) (fuel : Nat) : tzeroRuns L fuel [] = [] := by
  cases fuel <;> rfl

/-- C15: for a non-empty input of at most 2000 hits in which every two hits differ in
`ts0_ns`, after the conversion by `1e-3`, by less than the time limit, `CreateCRTTzeros`
returns exactly one cluster, and it contains all input hits. -/
theorem CreateCRTTzeros_single_cluster (E : Env R) (alg : CRTTrackRecoAlg R)
    (hits : List (HitPtr R)) (hne : hits ≠ []) (hn : hits.length ≤ 2000)
    (hclose : hits.Pairwise
      (fun a b => |a.hit.ts0_ns - b.hit.ts0_ns| * (1 / 1000) < alg.fTimeLimit)) :
    ∃ c, CreateCRTTzeros E alg hits = some [c] ∧ c.Perm hits := by
  rw [CreateCRTTzeros_eq_runs E alg hits hn]
  have hperm := E.sort_perm
    (fun left right : HitPtr R => decide (left.hit.ts0_ns < right.hit.ts0_ns)) hits
  have hclose' := (hperm.pairwise_iff (R := fun a b : HitPtr R =>
    |a.hit.ts0_ns - b.hit.ts0_ns| * (1 / 1000) < alg.fTimeLimit)
    (fun {x y} h => by
      simp only [] at h ⊢
      rw [abs_sub_comm]
      exact h)).2 hclose
  generalize E.sort (fun left right => decide (left.hit.ts0_ns < right.hit.ts0_ns)) hits = hs
    at hperm hclose' ⊢
  cases hs with
  | nil => exact absurd hperm.symm.eq_nil hne
  | cons s t =>
    have hlen : hits.length = t.length + 1 := by
      rw [← hperm.length_eq, List.length_cons]
    have hall : ∀ x ∈ t, nearSeed alg.fTimeLimit s.hit.ts0_ns x = true := by
      intro x hx
      have := (List.pairwise_cons.1 hclose').1 x hx
      simp only [nearSeed, decide_eq_true_eq]
      rw [abs_sub_comm]
      exact this
    have htw : t.takeWhile (nearSeed alg.fTimeLimit s.hit.ts0_ns) = t :=
      List.takeWhile_eq_self_iff.2 hall
    have hdw : t.dropWhile (nearSeed alg.fTimeLimit s.hit.ts0_ns) = [] :=
      List.dropWhile_eq_nil_iff.2 hall
    refine ⟨s :: t, ?_, hperm⟩
    rw [hlen, tzeroRuns, htw, hdw, tzeroRuns_nil]

theorem CreateCRTTzeros_single_cluster_witness :
    exTzeroHits ≠ [] ∧ exTzeroHits.length ≤ 2000 ∧
    exTzeroHits.Pairwise
      (fun a b => |a.hit.ts0_ns - b.hit.ts0_ns| * (1 / 1000) < (4 : ℚ)) ∧
    ∃ c, CreateCRTTzeros ratEnv ⟨4, 1, 1⟩ exTzeroHits = some [c] ∧ c.Perm exTzeroHits :=
  ⟨by decide, by decide, by decide!,
    CreateCRTTzeros_single_cluster ratEnv ⟨4, 1, 1⟩ exTzeroHits (by decide) (by decide)
      (by decide!)⟩

/-- C16: for a non-empty input in which every hit lies at distance less than
`AverageHitDistance` from the first hit in input order, `AverageHits` (with ids) returns
exactly one entry: the average of all hits, with one id per input hit, in input order. -/
theorem AverageHits_single_group (E : Env R) (alg : CRTTrackRecoAlg R)
    (hitIds : List (Nat × Int)) (h0 : HitPtr R) (t : List (HitPtr R))
    (hall : ∀ h ∈ h0 :: t,
      ((hitPos h.hit).sub (hitPos h0.hit)).Mag E < alg.fAverageHitDistance) :
    ∃ a, DoAverage E (h0 :: t) = some a ∧
      AverageHits E alg (h0 :: t) hitIds = some [(a, (h0 :: t).map (hitIdOf hitIds))] := by
  obtain ⟨ha, hs⟩ := aveLoop_eq E alg.fAverageHitDistance h0 t
  have hnear : ∀ h ∈ h0 :: t, nearHit E alg.fAverageHitDistance (hitPos h0.hit) h = true := by
    intro h hh
    simp only [nearHit, decide_eq_true_eq]
    exact hall h hh
  have hf1 : (h0 :: t).filter (nearHit E alg.fAverageHitDistance (hitPos h0.hit)) = h0 :: t :=
    List.filter_eq_self.2 hnear
  have hf2 : (h0 :: t).filter
      (fun h => !nearHit E alg.fAverageHitDistance (hitPos h0.hit) h) = [] := by
    rw [List.filter_eq_nil_iff]
    intro h hh
    simp [hnear h hh]
  rw [hf1] at ha
  rw [hf2] at hs
  obtain ⟨a, hav⟩ := DoAverage_isSome E h0 t
  refine ⟨a, hav, ?_⟩
  unfold AverageHits
  rw [AverageHitsFuel]
  simp only [List.length_cons, gt_iff_lt, Nat.zero_lt_succ, if_true]
  rw [ha, hs]
  simp only [List.length_cons, Nat.zero_lt_succ, if_true]
  rw [hav, AverageHitsFuel]
  simp

theorem AverageHits_single_group_witness :
    (∀ h ∈ exAveHits,
      ((hitPos h.hit).sub (hitPos (exHit 0 "volTaggerTopHigh_0" 0 0 0 1 1 1 0).hit)).Mag ratEnv
        < (11 : ℚ)) ∧
    ∃ a, DoAverage ratEnv exAveHits = some a ∧
      AverageHits ratEnv ⟨1, 11, 1⟩ exAveHits exHitIds = some [(a, [100, 101, 102])] :=
  ⟨by decide!,
    AverageHits_single_group ratEnv ⟨1, 11, 1⟩ exHitIds
      (exHit 0 "volTaggerTopHigh_0" 0 0 0 1 1 1 0) _ (by decide!)⟩

/-! ## The depth factor -/

theorem scanStep_facMax (E : Env R) (alg : CRTTrackRecoAlg R)
    (hits : List (CRTHit R × List Int)) (hit_i hit_j : Nat) (ihit jhit : CRTHit R)
    (st : ScanState R) (i : Nat) (hi : i < 21) (h : 0 ≤ st.facMax ∧ st.facMax ≤ 2) :
    0 ≤ (scanStep E alg hits hit_i hit_j ihit jhit st i).facMax ∧
      (scanStep E alg hits hit_i hit_j ihit jhit st i).facMax ≤ 2 := by
  unfold scanStep
  simp only []
  split
  · simp only []
    have h20 : (i : R) ≤ 20 := by exact_mod_cast Nat.le_of_lt_succ hi
    have h0 : (0 : R) ≤ (i : R) := Nat.cast_nonneg i
    constructor
    · positivity
    · linarith
  · exact h

theorem scanStep_foldl_facMax (E : Env R) (alg : CRTTrackRecoAlg R)
    (hits : List (CRTHit R × List Int)) (hit_i hit_j : Nat) (ihit jhit : CRTHit R) :
    ∀ (l : List Nat) (st : ScanState R), (∀ i ∈ l, i < 21) →
    0 ≤ st.facMax ∧ st.facMax ≤ 2 →
    0 ≤ (l.foldl (scanStep E alg hits hit_i hit_j ihit jhit) st).facMax ∧
      (l.foldl (scanStep E alg hits hit_i hit_j ihit jhit) st).facMax ≤ 2 := by
  intro l
  induction l with
  | nil => intro st _ h; exact h
  | cons i l ih =>
    intro st hl h
    rw [List.foldl_cons]
    exact ih _ (fun k hk => hl k (List.mem_cons_of_mem _ hk))
      (scanStep_facMax E alg hits hit_i hit_j ihit jhit st i (hl i (List.mem_cons_self _ _)) h)

/-- The depth factor of a candidate built in Phase 2 lies between 0 and 2. -/
theorem trackCandidate_fac (E : Env R) (alg : CRTTrackRecoAlg R)
    (hits : List (CRTHit R × List Int)) (p : (Nat × Nat) × R) :
    0 ≤ (trackCandidate E alg hits p).2 ∧ (trackCandidate E alg hits p).2 ≤ 2 := by
  unfold trackCandidate
  simp only []
  have hscan : ∀ (hit_i hit_j : Nat) (ihit jhit : CRTHit R),
      0 ≤ ((List.range 21).foldl (scanStep E alg hits hit_i hit_j ihit jhit)
        { facMax := 1, nhitsMax := [], minDist := 99999 }).facMax ∧
      ((List.range 21).foldl (scanStep E alg hits hit_i hit_j ihit jhit)
        { facMax := 1, nhitsMax := [], minDist := 99999 }).facMax ≤ 2 := by
    intro hit_i hit_j ihit jhit
    apply scanStep_foldl_facMax
    · intro i hi
      exact List.mem_range.1 hi
    · constructor <;> norm_num
  split_ifs <;> dsimp only
  · exact hscan _ _ _ _
  · constructor <;> norm_num
  · exact hscan _ _ _ _
  · constructor <;> norm_num

/-- A candidate of the sorted list `tracks` is the candidate built from one of the pairs
recorded by Phase 1. -/
theorem mem_sortedTracks (E : Env R) (alg : CRTTrackRecoAlg R)
    (hits : List (CRTHit R × List Int)) (c : List Nat × R)
    (hc : c ∈ sortedTracks E alg hits) :
    ∃ p ∈ (hitPairLoop E hits).2, c = trackCandidate E alg hits p := by
  unfold sortedTracks sortedHitPairDist at hc
  rw [(E.sort_perm _ _).mem_iff, List.mem_map] at hc
  obtain ⟨p, hp, rfl⟩ := hc
  exact ⟨p, (E.sort_perm _ _).mem_iff.1 hp, rfl⟩

/-- C17, refuted as stated: for the four hits of `exScanHits` the pair of the bottom 1D hit
and the top-high hit gets its two supporting hits only at the scan step `fac = 1.1`, and
the candidate records the depth factor `1.1 > 1`. -/
theorem trackCandidate_fac_above_one :
    ((0, 1), 25) ∈ (hitPairLoop ratEnv exScanHits).2 ∧
    trackCandidate ratEnv ⟨1, 1, 1⟩ exScanHits ((0, 1), 25) = ([0, 1, 2, 3], 11 / 10) ∧
    ([0, 1, 2, 3], 11 / 10) ∈ sortedTracks ratEnv ⟨1, 1, 1⟩ exScanHits ∧
    ¬ (∀ c ∈ sortedTracks ratEnv ⟨1, 1, 1⟩ exScanHits, 0 ≤ c.2 ∧ c.2 ≤ 1) := by
  have hmem : ([0, 1, 2, 3], (11 / 10 : ℚ)) ∈ sortedTracks ratEnv ⟨1, 1, 1⟩ exScanHits := by
    decide!
  refine ⟨by decide!, by decide!, hmem, fun h => ?_⟩
  have h1 : ((11 / 10 : ℚ)) ≤ 1 := (h _ hmem).2
  norm_num at h1

/-- C17, amended: for every input, the depth factor `f` recorded by every track candidate
built in Phase 2 of `CreateTracks`, also after the 21-step scan, satisfies
`0 ≤ f ≤ 2`. -/
theorem sortedTracks_fac (E : Env R) (alg : CRTTrackRecoAlg R)
    (hits : List (CRTHit R × List Int)) (c : List Nat × R)
    (hc : c ∈ sortedTracks E alg hits) : 0 ≤ c.2 ∧ c.2 ≤ 2 := by
  obtain ⟨p, _, rfl⟩ := mem_sortedTracks E alg hits c hc
  exact trackCandidate_fac E alg hits p

theorem sortedTracks_fac_witness :
    ([0, 1, 2, 3], (11 / 10 : ℚ)) ∈ sortedTracks ratEnv ⟨1, 1, 1⟩ exScanHits ∧
    (0 ≤ (11 / 10 : ℚ) ∧ (11 / 10 : ℚ) ≤ 2) :=
  ⟨by decide!, sortedTracks_fac ratEnv ⟨1, 1, 1⟩ exScanHits ([0, 1, 2, 3], 11 / 10) (by decide!)⟩

/-! ## Configuration -/

/-- C18, refuted as stated: reconfiguring with the limits `-1, -1, -1` is not rejected;
it yields an algorithm object that holds the three negative limits, and so do both
constructors. -/
theorem reconfigure_accepts_negative :
    reconfigure ⟨1, 1, 1⟩ (⟨-1, -1, -1⟩ : Config ℚ) = ⟨-1, -1, -1⟩ ∧
    newFromConfig ⟨1, 1, 1⟩ (⟨-1, -1, -1⟩ : Config ℚ) = ⟨-1, -1, -1⟩ ∧
    newFromLimits (⟨1, 1, 1⟩ : CRTTrackRecoAlg ℚ) (-1) (-1) = ⟨1, -1, -1⟩ ∧
    (reconfigure ⟨1, 1, 1⟩ (⟨-1, -1, -1⟩ : Config ℚ)).fTimeLimit < 0 := by
  refine ⟨by decide!, by decide!, by decide!, by decide!⟩

/-- C18, amended: constructing from a configuration, or reconfiguring, always succeeds
and stores `TimeLimit`, `AverageHitDistance` and `DistanceLimit` as configured, whatever
their sign; the two-argument constructor stores its two arguments and leaves `fTimeLimit`
untouched. No validation takes place. -/
theorem reconfigure_stores {R : Type} [LinearOrderedField R] (self : CRTTrackRecoAlg R)
    (config : Config R) (aveHitDist distLim : R) :
    reconfigure self config =
      ⟨config.TimeLimit, config.AverageHitDistance, config.DistanceLimit⟩ ∧
    newFromConfig self config =
      ⟨config.TimeLimit, config.AverageHitDistance, config.DistanceLimit⟩ ∧
    newFromLimits self aveHitDist distLim = ⟨self.fTimeLimit, aveHitDist, distLim⟩ :=
  ⟨rfl, rfl, rfl⟩

/-! ## The capacity of the flag array -/

/-- On more than `iflagSize` hits `CreateCRTTzeros` leaves the flag array. -/
theorem CreateCRTTzeros_overflow (E : Env R) (alg : CRTTrackRecoAlg R)
    (hits : List (HitPtr R)) (h : iflagSize < hits.length) :
    CreateCRTTzeros E alg hits = none := by
  cases hr : CreateCRTTzeros E alg hits with
  | none => rfl
  | some cl =>
    have := CreateCRTTzeros_some_length E alg hits cl hr
    omega

/-- C19 at a failing input: on 2001 hits the flag array `int iflag[2000]` has no element
`iflag[2000]`, and `CreateCRTTzeros` reads outside the array. -/
theorem CreateCRTTzeros_exManyHits :
    exManyHits.length = 2001 ∧ iflagRead iflagInit 2000 = none ∧
    CreateCRTTzeros ratEnv ⟨1, 1, 1⟩ exManyHits = none := by
  have hlen : exManyHits.length = 2001 := List.length_replicate 2001 exT0
  refine ⟨hlen, by simp [iflagRead, iflagSize], ?_⟩
  apply CreateCRTTzeros_overflow
  rw [hlen]
  decide

/-! ## The depth-factor shift -/

/-- C20 at a failing input: for the four hits of `exScanHits` the only accepted candidate
is `[0, 1, 2, 3]` with depth factor `1.1`, whose anchors are the bottom hit 0 and the
top-high hit 1. The track carries the top-high hit shifted to `(0.1, 25, 0.1)` as its
first point and the bottom hit unshifted at `(0, 0, 0)` as its second point; shifting the
bottom hit would give `x = 18.75`. -/
theorem CreateTracks_shift_exScanHits :
    acceptedCandidates ratEnv ⟨1, 1, 1⟩ exScanHits = [([0, 1, 2, 3], 11 / 10)] ∧
    (CreateTracks ratEnv ⟨1, 1, 1⟩ exScanHits).map
        (fun t => (t.1.x1_pos, t.1.y1_pos, t.1.z1_pos, t.1.x2_pos, t.1.y2_pos, t.1.z2_pos)) =
      [(1 / 10, 25, 1 / 10, 0, 0, 0)] ∧
    (hitAt exScanHits 0).tagger = "volTaggerBot_0" ∧
    (hitAt exScanHits 1).tagger = "volTaggerTopHigh_0" ∧
    (hitAt exScanHits 0).x_pos - (1 - 11 / 10) * (hitAt exScanHits 0).x_err = 75 / 4 ∧
    ((hitAt exScanHits 1).x_pos, (hitAt exScanHits 1).y_pos, (hitAt exScanHits 1).z_pos) =
      (0, 25, 0) := by
  refine ⟨by decide!, by decide!, by decide!, by decide!, by decide!, by decide!⟩

/-! ## `AverageHits` with a non-positive distance limit -/

/-- C29: when `AverageHitDistance ≤ 0`, `AverageHits` (with ids) returns the empty
collection for every input: no hit passes the distance test, so no group is formed and
the recursion does not start. -/
theorem AverageHits_nonpositive (E : Env R) (alg : CRTTrackRecoAlg R) (hits : List (HitPtr R))
    (hitIds : List (Nat × Int)) (hd : alg.fAverageHitDistance ≤ 0) :
    AverageHits E alg hits hitIds = some [] := by
  unfold AverageHits
  cases hits with
  | nil => simp [AverageHitsFuel]
  | cons h0 t =>
    obtain ⟨ha, _⟩ := aveLoop_eq E alg.fAverageHitDistance h0 t
    have hnone : (h0 :: t).filter (nearHit E alg.fAverageHitDistance (hitPos h0.hit)) = [] := by
      rw [List.filter_eq_nil_iff]
      intro h _
      simp only [nearHit, decide_eq_true_eq, not_lt]
      exact le_trans hd (E.sqrt_nonneg _)
    rw [AverageHitsFuel]
    simp only [List.length_cons, gt_iff_lt, Nat.zero_lt_succ, if_true]
    rw [ha, hnone]
    simp

theorem AverageHits_nonpositive_witness :
    (0 : ℚ) ≤ 0 ∧ AverageHits ratEnv ⟨1, 0, 1⟩ exAveHits exHitIds = some [] :=
  ⟨le_refl 0, AverageHits_nonpositive ratEnv ⟨1, 0, 1⟩ exAveHits exHitIds (le_refl 0)⟩

/-! ## The times of an averaged hit -/

/-- C23, refuted as stated: for the single hit with `ts0_ns = 2^31` the time value of the
averaged hit is `-2147483.648`, not the mean `2147483.648`; and whatever the conversion
to `int` returns there, the time value stays below the mean. -/
theorem DoAverage_time_not_mean :
    exBigTimeHit.hit.ts0_ns = 2147483648 ∧
    (DoAverage ratEnv [exBigTimeHit]).map (fun a => a.ts0_ns) = some (-2147483648 / 1000) ∧
    ([exBigTimeHit].map (fun h => h.hit.ts0_ns)).sum / ([exBigTimeHit].length : ℚ) * (1 / 1000) =
      2147483648 / 1000 ∧
    ∀ E : Env ℚ, ∀ a ∈ DoAverage E [exBigTimeHit], a.ts0_ns < 2147483648 / 1000 := by
  refine ⟨by decide!, by decide!, by decide!, ?_⟩
  intro E a ha
  simp only [DoAverage, Option.mem_def, Option.some.injEq] at ha
  subst ha
  simp only [FillCRTHit, avgStep, avgInit, List.foldl_cons, List.foldl_nil]
  have h := E.toInt_lt exBigTimeHit.hit.ts0_ns
  have h2 : ((E.toInt exBigTimeHit.hit.ts0_ns : Int) : ℚ) < 2147483648 := by exact_mod_cast h
  norm_num
  linarith

/-- C23, amended: for a non-empty group of hits, the two time values of the hit built by
`DoAverage` are the arithmetic means of the group's `ts0_ns` and `ts1_ns`, each value
first converted to a 32-bit `int`, multiplied by `1e-3`; when every timestamp of the group
is an integer in `[-2^31, 2^31)` they are the means of the timestamps themselves. -/
theorem DoAverage_times (E : Env R) (hits : List (HitPtr R)) (hne : hits ≠ []) :
    ∃ a, DoAverage E hits = some a ∧
      a.ts0_ns = (hits.map (fun h => ((E.toInt h.hit.ts0_ns : Int) : R))).sum /
        (hits.length : R) * (1 / 1000) ∧
      a.ts1_ns = (hits.map (fun h => ((E.toInt h.hit.ts1_ns : Int) : R))).sum /
        (hits.length : R) * (1 / 1000) ∧
      ((∀ h ∈ hits, ∃ n : Int, -2147483648 ≤ n ∧ n < 2147483648 ∧ h.hit.ts0_ns = (n : R)) →
        a.ts0_ns = (hits.map (fun h => h.hit.ts0_ns)).sum / (hits.length : R) * (1 / 1000)) ∧
      ((∀ h ∈ hits, ∃ n : Int, -2147483648 ≤ n ∧ n < 2147483648 ∧ h.hit.ts1_ns = (n : R)) →
        a.ts1_ns = (hits.map (fun h => h.hit.ts1_ns)).sum / (hits.length : R) * (1 / 1000)) := by
  have hmap : ∀ (f : HitPtr R → R),
      (∀ h ∈ hits, ∃ n : Int, -2147483648 ≤ n ∧ n < 2147483648 ∧ f h = (n : R)) →
      hits.map (fun h => ((E.toInt (f h) : Int) : R)) = hits.map f := by
    intro f hf
    apply List.map_congr_left
    intro h hh
    obtain ⟨n, h1, h2, h3⟩ := hf h hh
    rw [h3, E.toInt_cast n h1 h2]
  cases hits with
  | nil => exact absurd rfl hne
  | cons h0 t =>
    obtain ⟨_, _, _, h4, h5, h6, _⟩ := avgStep_foldl E (h0 :: t) avgInit
    refine ⟨_, rfl, ?_, ?_, ?_, ?_⟩
    · simp only [FillCRTHit]
      rw [h4, h6]
      simp [avgInit]
    · simp only [FillCRTHit]
      rw [h5, h6]
      simp [avgInit]
    · intro hint
      simp only [FillCRTHit]
      rw [h4, h6, hmap (fun h => h.hit.ts0_ns) hint]
      simp [avgInit]
    · intro hint
      simp only [FillCRTHit]
      rw [h5, h6, hmap (fun h => h.hit.ts1_ns) hint]
      simp [avgInit]

theorem DoAverage_times_witness :
    [exTimedHit] ≠ [] ∧
    ∃ a, DoAverage ratEnv [exTimedHit] = some a ∧
      a.ts0_ns = ([exTimedHit].map (fun h => ((ratEnv.toInt h.hit.ts0_ns : Int) : ℚ))).sum /
        (([exTimedHit].length : Nat) : ℚ) * (1 / 1000) ∧
      a.ts1_ns = ([exTimedHit].map (fun h => ((ratEnv.toInt h.hit.ts1_ns : Int) : ℚ))).sum /
        (([exTimedHit].length : Nat) : ℚ) * (1 / 1000) ∧
      ((∀ h ∈ [exTimedHit],
          ∃ n : Int, -2147483648 ≤ n ∧ n < 2147483648 ∧ h.hit.ts0_ns = (n : ℚ)) →
        a.ts0_ns = ([exTimedHit].map (fun h => h.hit.ts0_ns)).sum /
          (([exTimedHit].length : Nat) : ℚ) * (1 / 1000)) ∧
      ((∀ h ∈ [exTimedHit],
          ∃ n : Int, -2147483648 ≤ n ∧ n < 2147483648 ∧ h.hit.ts1_ns = (n : ℚ)) →
        a.ts1_ns = ([exTimedHit].map (fun h => h.hit.ts1_ns)).sum /
          (([exTimedHit].length : Nat) : ℚ) * (1 / 1000)) :=
  ⟨by decide, DoAverage_times ratEnv [exTimedHit] (by decide)⟩

/-! ## `CrossPoint` and the parametrisation of the line -/

/-- `CrossPoint` does not change when the line `(start, diff)` is given by another of its
points and another non-zero multiple of its direction. -/
theorem CrossPoint_reparam (hit : CRTHit R) (start diff : TVector3 R) (t s : R) (hs : s ≠ 0) :
    CrossPoint hit (linePoint start diff t) (TVector3.smul s diff) =
      CrossPoint hit start diff := by
  have hz : ∀ d : R, s * d = 0 ↔ d = 0 := fun d => by
    rw [mul_eq_zero]
    exact ⟨fun h => h.resolve_left hs, Or.inr⟩
  have key : ∀ (c p d q e : R), d ≠ 0 →
      (c - (p + t * d)) / (s * d) * (s * e) + (q + t * e) = (c - p) / d * e + q := by
    intro c p d q e hd
    field_simp
    ring
  unfold CrossPoint
  simp only [linePoint, TVector3.smul, hz]
  split_ifs with h1 h2 h3 h4 h5 h6
  · rfl
  · rw [key _ _ _ _ _ h2, key _ _ _ _ _ h2]
  · rfl
  · rw [key _ _ _ _ _ h4, key _ _ _ _ _ h4]
  · rfl
  · rw [key _ _ _ _ _ h6, key _ _ _ _ _ h6]
  · rfl

/-- For a hit with a matching axis and a line not parallel to the plane of that axis,
`CrossPoint` returns a point. -/
theorem CrossPoint_isSome (hit : CRTHit R) (start diff : TVector3 R) (a : Axis)
    (ha : matchAxis hit = some a) (hd : diff.comp a ≠ 0) :
    ∃ p, CrossPoint hit start diff = some p := by
  unfold matchAxis at ha
  unfold CrossPoint
  split_ifs at ha with h1 h2 h3
  · cases ha
    have hd1 : diff.X ≠ 0 := hd
    rw [if_pos h1]
    simp only []
    rw [if_neg hd1]
    exact ⟨_, rfl⟩
  · cases ha
    have hd1 : diff.Y ≠ 0 := hd
    rw [if_neg h1, if_pos h2]
    simp only []
    rw [if_neg hd1]
    exact ⟨_, rfl⟩
  · cases ha
    have hd1 : diff.Z ≠ 0 := hd
    rw [if_neg h1, if_neg h2, if_pos h3]
    simp only []
    rw [if_neg hd1]
    exact ⟨_, rfl⟩

/-- C27: for a hit with a matching axis and a line `(start, diff)` whose `diff` component
along that axis is not zero, `CrossPoint` returns the same point for `(start + t * diff,
s * diff)` with any `t` and any `s ≠ 0`; in particular for the line given by the two
anchors `start`, `end = start - diff` in the other order, `(end, end - start)`. -/
theorem CrossPoint_line_only (hit : CRTHit R) (start diff : TVector3 R) (a : Axis) (t s : R)
    (ha : matchAxis hit = some a) (hd : diff.comp a ≠ 0) (hs : s ≠ 0) :
    ∃ p, CrossPoint hit start diff = some p ∧
      CrossPoint hit (linePoint start diff t) (TVector3.smul s diff) = some p ∧
      CrossPoint hit (start.sub diff) ((start.sub diff).sub start) = some p := by
  obtain ⟨p, hp⟩ := CrossPoint_isSome hit start diff a ha hd
  refine ⟨p, hp, ?_, ?_⟩
  · rw [CrossPoint_reparam hit start diff t s hs, hp]
  · have e1 : start.sub diff = linePoint start diff (-1) := by
      unfold TVector3.sub linePoint
      congr 1 <;> ring
    have e2 : (start.sub diff).sub start = TVector3.smul (-1) diff := by
      unfold TVector3.sub TVector3.smul
      simp only []
      congr 1 <;> ring
    rw [e2, e1, CrossPoint_reparam hit start diff (-1) (-1) (by norm_num), hp]

theorem CrossPoint_line_only_witness :
    matchAxis exLowHit = some Axis.y ∧ (TVector3.mk (75 / 4 : ℚ) (-25) 0).comp Axis.y ≠ 0 ∧
    (3 : ℚ) ≠ 0 ∧
    ∃ p, CrossPoint exLowHit ⟨75 / 4, 0, 0⟩ ⟨75 / 4, -25, 0⟩ = some p ∧
      CrossPoint exLowHit (linePoint ⟨75 / 4, 0, 0⟩ ⟨75 / 4, -25, 0⟩ 2)
        (TVector3.smul 3 ⟨75 / 4, -25, 0⟩) = some p ∧
      CrossPoint exLowHit ((TVector3.mk (75 / 4 : ℚ) 0 0).sub ⟨75 / 4, -25, 0⟩)
        (((TVector3.mk (75 / 4 : ℚ) 0 0).sub ⟨75 / 4, -25, 0⟩).sub ⟨75 / 4, 0, 0⟩) = some p :=
  ⟨by decide!, by decide!, by decide!,
    CrossPoint_line_only exLowHit ⟨75 / 4, 0, 0⟩ ⟨75 / 4, -25, 0⟩ Axis.y 2 3 (by decide!)
      (by decide!) (by decide!)⟩

/-! ## The clusters of `CreateCRTTzeros` as runs of the sorted hits -/

/-- The runs of `tzeroRuns`, concatenated, give back the list. -/
theorem tzeroRuns_flatten (L : R) : ∀ (fuel : Nat) (l : List (HitPtr R)),
    l.length ≤ fuel → (tzeroRuns L fuel l).flatten = l := by
  intro fuel
  induction fuel with
  | zero =>
    intro l hl
    have : l = [] := List.length_eq_zero.1 (Nat.le_zero.1 hl)
    subst this
    simp [tzeroRuns]
  | succ fuel ih =>
    intro l hl
    cases l with
    | nil => simp [tzeroRuns]
    | cons s t =>
      have hlen : (t.dropWhile (nearSeed L s.hit.ts0_ns)).length ≤ fuel := by
        have := (List.dropWhile_sublist (nearSeed L s.hit.ts0_ns) (l := t)).length_le
        simp only [List.length_cons] at hl
        omega
      rw [tzeroRuns, List.flatten_cons, ih _ hlen, List.cons_append,
        List.takeWhile_append_dropWhile]

/-- Every run of `tzeroRuns` on a time-sorted list starts with its earliest hit. -/
theorem tzeroRuns_head (L : R) : ∀ (fuel : Nat) (l : List (HitPtr R)),
    l.Pairwise (fun a b => a.hit.ts0_ns ≤ b.hit.ts0_ns) →
    ∀ c ∈ tzeroRuns L fuel l, ∃ s ext, c = s :: ext ∧
      ∀ x ∈ ext, s.hit.ts0_ns ≤ x.hit.ts0_ns := by
  intro fuel
  induction fuel with
  | zero => intro l _ c hc; simp [tzeroRuns] at hc
  | succ fuel ih =>
    intro l hsorted c hc
    cases l with
    | nil => simp [tzeroRuns] at hc
    | cons s t =>
      rw [tzeroRuns] at hc
      obtain ⟨hs1, hs2⟩ := List.pairwise_cons.1 hsorted
      rcases List.mem_cons.1 hc with rfl | hc
      · exact ⟨s, _, rfl, fun x hx => hs1 x ((List.takeWhile_sublist _).subset hx)⟩
      · exact ih _ (hs2.sublist (List.dropWhile_sublist _)) c hc

/-- The first run of `tzeroRuns` starts with the first hit of the list. -/
theorem tzeroRuns_first (L : R) (fuel : Nat) (l : List (HitPtr R)) :
    ∀ d ∈ (tzeroRuns L fuel l).head?, d.head? = l.head? := by
  intro d hd
  cases fuel with
  | zero => simp [tzeroRuns] at hd
  | succ fuel =>
    cases l with
    | nil => simp [tzeroRuns] at hd
    | cons s t =>
      rw [tzeroRuns] at hd
      simp only [List.head?_cons, Option.mem_def, Option.some.injEq] at hd
      subst hd
      rfl

/-- On a time-sorted list, the seed of each run of `tzeroRuns` is at least the limit
later than the seed of the run before it. -/
theorem tzeroRuns_chain (L : R) : ∀ (fuel : Nat) (l : List (HitPtr R)),
    l.Pairwise (fun a b => a.hit.ts0_ns ≤ b.hit.ts0_ns) →
    (tzeroRuns L fuel l).Chain' (fun c d => ∃ s v, c.head? = some s ∧ d.head? = some v ∧
      L ≤ (v.hit.ts0_ns - s.hit.ts0_ns) * (1 / 1000)) := by
  intro fuel
  induction fuel with
  | zero => intro l _; simp [tzeroRuns]
  | succ fuel ih =>
    intro l hsorted
    cases l with
    | nil => simp [tzeroRuns]
    | cons s t =>
      obtain ⟨hs1, hs2⟩ := List.pairwise_cons.1 hsorted
      rw [tzeroRuns, List.chain'_cons']
      refine ⟨?_, ih _ (hs2.sublist (List.dropWhile_sublist _))⟩
      intro d hd
      have hdh := tzeroRuns_first L fuel _ d hd
      cases hdw : t.dropWhile (nearSeed L s.hit.ts0_ns) with
      | nil =>
        rw [hdw] at hd
        cases fuel <;> simp [tzeroRuns] at hd
      | cons u r =>
        rw [hdw] at hdh
        have hu : ¬ nearSeed L s.hit.ts0_ns u = true := by
          have := List.head?_dropWhile_not (nearSeed L s.hit.ts0_ns) t
          rw [hdw] at this
          simpa using this
        have hut : u ∈ t := (List.dropWhile_sublist _).subset (by rw [hdw]; simp)
        have hsu : s.hit.ts0_ns ≤ u.hit.ts0_ns := hs1 u hut
        simp only [nearSeed, decide_eq_true_eq, not_lt] at hu
        rw [abs_of_nonneg (by linarith)] at hu
        exact ⟨s, u, rfl, hdh, hu⟩

/-- C25: for an input of at most 2000 hits, the clusters returned by `CreateCRTTzeros`,
concatenated in output order, are the time-sorted hit list (a permutation of the input
in non-decreasing `ts0_ns`), so every cluster is a contiguous run of it; every cluster
is non-empty with its earliest hit first; and the first hit of each cluster after the
first is at least `TimeLimit` (after the conversion by `1e-3`) later than the first hit
of the cluster before it. -/
theorem CreateCRTTzeros_runs (E : Env R) (alg : CRTTrackRecoAlg R) (hits : List (HitPtr R))
    (hn : hits.length ≤ 2000) :
    ∃ cl, CreateCRTTzeros E alg hits = some cl ∧
      cl.flatten = E.sort (fun left right => decide (left.hit.ts0_ns < right.hit.ts0_ns)) hits ∧
      cl.flatten.Perm hits ∧
      cl.flatten.Pairwise (fun a b => a.hit.ts0_ns ≤ b.hit.ts0_ns) ∧
      (∀ c ∈ cl, ∃ s ext, c = s :: ext ∧ ∀ x ∈ ext, s.hit.ts0_ns ≤ x.hit.ts0_ns) ∧
      cl.Chain' (fun c d => ∃ s v, c.head? = some s ∧ d.head? = some v ∧
        alg.fTimeLimit ≤ (v.hit.ts0_ns - s.hit.ts0_ns) * (1 / 1000)) := by
  have hperm := E.sort_perm
    (fun left right : HitPtr R => decide (left.hit.ts0_ns < right.hit.ts0_ns)) hits
  have hsorted := sort_ts0_sorted E hits
  have hflat := tzeroRuns_flatten alg.fTimeLimit hits.length
    (E.sort (fun left right => decide (left.hit.ts0_ns < right.hit.ts0_ns)) hits)
    (le_of_eq hperm.length_eq)
  refine ⟨_, CreateCRTTzeros_eq_runs E alg hits hn, hflat, ?_, ?_,
    tzeroRuns_head _ _ _ hsorted, tzeroRuns_chain _ _ _ hsorted⟩
  · rw [hflat]; exact hperm
  · rw [hflat]; exact hsorted

theorem CreateCRTTzeros_runs_witness :
    exTzeroHits.length ≤ 2000 ∧
    ∃ cl, CreateCRTTzeros ratEnv ⟨2, 1, 1⟩ exTzeroHits = some cl ∧
      cl.flatten = ratEnv.sort
        (fun left right => decide (left.hit.ts0_ns < right.hit.ts0_ns)) exTzeroHits ∧
      cl.flatten.Perm exTzeroHits ∧
      cl.flatten.Pairwise (fun a b => a.hit.ts0_ns ≤ b.hit.ts0_ns) ∧
      (∀ c ∈ cl, ∃ s ext, c = s :: ext ∧ ∀ x ∈ ext, s.hit.ts0_ns ≤ x.hit.ts0_ns) ∧
      cl.Chain' (fun c d => ∃ s v, c.head? = some s ∧ d.head? = some v ∧
        (2 : ℚ) ≤ (v.hit.ts0_ns - s.hit.ts0_ns) * (1 / 1000)) :=
  ⟨by decide, CreateCRTTzeros_runs ratEnv ⟨2, 1, 1⟩ exTzeroHits (by decide)⟩

/-! ## Two-hit tracks and the hits of larger tracks -/

/-- An accepted candidate with more than two hits shares no hit with any candidate
accepted after it. -/
theorem acceptedLoop_after {R : Type} :
    ∀ (tracks : List (List Nat × R)) (usedHits : List Nat),
    (acceptedLoop tracks usedHits).Pairwise
      (fun a b => 2 < a.1.length → ∀ k ∈ a.1, k ∉ b.1) := by
  intro tracks
  induction tracks with
  | nil => intro _; simp [acceptedLoop]
  | cons track rest ih =>
    intro usedHits
    rw [acceptedLoop]
    split
    · exact ih usedHits
    · rw [List.pairwise_cons]
      refine ⟨?_, ih _⟩
      intro c hc hlen k hk hkc
      apply (acceptedLoop_disjoint rest
        (if track.1.length > 2 then usedHits ++ track.1 else usedHits)).1 c hc k hkc
      rw [if_pos hlen]
      exact List.mem_append_right _ hk

/-- The accepted candidates are a sublist of the candidates walked. -/
theorem acceptedLoop_sublist {R : Type} :
    ∀ (tracks : List (List Nat × R)) (usedHits : List Nat),
    (acceptedLoop tracks usedHits).Sublist tracks := by
  intro tracks
  induction tracks with
  | nil => intro _; simp [acceptedLoop]
  | cons track rest ih =>
    intro usedHits
    rw [acceptedLoop]
    split
    · exact (ih usedHits).cons _
    · exact (ih _).cons₂ _

/-- The candidates are walked in non-increasing order of their number of hits. -/
theorem sortedTracks_sorted (E : Env R) (alg : CRTTrackRecoAlg R)
    (hits : List (CRTHit R × List Int)) :
    (sortedTracks E alg hits).Pairwise (fun a b => b.1.length ≤ a.1.length) := by
  have hsw : StrictWeak
      (fun left right : List Nat × R => decide (left.1.length > right.1.length)) := by
    constructor
    · intro a b h
      simp only [decide_eq_true_eq, decide_eq_false_iff_not] at h ⊢
      omega
    · intro a b c h1 h2
      simp only [decide_eq_false_iff_not] at h1 h2 ⊢
      omega
  refine (E.sort_sorted _ _ hsw).imp ?_
  intro a b h
  simp only [decide_eq_false_iff_not] at h
  omega

/-- C26: the tracks emitted by `CreateTracks` are built from the accepted candidates, the
candidates are walked in non-increasing order of their number of hits, and no accepted
two-hit candidate contains a hit of an accepted candidate with more than two hits. -/
theorem CreateTracks_two_hit_free (E : Env R) (alg : CRTTrackRecoAlg R)
    (hits : List (CRTHit R × List Int)) :
    CreateTracks E alg hits = (acceptedCandidates E alg hits).map (emitTrack E hits) ∧
    (sortedTracks E alg hits).Pairwise (fun a b => b.1.length ≤ a.1.length) ∧
    ∀ a ∈ acceptedCandidates E alg hits, ∀ b ∈ acceptedCandidates E alg hits,
      a.1.length = 2 → 2 < b.1.length → ∀ k ∈ a.1, k ∉ b.1 := by
  refine ⟨CreateTracks_eq_map E alg hits, sortedTracks_sorted E alg hits, ?_⟩
  have h1 := acceptedLoop_after (sortedTracks E alg hits) []
  have h2 := (sortedTracks_sorted E alg hits).sublist
    (acceptedLoop_sublist (sortedTracks E alg hits) [])
  have h3 : (acceptedCandidates E alg hits).Pairwise (fun x y : List Nat × R =>
      (x.1.length = 2 → 2 < y.1.length → ∀ k ∈ x.1, k ∉ y.1) ∧
      (y.1.length = 2 → 2 < x.1.length → ∀ k ∈ y.1, k ∉ x.1)) := by
    refine (h1.and h2).imp ?_
    rintro x y ⟨hd, hle⟩
    constructor
    · intro hx hy
      omega
    · intro _ hx k hky hkx
      exact hd hx k hkx hky
  have hsymm : Symmetric (fun x y : List Nat × R =>
      (x.1.length = 2 → 2 < y.1.length → ∀ k ∈ x.1, k ∉ y.1) ∧
      (y.1.length = 2 → 2 < x.1.length → ∀ k ∈ y.1, k ∉ x.1)) :=
    fun x y h => ⟨h.2, h.1⟩
  intro a ha b hb hla hlb
  have hne : a ≠ b := by
    rintro rfl
    omega
  exact (h3.forall hsymm ha hb hne).1 hla hlb

theorem CreateTracks_two_hit_free_witness :
    acceptedCandidates ratEnv ⟨1, 1, 1⟩ exMixedHits = [([0, 1, 2], 1), ([3, 4], 1)] ∧
    (CreateTracks ratEnv ⟨1, 1, 1⟩ exMixedHits =
      (acceptedCandidates ratEnv ⟨1, 1, 1⟩ exMixedHits).map (emitTrack ratEnv exMixedHits) ∧
    (sortedTracks ratEnv ⟨1, 1, 1⟩ exMixedHits).Pairwise
      (fun a b => b.1.length ≤ a.1.length) ∧
    ∀ a ∈ acceptedCandidates ratEnv ⟨1, 1, 1⟩ exMixedHits,
      ∀ b ∈ acceptedCandidates ratEnv ⟨1, 1, 1⟩ exMixedHits,
      a.1.length = 2 → 2 < b.1.length → ∀ k ∈ a.1, k ∉ b.1) :=
  ⟨by decide!, CreateTracks_two_hit_free ratEnv ⟨1, 1, 1⟩ exMixedHits⟩

/-! ## Phase 2 of `CreateTracks`: the candidate of a pair -/

/-- The candidate of a pair in terms of its two anchors. -/
theorem trackCandidate_eq (E : Env R) (alg : CRTTrackRecoAlg R)
    (hits : List (CRTHit R × List Int)) (p : (Nat × Nat) × R) :
    trackCandidate E alg hits p =
      if (hitAt hits (firstAnchor hits p)).x_err > 100 ∨
          (hitAt hits (firstAnchor hits p)).z_err > 100 then
        ([firstAnchor hits p, secondAnchor hits p] ++
          ((List.range 21).foldl (scanStep E alg hits (firstAnchor hits p) (secondAnchor hits p)
            (hitAt hits (firstAnchor hits p)) (hitAt hits (secondAnchor hits p)))
            ⟨1, [], 99999⟩).nhitsMax,
          ((List.range 21).foldl (scanStep E alg hits (firstAnchor hits p) (secondAnchor hits p)
            (hitAt hits (firstAnchor hits p)) (hitAt hits (secondAnchor hits p)))
            ⟨1, [], 99999⟩).facMax)
      else
        ((List.range hits.length).foldl
          (plainSupportStep E alg hits (firstAnchor hits p) (secondAnchor hits p)
            (hitAt hits (firstAnchor hits p)) (hitAt hits (secondAnchor hits p))
            (hitPos (hitAt hits (firstAnchor hits p)))
            ((hitPos (hitAt hits (firstAnchor hits p))).sub
              (hitPos (hitAt hits (secondAnchor hits p)))))
          [firstAnchor hits p, secondAnchor hits p], 1) := by
  unfold trackCandidate firstAnchor secondAnchor hitPos
  by_cases h : (hitAt hits p.1.2).tagger = "volTaggerBot_0"
  · simp only [h, decide_True, if_true]
  · simp only [h, decide_False, if_false, Bool.false_eq_true]

/-- The loop over `k` for a first anchor that is not a 1D hit appends, in increasing
order, the indices that pass its tests. -/
theorem plainSupportStep_foldl (E : Env R) (alg : CRTTrackRecoAlg R)
    (hits : List (CRTHit R × List Int)) (hit_i hit_j : Nat) (ihit jhit : CRTHit R)
    (start diff : TVector3 R) : ∀ (l : List Nat) (acc : List Nat),
    l.foldl (plainSupportStep E alg hits hit_i hit_j ihit jhit start diff) acc =
      acc ++ l.filter (fun k =>
        decide (¬ (k = hit_i ∨ k = hit_j ∨ (hitAt hits k).tagger = ihit.tagger ∨
          (hitAt hits k).tagger = jhit.tagger)) &&
        (crossDist E (hitAt hits k) start diff).any (fun d => decide (d < alg.fDistanceLimit))) := by
  intro l
  induction l with
  | nil => intro acc; simp
  | cons k l ih =>
    intro acc
    rw [List.foldl_cons, ih, plainSupportStep, List.filter_cons]
    by_cases hc : k = hit_i ∨ k = hit_j ∨ (hitAt hits k).tagger = ihit.tagger ∨
        (hitAt hits k).tagger = jhit.tagger
    · simp [hc]
    · rw [if_neg hc]
      cases hd : crossDist E (hitAt hits k) start diff with
      | none => simp [hc]
      | some d =>
        by_cases hlt : d < alg.fDistanceLimit
        · simp [hc, hlt]
        · simp [hc, hlt]

/-- C22: for a pair whose first anchor has x and z uncertainty at most 100, the candidate
built by `CreateTracks` is the two anchors followed by the list, in increasing order, of
exactly those indices `k` that are neither anchor, whose tagger differs from both
anchors' taggers, and for which the distance between the position of hit `k` and
`CrossPoint` of hit `k` with the line through the two anchors is less than
`DistanceLimit`; its depth factor is 1. -/
theorem trackCandidate_plain (E : Env R) (alg : CRTTrackRecoAlg R)
    (hits : List (CRTHit R × List Int)) (p : (Nat × Nat) × R)
    (hx : (hitAt hits (firstAnchor hits p)).x_err ≤ 100)
    (hz : (hitAt hits (firstAnchor hits p)).z_err ≤ 100) :
    ∃ supp, trackCandidate E alg hits p =
        ([firstAnchor hits p, secondAnchor hits p] ++ supp, 1) ∧
      supp.Pairwise (fun a b => a < b) ∧
      ∀ k, k ∈ supp ↔
        k < hits.length ∧ k ≠ firstAnchor hits p ∧ k ≠ secondAnchor hits p ∧
        (hitAt hits k).tagger ≠ (hitAt hits (firstAnchor hits p)).tagger ∧
        (hitAt hits k).tagger ≠ (hitAt hits (secondAnchor hits p)).tagger ∧
        ∃ cross, CrossPoint (hitAt hits k) (hitPos (hitAt hits (firstAnchor hits p)))
            ((hitPos (hitAt hits (firstAnchor hits p))).sub
              (hitPos (hitAt hits (secondAnchor hits p)))) = some cross ∧
          (cross.sub (hitPos (hitAt hits k))).Mag E < alg.fDistanceLimit := by
  have h1D : ¬ ((hitAt hits (firstAnchor hits p)).x_err > 100 ∨
      (hitAt hits (firstAnchor hits p)).z_err > 100) := by
    rintro (h | h)
    · exact absurd hx (not_le.2 h)
    · exact absurd hz (not_le.2 h)
  rw [trackCandidate_eq, if_neg h1D, plainSupportStep_foldl]
  refine ⟨_, rfl, List.Pairwise.filter _ (List.pairwise_lt_range _), ?_⟩
  intro k
  rw [List.mem_filter, List.mem_range]
  simp only [Bool.and_eq_true, decide_eq_true_eq, not_or, crossDist]
  constructor
  · rintro ⟨hk, ⟨h1, h2, h3, h4⟩, hc⟩
    refine ⟨hk, h1, h2, h3, h4, ?_⟩
    cases hcp : CrossPoint (hitAt hits k) (hitPos (hitAt hits (firstAnchor hits p)))
        ((hitPos (hitAt hits (firstAnchor hits p))).sub
          (hitPos (hitAt hits (secondAnchor hits p)))) with
    | none => rw [hcp] at hc; simp at hc
    | some cross =>
      rw [hcp] at hc
      simp only [Option.map_some', Option.any_some, decide_eq_true_eq] at hc
      exact ⟨cross, rfl, hc⟩
  · rintro ⟨hk, h1, h2, h3, h4, cross, hcp, hlt⟩
    refine ⟨hk, ⟨h1, h2, h3, h4⟩, ?_⟩
    rw [hcp]
    simp only [Option.map_some', Option.any_some, decide_eq_true_eq]
    exact hlt

theorem trackCandidate_plain_witness :
    trackCandidate ratEnv ⟨1, 1, 1⟩ exMixedHits ((0, 1), 20) = ([0, 1, 2], 1) ∧
    (hitAt exMixedHits (firstAnchor exMixedHits ((0, 1), 20))).x_err ≤ 100 ∧
    (hitAt exMixedHits (firstAnchor exMixedHits ((0, 1), 20))).z_err ≤ 100 ∧
    ∃ supp, trackCandidate ratEnv ⟨1, 1, 1⟩ exMixedHits ((0, 1), 20) =
        ([firstAnchor exMixedHits ((0, 1), 20),
          secondAnchor exMixedHits ((0, 1), 20)] ++ supp, 1) ∧
      supp.Pairwise (fun a b => a < b) ∧
      ∀ k, k ∈ supp ↔
        k < exMixedHits.length ∧ k ≠ firstAnchor exMixedHits ((0, 1), 20) ∧
        k ≠ secondAnchor exMixedHits ((0, 1), 20) ∧
        (hitAt exMixedHits k).tagger ≠
          (hitAt exMixedHits (firstAnchor exMixedHits ((0, 1), 20))).tagger ∧
        (hitAt exMixedHits k).tagger ≠
          (hitAt exMixedHits (secondAnchor exMixedHits ((0, 1), 20))).tagger ∧
        ∃ cross, CrossPoint (hitAt exMixedHits k)
            (hitPos (hitAt exMixedHits (firstAnchor exMixedHits ((0, 1), 20))))
            ((hitPos (hitAt exMixedHits
                (firstAnchor exMixedHits ((0, 1), 20)))).sub
              (hitPos (hitAt exMixedHits
                (secondAnchor exMixedHits ((0, 1), 20))))) = some cross ∧
          (cross.sub (hitPos (hitAt exMixedHits k))).Mag ratEnv < (1 : ℚ) :=
  ⟨by decide!, by decide!, by decide!,
    trackCandidate_plain ratEnv ⟨1, 1, 1⟩ exMixedHits ((0, 1), 20) (by decide!)
      (by decide!)⟩

/-- C24 at a failing input: hit 2 of `exUnmatchedHits` has no uncertainty between 0.39 and
0.41, `CrossPoint` returns the origin for it, and since the hit lies 0.5 from the origin
it becomes a supporting hit of the pair of hits 0 and 1, whose line `x = 100, z = 100`
passes far from it; the track of the candidate `[0, 1, 2]` is the one emitted. -/
theorem trackCandidate_exUnmatchedHits :
    ((0, 1), 20) ∈ (hitPairLoop ratEnv exUnmatchedHits).2 ∧
    matchAxis (hitAt exUnmatchedHits 2) = none ∧
    CrossPoint (hitAt exUnmatchedHits 2) (hitPos (hitAt exUnmatchedHits 0))
      ((hitPos (hitAt exUnmatchedHits 0)).sub (hitPos (hitAt exUnmatchedHits 1))) =
        some ⟨0, 0, 0⟩ ∧
    trackCandidate ratEnv ⟨1, 1, 1⟩ exUnmatchedHits ((0, 1), 20) = ([0, 1, 2], 1) ∧
    acceptedCandidates ratEnv ⟨1, 1, 1⟩ exUnmatchedHits = [([0, 1, 2], 1)] ∧
    (CreateTracks ratEnv ⟨1, 1, 1⟩ exUnmatchedHits).length = 1 := by
  refine ⟨by decide!, by decide!, by decide!, by decide!, by decide!, by decide!⟩

/-! ## The step kept by the 21-step scan -/

/-- One step of the scan in terms of the supporting hits of the step. -/
theorem scanStep_eq (E : Env R) (alg : CRTTrackRecoAlg R) (hits : List (CRTHit R × List Int))
    (p : (Nat × Nat) × R) (st : ScanState R) (i : Nat) :
    scanStep E alg hits (firstAnchor hits p) (secondAnchor hits p)
        (hitAt hits (firstAnchor hits p)) (hitAt hits (secondAnchor hits p)) st i =
      if (scanSupport E alg hits p i).1.length ≥ st.nhitsMax.length ∧
          (scanSupport E alg hits p i).1.length ≠ 0 ∧
          (scanSupport E alg hits p i).2 / ((scanSupport E alg hits p i).1.length : R) <
            st.minDist then
        ⟨(i : R) / 10, (scanSupport E alg hits p i).1,
          (scanSupport E alg hits p i).2 / ((scanSupport E alg hits p i).1.length : R)⟩
      else st := rfl

/-- One step of the scan keeps the invariant `ScanKept`, the kept step following the
running test. -/
theorem scanStep_kept (E : Env R) (alg : CRTTrackRecoAlg R) (hits : List (CRTHit R × List Int))
    (p : (Nat × Nat) × R) (done : List Nat) (kept : Option Nat) (st : ScanState R) (i : Nat)
    (h : ScanKept (scanSupport E alg hits p) done kept st) :
    ScanKept (scanSupport E alg hits p) (done ++ [i])
      (runningStep (scanSupport E alg hits p) kept i)
      (scanStep E alg hits (firstAnchor hits p) (secondAnchor hits p)
        (hitAt hits (firstAnchor hits p)) (hitAt hits (secondAnchor hits p)) st i) := by
  have hlink : st.nhitsMax.length = keptCount (scanSupport E alg hits p) kept ∧
      st.minDist = keptDist (scanSupport E alg hits p) kept := by
    rcases h with ⟨rfl, hn, _, hm, _⟩ | ⟨k, rfl, _, hn, _, hm, _⟩
    · exact ⟨by rw [hn]; rfl, hm⟩
    · exact ⟨by rw [hn]; rfl, hm⟩
  rw [scanStep_eq, runningStep, hlink.1, hlink.2]
  split_ifs with hc
  · obtain ⟨hge, hne, hlt⟩ := hc
    refine Or.inr ⟨i, rfl, by simp, rfl, rfl, rfl, ?_, ?_, ?_⟩
    · intro h0
      rw [h0] at hne
      exact hne rfl
    · rcases h with ⟨rfl, _, _, _, _⟩ | ⟨k, rfl, _, _, _, hm, _, hm9, _⟩
      · exact hlt
      · rw [hm] at hm9
        exact lt_trans hlt hm9
    · intro j hj hjne hlen
      rcases List.mem_append.1 hj with hj | hj
      · rcases h with ⟨rfl, _, _, _, hall⟩ | ⟨k, rfl, _, _, _, hm, _, _, hall⟩
        · rcases hall j hj with h0 | h0
          · exact absurd h0 hjne
          · exact le_trans (le_of_lt hlt) h0
        · rw [hm] at hall
          exact le_trans (le_of_lt hlt) (hall j hj hjne (le_trans hge hlen))
      · rw [List.mem_singleton.1 hj]
  · rcases h with ⟨rfl, hn, hf, hm, hall⟩ | ⟨k, rfl, hk, hn, hf, hm, hne0, hm9, hall⟩
    · refine Or.inl ⟨rfl, hn, hf, hm, ?_⟩
      intro j hj
      rcases List.mem_append.1 hj with hj | hj
      · exact hall j hj
      · rw [List.mem_singleton.1 hj]
        by_contra hcon
        rw [not_or, not_le] at hcon
        apply hc
        refine ⟨Nat.zero_le _, ?_, hcon.2⟩
        intro h0
        exact hcon.1 (List.length_eq_zero.1 h0)
    · refine Or.inr ⟨k, rfl, List.mem_append_left _ hk, hn, hf, hm, hne0, hm9, ?_⟩
      intro j hj hjne hlen
      rcases List.mem_append.1 hj with hj | hj
      · exact hall j hj hjne hlen
      · rw [List.mem_singleton.1 hj] at hjne hlen ⊢
        by_contra hcon
        apply hc
        refine ⟨hlen, ?_, ?_⟩
        · intro h0
          exact hjne (List.length_eq_zero.1 h0)
        · rw [hm] at hcon
          exact not_le.1 hcon

/-- The scan keeps the invariant `ScanKept` over any list of steps, the kept step being
the one the running test keeps. -/
theorem scanStep_foldl_kept (E : Env R) (alg : CRTTrackRecoAlg R)
    (hits : List (CRTHit R × List Int)) (p : (Nat × Nat) × R) :
    ∀ (l done : List Nat) (kept : Option Nat) (st : ScanState R),
    ScanKept (scanSupport E alg hits p) done kept st →
    ScanKept (scanSupport E alg hits p) (done ++ l)
      (l.foldl (runningStep (scanSupport E alg hits p)) kept)
      (l.foldl (scanStep E alg hits (firstAnchor hits p) (secondAnchor hits p)
        (hitAt hits (firstAnchor hits p)) (hitAt hits (secondAnchor hits p))) st) := by
  intro l
  induction l with
  | nil => intro done kept st h; simpa using h
  | cons i l ih =>
    intro done kept st h
    have := ih (done ++ [i]) _ _ (scanStep_kept E alg hits p done kept st i h)
    rw [List.append_assoc] at this
    exact this

/-- C21, refuted as stated: for the pair of hits 0 and 1 of `exGreedyHits` (first anchor
a 1D hit, distance limit 15) step 0 of the scan has the one supporting hit 2 at distance
0 and step 1 has the two supporting hits 2 and 3 at distance 10 each; the scan keeps
step 0, whose number of supporting hits is not the maximum over the steps. -/
theorem trackCandidate_scan_not_best :
    ((0, 1), 20) ∈ (hitPairLoop ratEnv exGreedyHits).2 ∧
    (hitAt exGreedyHits (firstAnchor exGreedyHits ((0, 1), 20))).x_err > 100 ∧
    trackCandidate ratEnv ⟨1, 1, 15⟩ exGreedyHits ((0, 1), 20) = ([0, 1, 2], 0) ∧
    scanSupport ratEnv ⟨1, 1, 15⟩ exGreedyHits ((0, 1), 20) 0 = ([2], 0) ∧
    scanSupport ratEnv ⟨1, 1, 15⟩ exGreedyHits ((0, 1), 20) 1 = ([2, 3], 20) ∧
    ¬ (∀ j, j < 21 →
      (scanSupport ratEnv ⟨1, 1, 15⟩ exGreedyHits ((0, 1), 20) j).1.length ≤
        (scanSupport ratEnv ⟨1, 1, 15⟩ exGreedyHits ((0, 1), 20) 0).1.length) := by
  have h0 : scanSupport ratEnv ⟨1, 1, 15⟩ exGreedyHits ((0, 1), 20) 0 = ([2], 0) := by decide!
  have h1 : scanSupport ratEnv ⟨1, 1, 15⟩ exGreedyHits ((0, 1), 20) 1 = ([2, 3], 20) := by
    decide!
  refine ⟨by decide!, by decide!, by decide!, h0, h1, fun h => ?_⟩
  have h2 := h 1 (by decide)
  rw [h0, h1] at h2
  exact absurd h2 (by decide)

/-- C21, amended: for a pair whose first anchor is a 1D hit, the scan goes through the
steps `i = 0, ..., 20` of the grid `f = i/10` in order and keeps a step by a running
test (`runningKept`): a step becomes the kept step when it has at least one supporting
hit, at least as many supporting hits as the step kept so far (none at the start) and a
strictly smaller average supporting distance than it (99999 at the start). If the test
ends with the kept step `i`, the candidate is the two anchors followed by the supporting
hits of step `i`, with depth factor `i/10`; step `i` has an average supporting distance
below 99999, and among the steps with at least as many supporting hits as step `i`,
step `i` has the smallest average supporting distance. If the test keeps no step, the
candidate is the two anchors with depth factor 1, and every step has no supporting hit
or an average of at least 99999. -/
theorem trackCandidate_scan_kept (E : Env R) (alg : CRTTrackRecoAlg R)
    (hits : List (CRTHit R × List Int)) (p : (Nat × Nat) × R)
    (h1D : (hitAt hits (firstAnchor hits p)).x_err > 100 ∨
      (hitAt hits (firstAnchor hits p)).z_err > 100) :
    (∃ i, i < 21 ∧
      runningKept (scanSupport E alg hits p) (List.range 21) = some i ∧
      trackCandidate E alg hits p =
        ([firstAnchor hits p, secondAnchor hits p] ++ (scanSupport E alg hits p i).1,
          (i : R) / 10) ∧
      (scanSupport E alg hits p i).1 ≠ [] ∧ scanAverage E alg hits p i < 99999 ∧
      ∀ j, j < 21 → (scanSupport E alg hits p j).1 ≠ [] →
        (scanSupport E alg hits p i).1.length ≤ (scanSupport E alg hits p j).1.length →
        scanAverage E alg hits p i ≤ scanAverage E alg hits p j) ∨
    (runningKept (scanSupport E alg hits p) (List.range 21) = none ∧
      trackCandidate E alg hits p = ([firstAnchor hits p, secondAnchor hits p], 1) ∧
      ∀ j, j < 21 → (scanSupport E alg hits p j).1 = [] ∨
        99999 ≤ scanAverage E alg hits p j) := by
  have hinit : ScanKept (scanSupport E alg hits p) [] none (⟨1, [], 99999⟩ : ScanState R) :=
    Or.inl ⟨rfl, rfl, rfl, rfl, fun j hj => absurd hj (List.not_mem_nil j)⟩
  have hk := scanStep_foldl_kept E alg hits p (List.range 21) [] none
    (⟨1, [], 99999⟩ : ScanState R) hinit
  rw [List.nil_append] at hk
  rw [trackCandidate_eq, if_pos h1D]
  unfold runningKept
  rcases hk with ⟨hkept, hn, hf, _, hall⟩ | ⟨i, hkept, hi, hn, hf, hmd, hne, hm, hall⟩
  · refine Or.inr ⟨hkept, ?_, fun j hj => hall j (List.mem_range.2 hj)⟩
    rw [hn, hf, List.append_nil]
  · refine Or.inl ⟨i, List.mem_range.1 hi, hkept, ?_, hne, ?_, ?_⟩
    · rw [hn, hf]
    · rw [hmd] at hm
      exact hm
    · intro j hj hjne hlen
      rw [hmd] at hall
      exact hall j (List.mem_range.2 hj) hjne hlen

theorem trackCandidate_scan_kept_witness :
    ((hitAt exGreedyHits (firstAnchor exGreedyHits ((0, 1), 20))).x_err > 100 ∨
      (hitAt exGreedyHits (firstAnchor exGreedyHits ((0, 1), 20))).z_err > 100) ∧
    runningKept (scanSupport ratEnv ⟨1, 1, 15⟩ exGreedyHits ((0, 1), 20)) (List.range 21) =
      some 0 ∧
    trackCandidate ratEnv ⟨1, 1, 15⟩ exGreedyHits ((0, 1), 20) = ([0, 1, 2], 0) ∧
    ((∃ i, i < 21 ∧
      runningKept (scanSupport ratEnv ⟨1, 1, 15⟩ exGreedyHits ((0, 1), 20)) (List.range 21) =
        some i ∧
      trackCandidate ratEnv ⟨1, 1, 15⟩ exGreedyHits ((0, 1), 20) =
        ([firstAnchor exGreedyHits ((0, 1), 20), secondAnchor exGreedyHits ((0, 1), 20)] ++
          (scanSupport ratEnv ⟨1, 1, 15⟩ exGreedyHits ((0, 1), 20) i).1, (i : ℚ) / 10) ∧
      (scanSupport ratEnv ⟨1, 1, 15⟩ exGreedyHits ((0, 1), 20) i).1 ≠ [] ∧
      scanAverage ratEnv ⟨1, 1, 15⟩ exGreedyHits ((0, 1), 20) i < 99999 ∧
      ∀ j, j < 21 → (scanSupport ratEnv ⟨1, 1, 15⟩ exGreedyHits ((0, 1), 20) j).1 ≠ [] →
        (scanSupport ratEnv ⟨1, 1, 15⟩ exGreedyHits ((0, 1), 20) i).1.length ≤
          (scanSupport ratEnv ⟨1, 1, 15⟩ exGreedyHits ((0, 1), 20) j).1.length →
        scanAverage ratEnv ⟨1, 1, 15⟩ exGreedyHits ((0, 1), 20) i ≤
          scanAverage ratEnv ⟨1, 1, 15⟩ exGreedyHits ((0, 1), 20) j) ∨
    (runningKept (scanSupport ratEnv ⟨1, 1, 15⟩ exGreedyHits ((0, 1), 20)) (List.range 21) =
        none ∧
      trackCandidate ratEnv ⟨1, 1, 15⟩ exGreedyHits ((0, 1), 20) =
        ([firstAnchor exGreedyHits ((0, 1), 20), secondAnchor exGreedyHits ((0, 1), 20)], 1) ∧
      ∀ j, j < 21 → (scanSupport ratEnv ⟨1, 1, 15⟩ exGreedyHits ((0, 1), 20) j).1 = [] ∨
        99999 ≤ scanAverage ratEnv ⟨1, 1, 15⟩ exGreedyHits ((0, 1), 20) j)) :=
  ⟨by decide!, by decide!, by decide!,
    trackCandidate_scan_kept ratEnv ⟨1, 1, 15⟩ exGreedyHits ((0, 1), 20) (by decide!)⟩

/-! ## The two overloads of `CreateTracks` -/

theorem hitOf_map (hits : List (CRTHit R × List Int)) (k : Nat) :
    hitOf (hits.map Prod.fst) k = hitAt hits k := by
  unfold hitOf hitAt
  rw [List.getElem?_map]
  cases hits[k]? <;> rfl

theorem pairStepHits_map (E : Env R) (hits : List (CRTHit R × List Int)) (i j : Nat)
    (st : List (Nat × Nat) × List ((Nat × Nat) × R)) :
    pairStepHits E (hits.map Prod.fst) i j st = pairStep E hits i j st := by
  unfold pairStepHits pairStep
  simp only [hitOf_map]

theorem hitPairLoopHits_map (E : Env R) (hits : List (CRTHit R × List Int)) :
    hitPairLoopHits E (hits.map Prod.fst) = hitPairLoop E hits := by
  unfold hitPairLoopHits hitPairLoop
  simp only [List.length_map, pairStepHits_map]

theorem scanSupportStepHits_map (E : Env R) (alg : CRTTrackRecoAlg R)
    (hits : List (CRTHit R × List Int)) (hit_i hit_j : Nat) (ihit jhit : CRTHit R)
    (start diff : TVector3 R) :
    scanSupportStepHits E alg (hits.map Prod.fst) hit_i hit_j ihit jhit start diff =
      scanSupportStep E alg hits hit_i hit_j ihit jhit start diff := by
  funext st k
  unfold scanSupportStepHits scanSupportStep
  simp only [hitOf_map]

theorem scanStepHits_map (E : Env R) (alg : CRTTrackRecoAlg R)
    (hits : List (CRTHit R × List Int)) (hit_i hit_j : Nat) (ihit jhit : CRTHit R) :
    scanStepHits E alg (hits.map Prod.fst) hit_i hit_j ihit jhit =
      scanStep E alg hits hit_i hit_j ihit jhit := by
  funext st i
  unfold scanStepHits scanStep
  simp only [List.length_map, scanSupportStepHits_map]

theorem plainSupportStepHits_map (E : Env R) (alg : CRTTrackRecoAlg R)
    (hits : List (CRTHit R × List Int)) (hit_i hit_j : Nat) (ihit jhit : CRTHit R)
    (start diff : TVector3 R) :
    plainSupportStepHits E alg (hits.map Prod.fst) hit_i hit_j ihit jhit start diff =
      plainSupportStep E alg hits hit_i hit_j ihit jhit start diff := by
  funext trackCand k
  unfold plainSupportStepHits plainSupportStep
  simp only [hitOf_map]

theorem trackCandidateHits_map (E : Env R) (alg : CRTTrackRecoAlg R)
    (hits : List (CRTHit R × List Int)) :
    trackCandidateHits E alg (hits.map Prod.fst) = trackCandidate E alg hits := by
  funext p
  unfold trackCandidateHits trackCandidate
  simp only [List.length_map, hitOf_map, scanStepHits_map, plainSupportStepHits_map]

theorem sortedTracksHits_map (E : Env R) (alg : CRTTrackRecoAlg R)
    (hits : List (CRTHit R × List Int)) :
    sortedTracksHits E alg (hits.map Prod.fst) = sortedTracks E alg hits := by
  unfold sortedTracksHits sortedTracks sortedHitPairDistHits sortedHitPairDist
  rw [hitPairLoopHits_map, trackCandidateHits_map]

theorem emitTrackHits_map (E : Env R) (hits : List (CRTHit R × List Int))
    (track : List Nat × R) :
    emitTrackHits E (hits.map Prod.fst) track = (emitTrack E hits track).1 := by
  unfold emitTrackHits emitTrack
  simp only [hitOf_map]

theorem selectLoopHits_map (E : Env R) (hits : List (CRTHit R × List Int)) :
    ∀ (tracks : List (List Nat × R)) (usedHits : List Nat),
    selectLoopHits E (hits.map Prod.fst) tracks usedHits =
      (selectLoop E hits tracks usedHits).map Prod.fst := by
  intro tracks
  induction tracks with
  | nil => intro _; simp [selectLoopHits, selectLoop]
  | cons track rest ih =>
    intro usedHits
    rw [selectLoopHits, selectLoop]
    split
    · exact ih usedHits
    · rw [List.map_cons, ih, emitTrackHits_map]

/-- C28: the two overloads of `CreateTracks` agree: the tracks returned for a list of
(hit, id-list) pairs are, in the same order and with the same fields (the `complete`
flag included), the tracks returned by the overload on hits for the list of the hits
alone. -/
theorem CreateTracks_overloads_agree (E : Env R) (alg : CRTTrackRecoAlg R)
    (hits : List (CRTHit R × List Int)) :
    (CreateTracks E alg hits).map Prod.fst = CreateTracksHits E alg (hits.map Prod.fst) := by
  unfold CreateTracks CreateTracksHits
  rw [sortedTracksHits_map, selectLoopHits_map]

/-! ## Rounding to binary32 -/

/-- With exact sums, `DoAverageFloat` is `DoAverage`. -/
theorem DoAverageFloat_id (E : Env R) (hits : List (HitPtr R)) :
    DoAverageFloat id E hits = DoAverage E hits := rfl

end icarus.crt
